import Mathlib

/-!
# The map generator driver `main.go`

A shallow embedding of `processMap` and `loadTerrainMaps` and the properties proved of them.

* Strings are Lean strings; the path functions of `path/filepath` used by the program
  (`Join`, with the `Clean` it applies) are modelled for Unix paths.
* The process environment is a `World`: working directory, files, directories, the
  operations that fail, and the trace of the calls made. `processMap` is a function from a
  world to its outcome and the world it leaves.
* The generator `GenerateMap` and the JSON decoder and encoder are parameters (`Env`).
* `loadTerrainMaps` is a transition system over the main goroutine and the goroutines it
  starts, run under an arbitrary schedule; a job's call of `processMap` is one turn whose
  result is given by an assignment of outcomes to the jobs.
-/

namespace MapGenerator

/-- Contents of a file, one number per byte. -/
abbrev Bytes := List Nat

namespace filepath

/-- Path elements of a path: the runs of characters between separators. -/
def elements : List Char → List (List Char)
  | [] => [[]]
  | c :: cs =>
    if c = '/' then [] :: elements cs
    else
      match elements cs with
      | [] => [[c]]
      | e :: es => (c :: e) :: es

/-- A path is rooted when it begins with a separator. -/
def isRooted : List Char → Bool
  | [] => false
  | c :: _ => decide (c = '/')

/-- One round of the lexical cleaning loop of `Clean`: `out` holds the elements kept so far,
most recent first. Empty and `.` elements are dropped, `..` removes the element before it
(or is kept when there is nothing to remove in a relative path), other elements are kept. -/
def cleanStep (rooted : Bool) (out : List (List Char)) (e : List Char) : List (List Char) :=
  if e = [] ∨ e = ['.'] then out
  else if e = ['.', '.'] then
    match out with
    | [] => if rooted then [] else [e]
    | top :: below => if top = ['.', '.'] then e :: top :: below else below
  else e :: out

/-- The elements written with one separator between neighbours (`strings.Join(_, "/")`). -/
def joinElements : List (List Char) → List Char
  | [] => []
  | [e] => e
  | e :: f :: es => e ++ '/' :: joinElements (f :: es)

/-- The text of a cleaned path from the kept elements (most recent first). -/
def render (rooted : Bool) (out : List (List Char)) : List Char :=
  if rooted then '/' :: joinElements out.reverse
  else
    match out with
    | [] => ['.']
    | _ :: _ => joinElements out.reverse

/-- Cleaning on characters. -/
def cleanChars (path : List Char) : List Char :=
  render (isRooted path) ((elements path).foldl (cleanStep (isRooted path)) [])

/-- Go `filepath.Clean` (Unix): the shortest path name equivalent to `path` by purely
lexical processing. -/
def Clean (path : String) : String :=
  ⟨cleanChars path.data⟩

/-- Go `filepath.Join` (Unix): the elements from the first non-empty one on are joined with
the separator and the result is cleaned; with no non-empty element the result is empty. -/
def Join (elem : List String) : String :=
  match elem.dropWhile (fun e => decide (e = "")) with
  | [] => ""
  | e :: es => Clean ⟨joinElements ((e :: es).map String.data)⟩

/-- The part of a path up to and including its last separator. -/
def dirPart : List Char → List Char
  | [] => []
  | c :: cs => if '/' ∈ cs then c :: dirPart cs else if c = '/' then [c] else []

/-- Go `filepath.Dir` (Unix): all but the last element of `path`, cleaned. -/
def Dir (path : String) : String :=
  Clean ⟨dirPart path.data⟩

/-- An ordinary path element: not empty, free of separators, neither `.` nor `..`. -/
def Plain (e : List Char) : Prop :=
  e ≠ [] ∧ e ≠ ['.'] ∧ e ≠ ['.', '.'] ∧ '/' ∉ e

instance (e : List Char) : Decidable (Plain e) := by
  unfold Plain; infer_instance

/-- Shape of the element stack kept by the cleaning loop: no empty or `.` element, no
separator inside an element, and `..` only in a relative path with nothing but `..` below. -/
def GoodStack (r : Bool) : List (List Char) → Prop
  | [] => True
  | e :: below =>
    e ≠ [] ∧ e ≠ ['.'] ∧ '/' ∉ e ∧
      (e = ['.', '.'] → r = false ∧ ∀ b ∈ below, b = ['.', '.']) ∧ GoodStack r below

/-- Text of the kept elements when more elements follow: it ends with a separator unless
nothing was kept in a relative path. -/
def prefixOfStack (r : Bool) : List (List Char) → List Char
  | [] => if r then ['/'] else []
  | e :: out => render r (e :: out) ++ ['/']

/-- What `Join (p :: es)` puts in front of the joined plain elements `es`. -/
def joinPrefix (p : List Char) : List Char :=
  match p with
  | [] => []
  | _ :: _ => prefixOfStack (isRooted p) ((elements p).foldl (cleanStep (isRooted p)) [])

end filepath


/-! ## Errors -/

/-- The operation named in a `*fs.PathError` of package `os`. -/
inductive FileOp
  | opOpen
  | opRead
  | opWrite
  | opClose
  | opMkdir
  deriving DecidableEq, Repr

/-- The `Op` field as text. -/
def FileOp.text : FileOp → String
  | .opOpen => "open"
  | .opRead => "read"
  | .opWrite => "write"
  | .opClose => "close"
  | .opMkdir => "mkdir"

/-- Non-nil Go `error` values met by the program: an error of a collaborator known only by
its text, the `*fs.PathError` of a failed file operation (`Err` is the text of the system
error), and the `*fmt.wrapError` built by `fmt.Errorf` with the `%w` verb. -/
inductive GoError
  | errorString (s : String)
  | pathError (Op : FileOp) (Path : String) (Err : String)
  | wrapError (msg : String) (err : GoError)
  deriving DecidableEq, Repr

/-- The method `Error()`. -/
def GoError.Error : GoError → String
  | .errorString s => s
  | .pathError op path err => op.text ++ " " ++ path ++ ": " ++ err
  | .wrapError msg _ => msg

/-- The error `fmt.Errorf(format, ..., err)` of a format whose last verb is `%w`: `msg` is
the formatted text (each `%s` replaced by its string, `%w` by `err.Error()`), and `err` is
the wrapped error. -/
def fmt.Errorf (msg : String) (err : GoError) : GoError :=
  .wrapError msg err

/-! ## Dynamic values and the manifest -/

/-- Dynamic values held in an `interface{}`: what `encoding/json` decodes into (`nil`, `bool`,
`float64`, `string`, `[]interface{}`, `map[string]interface{}`) and the `int` stored by
`processMap`. A `float64` is kept as the number literal it was decoded from. -/
inductive Value
  | null
  | bool (b : Bool)
  | float64 (lit : String)
  | int (n : Int)
  | string (s : String)
  | slice (xs : List Value)
  | map (kvs : List (String × Value))

/-- A non-nil `map[string]interface{}`: the entries, the binding of a key being the first
entry with that key. -/
abbrev GoMap := List (String × Value)

/-- The lookup `m[k]`, with the presence flag. -/
def GoMap.get (m : GoMap) (k : String) : Option Value :=
  match m with
  | [] => none
  | (k0, v) :: rest => if k0 = k then some v else GoMap.get rest k

/-- The assignment `m[k] = v`: any binding of `k` is replaced. -/
def GoMap.set (m : GoMap) (k : String) (v : Value) : GoMap :=
  (k, v) :: m.filter (fun kv => decide (kv.1 ≠ k))

/-! ## The generator -/

/-- Modelled from the spec: the declaration of `GeneratorArgs` is in a file of the package
that is missing from the sources. The fields are the ones `processMap` sets: the raw encoded
image bytes, the flag for small-island removal, and the name of the asset. -/
structure GeneratorArgs where
  ImageBuffer : Bytes
  RemoveSmall : Bool
  Name : String
  deriving DecidableEq, Repr

/-- Modelled from the spec: the declaration of the result of `GenerateMap` is in a file of
the package that is missing from the sources. The fields are the ones `processMap` reads: two
tile buffers and a thumbnail buffer, and width, height and land-tile count (integers) of
the full map and of the miniature map. -/
structure MapResult where
  Map : Bytes
  MiniMap : Bytes
  Thumbnail : Bytes
  MapWidth : Int
  MapHeight : Int
  MapNumLandTiles : Int
  MiniMapWidth : Int
  MiniMapHeight : Int
  MiniMapNumLandTiles : Int
  deriving DecidableEq, Repr

/-- The collaborators of `processMap` that live outside `main.go`, taken as parameters: the
generator `GenerateMap` of this package (a function of its arguments), the decoding of a
JSON document into a dynamic value by `encoding/json` (an error for a document that is not
valid JSON or holds a number that is no `float64`), and `json.MarshalIndent`. -/
structure Env where
  GenerateMap : GeneratorArgs → Except GoError MapResult
  jsonDecode : Bytes → Except GoError Value
  MarshalIndent : GoMap → String → String → Except GoError Bytes

/-! ## The file system -/

/-- Calls made to the operating system and to the collaborators, in order. -/
inductive Event
  | getwd
  | readFile (name : String)
  | unmarshal (data : Bytes)
  | generateMap (args : GeneratorArgs)
  | mkdirAll (path : String)
  | writeFile (name : String) (data : Bytes)
  | marshalIndent (v : GoMap)

/-- A failure of `os.WriteFile`: the failing operation, the system error text, and what the
file holds afterwards when the failure came after the file was opened. -/
structure WriteFault where
  op : FileOp
  errno : String
  left : Bytes
  deriving DecidableEq, Repr

/-- State of the process environment: the working directory (or the error of `os.Getwd`),
the regular files and the directories by path, the operations that fail for a reason other
than a missing file or a missing directory (permissions, a directory in the place of a file,
a full disk: `readFault`, `mkdirFault`, `writeFault` give the failing operation and the text
of the system error), and the calls made so far. -/
structure World where
  cwd : Except GoError String
  files : String → Option Bytes
  dirs : String → Bool
  readFault : String → Option (FileOp × String)
  mkdirFault : String → Option String
  writeFault : String → Option WriteFault
  trace : List Event

/-- Appends a call to the trace. -/
def World.log (w : World) (e : Event) : World :=
  { w with trace := w.trace ++ [e] }

/-- Go `os.Getwd`: the working directory, or an error. -/
def os.Getwd (w : World) : Except GoError String × World :=
  (w.cwd, w.log .getwd)

/-- Go `os.ReadFile`: the content of the named file, or a `*PathError` naming it. -/
def os.ReadFile (name : String) (w : World) : Except GoError Bytes × World :=
  match w.readFault name with
  | some (op, errno) => (.error (.pathError op name errno), w.log (.readFile name))
  | none =>
    match w.files name with
    | none =>
      (.error (.pathError .opOpen name "no such file or directory"), w.log (.readFile name))
    | some data => (.ok data, w.log (.readFile name))

/-- Whether `q` is `path` or lexically a directory above it. -/
def isSelfOrAncestor (q path : String) : Bool :=
  decide (q = path) || (q.data ++ ['/']).isPrefixOf path.data ||
    (decide (q = "/") && filepath.isRooted path.data)

/-- Go `os.MkdirAll`: creates the directory and the missing parents, or fails with a
`*PathError`; nothing to do and no error when the directory exists already. -/
def os.MkdirAll (path : String) (w : World) : Option GoError × World :=
  match w.mkdirFault path with
  | some errno => (some (.pathError .opMkdir path errno), w.log (.mkdirAll path))
  | none =>
    (none, { w.log (.mkdirAll path) with dirs := fun q => w.dirs q || isSelfOrAncestor q path })

/-- Go `os.WriteFile`: creates or truncates the named file and writes `data`. A failure of
its open, write or close is a `*PathError` with the name of the file as `Path`; the open
fails in particular when the directory of the file does not exist. A failure after the open
leaves the file with whatever was written (`left`). -/
def os.WriteFile (name : String) (data : Bytes) (w : World) : Option GoError × World :=
  match w.writeFault name with
  | some ft =>
    (some (.pathError ft.op name ft.errno),
      if ft.op = .opOpen then w.log (.writeFile name data)
      else { w.log (.writeFile name data) with
             files := fun q => if q = name then some ft.left else w.files q })
  | none =>
    if w.dirs (filepath.Dir name) then
      (none, { w.log (.writeFile name data) with
               files := fun q => if q = name then some data else w.files q })
    else
      (some (.pathError .opOpen name "no such file or directory"), w.log (.writeFile name data))

/-- The JSON kind named in a `*json.UnmarshalTypeError`. -/
def Value.kind : Value → String
  | .null => "null"
  | .bool _ => "bool"
  | .float64 _ => "number"
  | .int _ => "number"
  | .string _ => "string"
  | .slice _ => "array"
  | .map _ => "object"

/-- Go `json.Unmarshal(data, &v)` for `v` of type `map[string]interface{}`: a document that
does not decode is an error; the literal `null` sets `v` to the nil map without error; an
object stores its members into `v`, allocating the map when `v` is nil; any other document
is a type error. The result is the error or the new value of `v` (`none` is the nil map). -/
def json.Unmarshal (env : Env) (data : Bytes) (v : Option GoMap) (w : World) :
    Except GoError (Option GoMap) × World :=
  match env.jsonDecode data with
  | .error err => (.error err, w.log (.unmarshal data))
  | .ok .null => (.ok none, w.log (.unmarshal data))
  | .ok (.map kvs) =>
    (.ok (some (kvs.foldl (fun m kv => GoMap.set m kv.1 kv.2) (v.getD []))),
      w.log (.unmarshal data))
  | .ok other =>
    (.error (.errorString ("json: cannot unmarshal " ++ other.kind ++
        " into Go value of type map[string]interface {}")), w.log (.unmarshal data))

/-- Go `json.MarshalIndent(v, prefix, indent)`. -/
def json.MarshalIndent (env : Env) (v : GoMap) (pre indent : String) (w : World) :
    Except GoError Bytes × World :=
  (env.MarshalIndent v pre indent, w.log (.marshalIndent v))

/-- The call `GenerateMap(args)`. -/
def GenerateMap (env : Env) (args : GeneratorArgs) (w : World) :
    Except GoError MapResult × World :=
  (env.GenerateMap args, w.log (.generateMap args))

/-! ## `main.go` -/

/-- An entry of the catalog `maps`. -/
structure MapItem where
  Name : String
  IsTest : Bool := false
  deriving DecidableEq, Repr

/-- The package variable `maps`. -/
def maps : List MapItem :=
  [ { Name := "africa" },
    { Name := "asia" },
    { Name := "world" },
    { Name := "giantworldmap" },
    { Name := "blacksea" },
    { Name := "europe" },
    { Name := "europeclassic" },
    { Name := "mars" },
    { Name := "mena" },
    { Name := "oceania" },
    { Name := "northamerica" },
    { Name := "southamerica" },
    { Name := "britannia" },
    { Name := "gatewaytotheatlantic" },
    { Name := "australia" },
    { Name := "pangaea" },
    { Name := "iceland" },
    { Name := "betweentwoseas" },
    { Name := "eastasia" },
    { Name := "faroeislands" },
    { Name := "deglaciatedantarctica" },
    { Name := "falklandislands" },
    { Name := "baikal" },
    { Name := "halkidiki" },
    { Name := "big_plains", IsTest := true },
    { Name := "half_land_half_ocean", IsTest := true },
    { Name := "ocean_and_land", IsTest := true },
    { Name := "plains", IsTest := true } ]

/-- How a call of `processMap` ends: it returns its `error` result (`none` is `nil`), or the
goroutine panics. -/
inductive Outcome
  | returned (err : Option GoError)
  | panicked (msg : String)
  deriving DecidableEq, Repr

/-- The local `mapDir` of `processMap`. -/
def mapDir (isTest : Bool) : String :=
  if isTest then "test_maps" else "maps"

/-- The local `mapPath` of `processMap`. -/
def mapPath (cwd : String) (isTest : Bool) (name : String) : String :=
  filepath.Join [cwd, "assets", mapDir isTest, name, "image.png"]

/-- The local `manifestPath` of `processMap`. -/
def manifestPath (cwd : String) (isTest : Bool) (name : String) : String :=
  filepath.Join [cwd, "assets", mapDir isTest, name, "info.json"]

/-- The local `outputPath` of `processMap`. -/
def outputPath (cwd : String) (isTest : Bool) (name : String) : String :=
  filepath.Join [cwd, "generated", mapDir isTest, name]

/-- The record stored under `"map"`. -/
def mapRecord (result : MapResult) : Value :=
  .map [("width", .int result.MapWidth), ("height", .int result.MapHeight),
    ("num_land_tiles", .int result.MapNumLandTiles)]

/-- The record stored under `"mini_map"`. -/
def miniMapRecord (result : MapResult) : Value :=
  .map [("width", .int result.MiniMapWidth), ("height", .int result.MiniMapHeight),
    ("num_land_tiles", .int result.MiniMapNumLandTiles)]

/-- The two assignments `manifest["map"] = ...; manifest["mini_map"] = ...` on a non-nil
manifest. -/
def mergeManifest (manifest : GoMap) (result : MapResult) : GoMap :=
  (manifest.set "map" (mapRecord result)).set "mini_map" (miniMapRecord result)

/-- The part of `processMap` after the manifest is merged: create the output directory,
write the three generated files, serialise the manifest and write it. -/
def persist (env : Env) (name cwd : String) (isTest : Bool) (result : MapResult)
    (manifest : GoMap) (w : World) : Outcome × World :=
  let outputPath := outputPath cwd isTest name
  match os.MkdirAll outputPath w with
  | (some err, w) =>
    (.returned (some (fmt.Errorf
      ("failed to create output directory for " ++ name ++ ": " ++ err.Error) err)), w)
  | (none, w) =>
  match os.WriteFile (filepath.Join [outputPath, "map.bin"]) result.Map w with
  | (some err, w) =>
    (.returned (some (fmt.Errorf
      ("failed to write combined binary for " ++ name ++ ": " ++ err.Error) err)), w)
  | (none, w) =>
  match os.WriteFile (filepath.Join [outputPath, "mini_map.bin"]) result.MiniMap w with
  | (some err, w) =>
    (.returned (some (fmt.Errorf
      ("failed to write combined binary for " ++ name ++ ": " ++ err.Error) err)), w)
  | (none, w) =>
  match os.WriteFile (filepath.Join [outputPath, "thumbnail.webp"]) result.Thumbnail w with
  | (some err, w) =>
    (.returned (some (fmt.Errorf
      ("failed to write thumbnail for " ++ name ++ ": " ++ err.Error) err)), w)
  | (none, w) =>
  match json.MarshalIndent env manifest "" "  " w with
  | (.error err, w) =>
    (.returned (some (fmt.Errorf
      ("failed to serialize manifest for " ++ name ++ ": " ++ err.Error) err)), w)
  | (.ok updatedManifest, w) =>
  match os.WriteFile (filepath.Join [outputPath, "manifest.json"]) updatedManifest w with
  | (some err, w) =>
    (.returned (some (fmt.Errorf
      ("failed to write manifest for " ++ name ++ ": " ++ err.Error) err)), w)
  | (none, w) => (.returned none, w)

/-- The function `processMap(name, isTest)`, run in the world `w`. -/
def processMap (env : Env) (name : String) (isTest : Bool) (w : World) : Outcome × World :=
  match os.Getwd w with
  | (.error err, w) =>
    (.returned (some (fmt.Errorf ("failed to get working directory: " ++ err.Error) err)), w)
  | (.ok cwd, w) =>
  let mapPath := mapPath cwd isTest name
  match os.ReadFile mapPath w with
  | (.error err, w) =>
    (.returned (some (fmt.Errorf
      ("failed to read map file " ++ mapPath ++ ": " ++ err.Error) err)), w)
  | (.ok imageBuffer, w) =>
  let manifestPath := manifestPath cwd isTest name
  match os.ReadFile manifestPath w with
  | (.error err, w) =>
    (.returned (some (fmt.Errorf
      ("failed to read info file " ++ manifestPath ++ ": " ++ err.Error) err)), w)
  | (.ok manifestBuffer, w) =>
  match json.Unmarshal env manifestBuffer none w with
  | (.error err, w) =>
    (.returned (some (fmt.Errorf
      ("failed to parse info.json for " ++ name ++ ": " ++ err.Error) err)), w)
  | (.ok manifest, w) =>
  match GenerateMap env
      { ImageBuffer := imageBuffer, RemoveSmall := !isTest, Name := name } w with
  | (.error err, w) =>
    (.returned (some (fmt.Errorf
      ("failed to generate map for " ++ name ++ ": " ++ err.Error) err)), w)
  | (.ok result, w) =>
  match manifest with
  | none => (.panicked "assignment to entry in nil map", w)
  | some manifest => persist env name cwd isTest result (mergeManifest manifest result) w

/-- The error `processMap` returns when `os.WriteFile` fails on `path` with the fault `ft`:
`what` stands for the words of the format between `failed to write` and `for`. -/
def writeError (what name path : String) (ft : WriteFault) : GoError :=
  fmt.Errorf ("failed to write " ++ what ++ " for " ++ name ++ ": " ++
      (GoError.pathError ft.op path ft.errno).Error)
    (.pathError ft.op path ft.errno)

/-- The calls a run of `processMap` makes, in order. -/
def processMap.calls (env : Env) (name : String) (isTest : Bool) (w : World) : List Event :=
  (processMap env name isTest w).2.trace.drop w.trace.length


/-! ## `loadTerrainMaps` as a transition system

The main goroutine and the goroutines it starts take turns; any thread that is not blocked
may take the next turn. A call of `processMap` by the goroutine started for the entry at
index `i` is one turn and returns `outcome i` (`none` is `nil`): every job is taken to
return. -/

/-- Program point of a goroutine started by the `go` statement. -/
inductive GoPc
  /-- Before the call `processMap(mapItem.Name, mapItem.IsTest)`. -/
  | call
  /-- The call returned the non-nil `err`; before `errChan <- err`. -/
  | send (err : GoError)
  /-- Leaving the function body; before the deferred `wg.Done()`. -/
  | exit
  /-- Finished. -/
  | done
  deriving DecidableEq, Repr

/-- A started goroutine: the loop variable `mapItem` of its iteration, which the function
literal captures (each iteration of a `for` loop has its own variable, as from Go 1.22), and
its program point. -/
structure Goroutine where
  mapItem : MapItem
  pc : GoPc
  deriving DecidableEq, Repr

/-- Program point of the goroutine running `loadTerrainMaps`. -/
inductive MainPc
  /-- At the head of `for _, mapItem := range maps`, with the entries still to visit. -/
  | loop (rest : List MapItem)
  /-- After `wg.Add(1)`, before the `go` statement of the iteration for `mapItem`. -/
  | spawn (mapItem : MapItem) (rest : List MapItem)
  /-- At `wg.Wait()`. -/
  | wait
  /-- At `close(errChan)`. -/
  | close
  /-- In `for err := range errChan`. -/
  | drain
  /-- Returned `err` (`none` is `nil`). -/
  | ret (err : Option GoError)
  deriving DecidableEq, Repr

/-- State of a run of `loadTerrainMaps`. `errChan` holds the buffered values, oldest first,
and `cap` is the capacity given to `make`. `calls` and `sent` record, in order, the calls
of `processMap` (goroutine index and arguments) and the completed sends (goroutine index and
value). `crash` is set when the program panics. -/
structure State where
  main : MainPc
  gos : List Goroutine
  wg : Nat
  errChan : List (Option GoError)
  cap : Nat
  closed : Bool
  calls : List (Nat × String × Bool)
  sent : List (Nat × GoError)
  crash : Option String
  deriving DecidableEq, Repr

/-- The threads of a run: the main goroutine and the goroutine started for entry `i`. -/
inductive Thread
  | main
  | go (i : Nat)
  deriving DecidableEq, Repr

namespace loadTerrainMaps

/-- State after `var wg sync.WaitGroup` and `errChan := make(chan error, len(maps))`. -/
def init (catalog : List MapItem) : State :=
  { main := .loop catalog, gos := [], wg := 0, errChan := [], cap := catalog.length,
    closed := false, calls := [], sent := [], crash := none }

/-- One turn of the main goroutine; `none` when it is blocked or has returned. -/
def stepMain (s : State) : Option State :=
  match s.main with
  | .loop [] => some { s with main := .wait }
  | .loop (mapItem :: rest) => some { s with main := .spawn mapItem rest, wg := s.wg + 1 }
  | .spawn mapItem rest =>
    some { s with main := .loop rest, gos := s.gos ++ [{ mapItem := mapItem, pc := .call }] }
  | .wait => if s.wg = 0 then some { s with main := .close } else none
  | .close =>
    if s.closed then some { s with crash := some "close of closed channel" }
    else some { s with main := .drain, closed := true }
  | .drain =>
    match s.errChan with
    | [] => if s.closed then some { s with main := .ret none } else none
    | some err :: rest => some { s with main := .ret (some err), errChan := rest }
    | none :: rest => some { s with errChan := rest }
  | .ret _ => none

/-- One turn of the goroutine started for entry `i`; `none` when it does not exist, is
blocked or has finished. -/
def stepGo (outcome : Nat → Option GoError) (s : State) (i : Nat) : Option State :=
  match s.gos[i]? with
  | none => none
  | some g =>
    match g.pc with
    | .call =>
      match outcome i with
      | some err =>
        some { s with calls := s.calls ++ [(i, g.mapItem.Name, g.mapItem.IsTest)],
                      gos := s.gos.set i { g with pc := .send err } }
      | none =>
        some { s with calls := s.calls ++ [(i, g.mapItem.Name, g.mapItem.IsTest)],
                      gos := s.gos.set i { g with pc := .exit } }
    | .send err =>
      if s.closed then some { s with crash := some "send on closed channel" }
      else if s.errChan.length < s.cap then
        some { s with errChan := s.errChan ++ [some err], sent := s.sent ++ [(i, err)],
                      gos := s.gos.set i { g with pc := .exit } }
      else none
    | .exit =>
      if s.wg = 0 then some { s with crash := some "sync: negative WaitGroup counter" }
      else some { s with wg := s.wg - 1, gos := s.gos.set i { g with pc := .done } }
    | .done => none

/-- One turn of thread `t`; a crashed program takes no turn. -/
def step (outcome : Nat → Option GoError) (s : State) (t : Thread) : Option State :=
  if s.crash.isSome then none
  else
    match t with
    | .main => stepMain s
    | .go i => stepGo outcome s i

/-- The turns of a schedule, in order; `none` when a scheduled thread cannot take its turn. -/
def run (outcome : Nat → Option GoError) : List Thread → State → Option State
  | [], s => some s
  | t :: ts, s =>
    match step outcome s t with
    | none => none
    | some s1 => run outcome ts s1

/-- States reached by some schedule. -/
inductive Reachable (catalog : List MapItem) (outcome : Nat → Option GoError) : State → Prop
  | init : Reachable catalog outcome (init catalog)
  | step (s s1 : State) (t : Thread) :
      Reachable catalog outcome s → step outcome s t = some s1 → Reachable catalog outcome s1

/-- Turns left to a goroutine at a program point, counting the slot a send fills. -/
def GoPc.weight : GoPc → Nat
  | .call => 4
  | .send _ => 3
  | .exit => 1
  | .done => 0

/-- Turns left to the main goroutine, counting the goroutines it has yet to start. -/
def MainPc.weight : MainPc → Nat
  | .loop rest => 6 * rest.length + 4
  | .spawn _ rest => 6 * rest.length + 9
  | .wait => 3
  | .close => 2
  | .drain => 1
  | .ret _ => 0

/-- A bound on the number of turns a state can still take. -/
def turnsLeft (s : State) : Nat :=
  if s.crash.isSome then 0
  else 1 + MainPc.weight s.main + (s.gos.map (fun g => GoPc.weight g.pc)).sum + s.errChan.length

/-- The entries the loop has not started a goroutine for. -/
def pending : MainPc → List MapItem
  | .loop rest => rest
  | .spawn mapItem rest => mapItem :: rest
  | _ => []

/-- The main goroutine is past `wg.Wait()`. -/
def pastWait : MainPc → Bool
  | .close => true
  | .drain => true
  | .ret _ => true
  | _ => false

/-- The main goroutine is past `close(errChan)`. -/
def pastClose : MainPc → Bool
  | .drain => true
  | .ret _ => true
  | _ => false

/-- The main goroutine has added to the wait group for a goroutine it has not started yet. -/
def adding : MainPc → Nat
  | .spawn _ _ => 1
  | _ => 0

/-- A goroutine has passed its send statement. -/
def GoPc.pastSend : GoPc → Bool
  | .exit => true
  | .done => true
  | _ => false

/-- What holds in every reachable state. -/
structure Inv (catalog : List MapItem) (outcome : Nat → Option GoError) (s : State) : Prop where
  cap_eq : s.cap = catalog.length
  no_crash : s.crash = none
  items : s.gos.map (fun g => g.mapItem) ++ pending s.main = catalog
  wg_eq : s.wg = s.gos.countP (fun g => decide (g.pc ≠ .done)) + adding s.main
  late : pastWait s.main = true → ∀ g ∈ s.gos, g.pc = .done
  closed_eq : s.closed = pastClose s.main
  chan : (∀ r, s.main ≠ .ret r) → s.errChan = s.sent.map (fun p => some p.2)
  ret_val : ∀ r, s.main = .ret r → r = s.sent.head?.map Prod.snd
  sent_nodup : (s.sent.map Prod.fst).Nodup
  sent_sound : ∀ i e, (i, e) ∈ s.sent →
    outcome i = some e ∧ ∃ g, s.gos[i]? = some g ∧ GoPc.pastSend g.pc = true
  sent_complete : ∀ i g e, s.gos[i]? = some g → GoPc.pastSend g.pc = true →
    outcome i = some e → (i, e) ∈ s.sent
  send_ok : ∀ i g e, s.gos[i]? = some g → g.pc = .send e → outcome i = some e
  calls_nodup : (s.calls.map Prod.fst).Nodup
  calls_sound : ∀ i n t, (i, n, t) ∈ s.calls →
    ∃ g, s.gos[i]? = some g ∧ g.pc ≠ .call ∧ g.mapItem = ⟨n, t⟩
  calls_complete : ∀ i g, s.gos[i]? = some g → g.pc ≠ .call →
    (i, g.mapItem.Name, g.mapItem.IsTest) ∈ s.calls

end loadTerrainMaps

/-- The function `loadTerrainMaps()` over a catalog: the value it returns under a schedule
that runs it to its return (`none` when the schedule does not). -/
def loadTerrainMaps (catalog : List MapItem) (outcome : Nat → Option GoError)
    (sched : List Thread) : Option (Option GoError) :=
  match loadTerrainMaps.run outcome sched (loadTerrainMaps.init catalog) with
  | none => none
  | some s =>
    match s.main with
    | .ret err => some err
    | _ => none


/-! ## A small run for the examples

The test asset `plains` under the working directory `/w`, with a two-byte image and the
manifest `{}`. -/

namespace Example

/-- The document `{}`. -/
def emptyObject : Bytes := [123, 125]

/-- The document `null`. -/
def nullLiteral : Bytes := [110, 117, 108, 108]

/-- The document `{"name":"Plains","map":{"width":1}}`. -/
def namedObject : Bytes :=
  [123, 34, 110, 97, 109, 101, 34, 58, 34, 80, 108, 97, 105, 110, 115, 34, 44, 34, 109, 97, 112, 34, 58, 123, 34, 119, 105, 100, 116, 104, 34, 58, 49, 125, 125]

/-- Decoding of the documents used in the examples, as `encoding/json` decodes them: `{}` is
the empty object, `null` the nil value, `namedObject` an object of two members, and the
empty document is a syntax error. No other document occurs in the examples. -/
def jsonDecode (data : Bytes) : Except GoError Value :=
  if data = emptyObject then .ok (.map [])
  else if data = nullLiteral then .ok .null
  else if data = namedObject then
    .ok (.map [("name", .string "Plains"), ("map", .map [("width", .float64 "1")])])
  else .error (.errorString "unexpected end of JSON input")

/-- A generator that returns the same maps for every image. -/
def generate (_ : GeneratorArgs) : Except GoError MapResult :=
  .ok { Map := [1, 2, 3], MiniMap := [4], Thumbnail := [5, 6],
        MapWidth := 10, MapHeight := 10, MapNumLandTiles := 100,
        MiniMapWidth := 5, MiniMapHeight := 5, MiniMapNumLandTiles := 25 }

/-- The result of `generate`. -/
def generated : MapResult :=
  { Map := [1, 2, 3], MiniMap := [4], Thumbnail := [5, 6],
    MapWidth := 10, MapHeight := 10, MapNumLandTiles := 100,
    MiniMapWidth := 5, MiniMapHeight := 5, MiniMapNumLandTiles := 25 }

/-- An encoder that writes one byte per key of the manifest. -/
def marshalIndent (v : GoMap) (_ _ : String) : Except GoError Bytes :=
  .ok (v.map (fun kv => kv.1.length))

/-- The collaborators of the examples. -/
def env : Env :=
  { GenerateMap := generate, jsonDecode := jsonDecode, MarshalIndent := marshalIndent }

/-- A world with the given files and faults, no directory and no call made. -/
def world (files : String → Option Bytes) (writeFault : String → Option WriteFault) : World :=
  { cwd := .ok "/w", files := files, dirs := fun _ => false, readFault := fun _ => none,
    mkdirFault := fun _ => none, writeFault := writeFault, trace := [] }

/-- The files of the asset `plains` with the manifest `info`. -/
def plainsFiles (info : Bytes) (p : String) : Option Bytes :=
  if p = "/w/assets/test_maps/plains/image.png" then some [137, 80]
  else if p = "/w/assets/test_maps/plains/info.json" then some info
  else none

/-- The asset `plains` with the manifest `{}`, every write permitted. -/
def plains : World :=
  world (plainsFiles emptyObject) (fun _ => none)

/-- The asset `plains` with a manifest that has a name and already has a `map` entry. -/
def plainsNamed : World :=
  world (plainsFiles namedObject) (fun _ => none)

/-- The manifest decoded from `namedObject`. -/
def namedManifest : GoMap :=
  [("map", .map [("width", .float64 "1")]), ("name", .string "Plains")]

/-- The asset `plains` with the manifest `null`. -/
def plainsNull : World :=
  world (plainsFiles nullLiteral) (fun _ => none)

/-- The asset `plains` with an empty manifest file. -/
def plainsEmpty : World :=
  world (plainsFiles []) (fun _ => none)

/-- The asset `plains` without its `info.json`. -/
def plainsNoInfo : World :=
  world (fun p => if p = "/w/assets/test_maps/plains/image.png" then some [137, 80] else none)
    (fun _ => none)

/-- Opening the file `p` for writing is refused. -/
def refuse (p : String) (q : String) : Option WriteFault :=
  if q = p then some { op := .opOpen, errno := "permission denied", left := [] } else none

/-- The asset `plains` with the manifest `{}`, the write of `mini_map.bin` refused. -/
def plainsRefused : World :=
  world (plainsFiles emptyObject) (refuse "/w/generated/test_maps/plains/mini_map.bin")

/-- A catalog of two entries. -/
def catalog : List MapItem :=
  [{ Name := "africa" }, { Name := "plains", IsTest := true }]

/-- The job for the second entry fails, the first succeeds. -/
def outcome (i : Nat) : Option GoError :=
  if i = 1 then some (.errorString "boom") else none

/-- A schedule that runs the two jobs to the end, the second one first. -/
def schedule : List Thread :=
  [.main, .main, .main, .main, .go 1, .go 0, .go 1, .go 0, .go 1, .main, .main, .main, .main]

/-- The state of the run of the example when both goroutines are started and the second
one stands before its send. -/
def beforeSend : State :=
  { main := .loop [],
    gos := [{ mapItem := { Name := "africa" }, pc := .call },
            { mapItem := { Name := "plains", IsTest := true },
              pc := .send (.errorString "boom") }],
    wg := 2, errChan := [], cap := 2, closed := false,
    calls := [(1, "plains", true)], sent := [], crash := none }

/-- The state in which the run of the example under `schedule` returns. -/
def returned : State :=
  { main := .ret (some (.errorString "boom")),
    gos := [{ mapItem := { Name := "africa" }, pc := .done },
            { mapItem := { Name := "plains", IsTest := true }, pc := .done }],
    wg := 0, errChan := [], cap := 2, closed := true,
    calls := [(1, "plains", true), (0, "africa", false)],
    sent := [(1, .errorString "boom")], crash := none }

end Example

namespace filepath

/-- The cleaning rules on the examples of the documentation and tests of `path/filepath`. -/
theorem Clean_vectors :
    Clean "abc//def//ghi" = "abc/def/ghi" ∧ Clean "abc/def/../ghi/../jkl" = "abc/jkl" ∧
    Clean "/abc/def/../../.." = "/" ∧ Clean "abc/./../def" = "def" ∧
    Clean "abc/../../././../def" = "../../def" ∧ Clean "../../abc" = "../../abc" ∧
    Clean "abc/def/" = "abc/def" ∧ Clean "" = "." ∧ Clean "/" = "/" ∧ Clean "/../abc" = "/abc" ∧
    Clean "abc/def/../.." = "." := by
  decide

/-- `Join` on small examples: empty elements are skipped, the result is cleaned. -/
theorem Join_vectors :
    Join ["a", "b"] = "a/b" ∧ Join ["a", ""] = "a" ∧ Join ["", "b"] = "b" ∧
    Join ["/", "a"] = "/a" ∧ Join ["", ""] = "" ∧ Join ["a/", "b"] = "a/b" ∧
    Join ["/w", "assets", "maps", "africa", "image.png"] = "/w/assets/maps/africa/image.png" ∧
    Join ["/w", "assets", "maps", "..", "info.json"] = "/w/assets/info.json" ∧
    Dir "/w/generated/maps/africa/map.bin" = "/w/generated/maps/africa" := by
  decide

theorem elements_ne_nil (p : List Char) : elements p ≠ [] := by
  cases p with
  | nil => simp [elements]
  | cons c cs =>
    unfold elements
    split
    · simp
    · split <;> simp

theorem elements_append_sep (a b : List Char) :
    elements (a ++ '/' :: b) = elements a ++ elements b := by
  induction a with
  | nil => simp [elements]
  | cons c cs ih =>
    by_cases hc : c = '/'
    · simp [elements, hc, ih]
    · have hne := elements_ne_nil cs
      cases hcs : elements cs with
      | nil => exact absurd hcs hne
      | cons e es => simp [elements, hc, ih, hcs]

theorem elements_of_noSep (e : List Char) (h : '/' ∉ e) : elements e = [e] := by
  induction e with
  | nil => simp [elements]
  | cons c cs ih =>
    have hc : c ≠ '/' := fun hc => h (by simp [hc])
    have hcs : '/' ∉ cs := fun hcs => h (by simp [hcs])
    simp [elements, hc, ih hcs]

theorem noSep_of_mem_elements (p e : List Char) (h : e ∈ elements p) : '/' ∉ e := by
  induction p generalizing e with
  | nil => simp [elements] at h; simp [h]
  | cons c cs ih =>
    by_cases hc : c = '/'
    · simp [elements, hc] at h
      rcases h with h | h
      · simp [h]
      · exact ih e h
    · have hne := elements_ne_nil cs
      cases hcs : elements cs with
      | nil => exact absurd hcs hne
      | cons e0 es =>
        simp [elements, hc, hcs] at h
        rcases h with h | h
        · subst h
          have h0 : '/' ∉ e0 := ih e0 (by simp [hcs])
          simp only [List.mem_cons, not_or]
          exact ⟨fun hh => hc hh.symm, h0⟩
        · exact ih e (by simp [hcs, h])

theorem joinElements_cons_cons (e f : List Char) (es : List (List Char)) :
    joinElements (e :: f :: es) = e ++ '/' :: joinElements (f :: es) := rfl

theorem joinElements_cons (e : List Char) (es : List (List Char)) (h : es ≠ []) :
    joinElements (e :: es) = e ++ '/' :: joinElements es := by
  cases es with
  | nil => exact absurd rfl h
  | cons f fs => rfl

theorem joinElements_append (as bs : List (List Char)) (ha : as ≠ []) (hb : bs ≠ []) :
    joinElements (as ++ bs) = joinElements as ++ '/' :: joinElements bs := by
  induction as with
  | nil => exact absurd rfl ha
  | cons a as ih =>
    cases as with
    | nil => simp [joinElements, joinElements_cons a bs hb]
    | cons a2 as2 =>
      have := ih (by simp)
      simp only [List.cons_append] at this ⊢
      rw [joinElements_cons_cons, this, joinElements_cons_cons]
      simp

theorem elements_joinElements (es : List (List Char)) (hne : es ≠ [])
    (h : ∀ e ∈ es, '/' ∉ e) : elements (joinElements es) = es := by
  induction es with
  | nil => exact absurd rfl hne
  | cons e es ih =>
    cases es with
    | nil => simpa [joinElements] using elements_of_noSep e (h e (by simp))
    | cons f fs =>
      rw [joinElements_cons_cons, elements_append_sep, ih (by simp)
        (fun x hx => h x (List.mem_cons_of_mem _ hx)), elements_of_noSep e (h e (by simp))]
      rfl

theorem cleanStep_plain (r : Bool) (out : List (List Char)) (e : List Char) (h : Plain e) :
    cleanStep r out e = e :: out := by
  obtain ⟨h1, h2, h3, _⟩ := h
  simp [cleanStep, h1, h2, h3]

theorem foldl_cleanStep_plain (r : Bool) (es out : List (List Char))
    (h : ∀ e ∈ es, Plain e) : es.foldl (cleanStep r) out = es.reverse ++ out := by
  induction es generalizing out with
  | nil => simp
  | cons e es ih =>
    simp only [List.foldl_cons, List.reverse_cons, List.append_assoc, List.singleton_append]
    rw [cleanStep_plain r out e (h e (by simp)), ih _ (fun x hx => h x (List.mem_cons_of_mem _ hx))]

theorem goodStack_cleanStep (r : Bool) (out : List (List Char)) (e : List Char)
    (hout : GoodStack r out) (he : '/' ∉ e) : GoodStack r (cleanStep r out e) := by
  unfold cleanStep
  split
  · exact hout
  · rename_i h1
    push_neg at h1
    split
    · rename_i h2
      cases out with
      | nil =>
        cases r with
        | true => simp [GoodStack]
        | false => simp [GoodStack, h2]
      | cons top below =>
        simp only
        obtain ⟨t1, t2, t3, t4, t5⟩ := hout
        split
        · rename_i h3
          refine ⟨h1.1, h1.2, he, ?_, t1, t2, t3, t4, t5⟩
          intro _
          obtain ⟨hr, hb⟩ := t4 h3
          refine ⟨hr, ?_⟩
          intro b hb2
          rcases List.mem_cons.1 hb2 with hb3 | hb3
          · rw [hb3, h3]
          · exact hb b hb3
        · exact t5
    · rename_i h2
      exact ⟨h1.1, h1.2, he, fun h => absurd h h2, hout⟩

theorem goodStack_foldl (r : Bool) (es out : List (List Char)) (hout : GoodStack r out)
    (h : ∀ e ∈ es, '/' ∉ e) : GoodStack r (es.foldl (cleanStep r) out) := by
  induction es generalizing out with
  | nil => simpa using hout
  | cons e es ih =>
    simp only [List.foldl_cons]
    exact ih _ (goodStack_cleanStep r out e hout (h e (by simp)))
      (fun x hx => h x (List.mem_cons_of_mem _ hx))

theorem goodStack_stack (p : List Char) (r : Bool) :
    GoodStack r ((elements p).foldl (cleanStep r) []) :=
  goodStack_foldl r _ [] trivial (fun e he => noSep_of_mem_elements p e he)

theorem goodStack_noSep (r : Bool) (out : List (List Char)) (h : GoodStack r out) :
    ∀ e ∈ out, '/' ∉ e := by
  induction out with
  | nil => simp
  | cons e below ih =>
    obtain ⟨_, _, t3, _, t5⟩ := h
    intro x hx
    rcases List.mem_cons.1 hx with hx | hx
    · rw [hx]; exact t3
    · exact ih t5 x hx

theorem goodStack_ne_nil (r : Bool) (out : List (List Char)) (h : GoodStack r out) :
    ∀ e ∈ out, e ≠ [] := by
  induction out with
  | nil => simp
  | cons e below ih =>
    obtain ⟨t1, _, _, _, t5⟩ := h
    intro x hx
    rcases List.mem_cons.1 hx with hx | hx
    · rw [hx]; exact t1
    · exact ih t5 x hx

/-- Replaying the kept elements through the cleaning loop rebuilds the same stack. -/
theorem foldl_cleanStep_reverse (r : Bool) (out : List (List Char)) (h : GoodStack r out) :
    out.reverse.foldl (cleanStep r) [] = out := by
  induction out with
  | nil => rfl
  | cons e below ih =>
    obtain ⟨t1, t2, _, t4, t5⟩ := h
    rw [List.reverse_cons, List.foldl_append, ih t5]
    simp only [List.foldl_cons, List.foldl_nil]
    unfold cleanStep
    simp only [t1, t2, or_self, if_false]
    by_cases hdd : e = ['.', '.']
    · obtain ⟨hr, hb⟩ := t4 hdd
      cases below with
      | nil => simp [hdd, hr]
      | cons top rest =>
        have := hb top (by simp)
        simp [hdd, this]
    · simp [hdd]


theorem isRooted_append (p q : List Char) (h : p ≠ []) : isRooted (p ++ q) = isRooted p := by
  cases p with
  | nil => exact absurd rfl h
  | cons c cs => rfl

theorem isRooted_of_noSep (e : List Char) (h : '/' ∉ e) : isRooted e = false := by
  cases e with
  | nil => rfl
  | cons c cs =>
    have hc : c ≠ '/' := fun hc => h (by simp [hc])
    simp [isRooted, hc]

theorem joinElements_ne_nil (e : List Char) (es : List (List Char)) (h : e ≠ []) :
    joinElements (e :: es) ≠ [] := by
  cases es with
  | nil => simpa [joinElements] using h
  | cons f fs => simp [joinElements, h]

theorem isRooted_joinElements (e : List Char) (es : List (List Char)) (h : e ≠ []) :
    isRooted (joinElements (e :: es)) = isRooted e := by
  cases es with
  | nil => rfl
  | cons f fs => rw [joinElements_cons_cons, isRooted_append _ _ h]

theorem render_true (out : List (List Char)) :
    render true out = '/' :: joinElements out.reverse := by
  simp [render]

theorem render_false (out : List (List Char)) (h : out ≠ []) :
    render false out = joinElements out.reverse := by
  cases out with
  | nil => exact absurd rfl h
  | cons e es => simp [render]

theorem render_ne_nil (r : Bool) (out : List (List Char)) (h : GoodStack r out) :
    render r out ≠ [] := by
  cases r with
  | true => simp [render_true]
  | false =>
    cases out with
    | nil => simp [render]
    | cons e es =>
      rw [render_false _ (by simp)]
      have hne : (e :: es).reverse ≠ [] := by simp
      cases hrev : (e :: es).reverse with
      | nil => exact absurd hrev hne
      | cons a as =>
        apply joinElements_ne_nil
        apply goodStack_ne_nil false (e :: es) h
        have : a ∈ (e :: es).reverse := by rw [hrev]; simp
        exact List.mem_reverse.1 this

theorem isRooted_render (r : Bool) (out : List (List Char)) (h : GoodStack r out) :
    isRooted (render r out) = r := by
  cases r with
  | true => simp [render_true, isRooted]
  | false =>
    cases out with
    | nil => simp [render, isRooted]
    | cons e es =>
      rw [render_false _ (by simp)]
      have hne : (e :: es).reverse ≠ [] := by simp
      cases hrev : (e :: es).reverse with
      | nil => exact absurd hrev hne
      | cons a as =>
        have hmem : a ∈ e :: es := by
          have : a ∈ (e :: es).reverse := by rw [hrev]; simp
          exact List.mem_reverse.1 this
        rw [isRooted_joinElements a as (goodStack_ne_nil false _ h a hmem)]
        exact isRooted_of_noSep a (goodStack_noSep false _ h a hmem)

/-- The elements of a cleaned path, replayed through the cleaning loop, give back the stack
the path was rendered from. -/
theorem stack_render (r : Bool) (out : List (List Char)) (h : GoodStack r out) :
    (elements (render r out)).foldl (cleanStep r) [] = out := by
  cases out with
  | nil =>
    cases r with
    | true => simp [render, joinElements, elements, cleanStep]
    | false => simp [render, elements, cleanStep]
  | cons e es =>
    have hrev : (e :: es).reverse ≠ [] := by simp
    have hsep : ∀ x ∈ (e :: es).reverse, '/' ∉ x := fun x hx =>
      goodStack_noSep r _ h x (List.mem_reverse.1 hx)
    cases r with
    | true =>
      rw [render_true]
      have : elements ('/' :: joinElements (e :: es).reverse)
          = [] :: elements (joinElements (e :: es).reverse) := by simp [elements]
      rw [this, elements_joinElements _ hrev hsep, List.foldl_cons]
      have h0 : cleanStep true [] [] = [] := by simp [cleanStep]
      rw [h0]
      exact foldl_cleanStep_reverse true _ h
    | false =>
      rw [render_false _ (by simp), elements_joinElements _ hrev hsep]
      exact foldl_cleanStep_reverse false _ h

theorem cleanChars_render (r : Bool) (out : List (List Char)) (h : GoodStack r out) :
    cleanChars (render r out) = render r out := by
  unfold cleanChars
  rw [isRooted_render r out h, stack_render r out h]

/-- Cleaning is idempotent. -/
theorem cleanChars_idem (p : List Char) : cleanChars (cleanChars p) = cleanChars p :=
  cleanChars_render _ _ (goodStack_stack p _)

theorem cleanChars_append_sep (p q : List Char) (h : p ≠ []) :
    cleanChars (p ++ '/' :: q) =
      render (isRooted p)
        ((elements q).foldl (cleanStep (isRooted p))
          ((elements p).foldl (cleanStep (isRooted p)) [])) := by
  unfold cleanChars
  rw [isRooted_append _ _ h, elements_append_sep, List.foldl_append]

theorem joinPrefix_cons (c : Char) (cs : List Char) :
    joinPrefix (c :: cs) =
      prefixOfStack (isRooted (c :: cs))
        ((elements (c :: cs)).foldl (cleanStep (isRooted (c :: cs))) []) := rfl

/-- Cleaning a non-empty path followed by plain elements: the plain elements are kept as
written, after a prefix that depends on the leading path only. -/
theorem cleanChars_append_plain (p : List Char) (es : List (List Char)) (hp : p ≠ [])
    (hes : es ≠ []) (h : ∀ e ∈ es, Plain e) :
    cleanChars (p ++ '/' :: joinElements es) = joinPrefix p ++ joinElements es := by
  rw [cleanChars_append_sep p _ hp,
    elements_joinElements es hes (fun e he => (h e he).2.2.2), foldl_cleanStep_plain _ _ _ h]
  cases p with
  | nil => exact absurd rfl hp
  | cons c cs =>
    rw [joinPrefix_cons]
    have hrev : es.reverse ≠ [] := by simpa using hes
    cases hS : (elements (c :: cs)).foldl (cleanStep (isRooted (c :: cs))) [] with
    | nil =>
      cases hr : isRooted (c :: cs) with
      | true => simp [render_true, prefixOfStack]
      | false => simp [render_false _ hrev, prefixOfStack]
    | cons s S =>
      cases hr : isRooted (c :: cs) with
      | true =>
        simp only [render_true, List.reverse_append, List.reverse_reverse, prefixOfStack]
        rw [joinElements_append _ _ (by simp) hes]
        simp
      | false =>
        show render false (es.reverse ++ s :: S) = (render false (s :: S) ++ ['/']) ++ _
        rw [render_false _ (by simp), render_false _ (by simp)]
        simp only [List.reverse_append, List.reverse_reverse]
        rw [joinElements_append _ _ (by simp) hes]
        simp

theorem cleanChars_plain (es : List (List Char)) (hes : es ≠ []) (h : ∀ e ∈ es, Plain e) :
    cleanChars (joinElements es) = joinElements es := by
  unfold cleanChars
  have hr : isRooted (joinElements es) = false := by
    cases es with
    | nil => exact absurd rfl hes
    | cons e es =>
      rw [isRooted_joinElements e es (h e (by simp)).1]
      exact isRooted_of_noSep e (h e (by simp)).2.2.2
  rw [hr, elements_joinElements es hes (fun e he => (h e he).2.2.2),
    foldl_cleanStep_plain _ _ _ h, List.append_nil, render_false _ (by simpa using hes),
    List.reverse_reverse]

theorem joinPrefix_shape (p : List Char) :
    joinPrefix p = [] ∨ ∃ q, joinPrefix p = q ++ ['/'] := by
  cases p with
  | nil => left; rfl
  | cons c cs =>
    rw [joinPrefix_cons]
    cases (elements (c :: cs)).foldl (cleanStep (isRooted (c :: cs))) [] with
    | nil =>
      cases isRooted (c :: cs) with
      | true => right; exact ⟨[], rfl⟩
      | false => left; rfl
    | cons s S => right; exact ⟨_, rfl⟩

theorem joinPrefix_render (r : Bool) (S : List (List Char)) (h : GoodStack r S) :
    joinPrefix (render r S) = prefixOfStack r S := by
  cases hcc : render r S with
  | nil => exact absurd hcc (render_ne_nil r S h)
  | cons c cs => rw [joinPrefix_cons, ← hcc, isRooted_render r S h, stack_render r S h]

theorem dirPart_of_noSep (f : List Char) (h : '/' ∉ f) : dirPart f = [] := by
  cases f with
  | nil => rfl
  | cons c cs =>
    have hc : c ≠ '/' := fun hc => h (by simp [hc])
    have hcs : '/' ∉ cs := fun hcs => h (by simp [hcs])
    simp [dirPart, hc, hcs]

theorem dirPart_append (q f : List Char) (h : '/' ∉ f) :
    dirPart (q ++ '/' :: f) = q ++ ['/'] := by
  induction q with
  | nil => simp [dirPart, h]
  | cons c cs ih => simp [dirPart, ih]


theorem data_ne_nil (s : String) (h : s ≠ "") : s.data ≠ [] := by
  intro hd
  apply h
  cases s with
  | mk d => simp at hd; subst hd; rfl

theorem ne_empty_of_plain (s : String) (h : Plain s.data) : s ≠ "" := by
  intro hs
  subst hs
  exact h.1 rfl

theorem Join_of_ne_empty (e : String) (es : List String) (h : e ≠ "") :
    Join (e :: es) = ⟨cleanChars (joinElements (e.data :: es.map String.data))⟩ := by
  simp [Join, List.dropWhile, h, Clean]

theorem Join_empty_cons (es : List String) : Join ("" :: es) = Join es := by
  simp [Join, List.dropWhile]

/-- `Join` of a leading path and plain elements: the plain elements appear as written,
separated by single separators, after a prefix fixed by the leading path. -/
theorem Join_cons_plain (p : String) (es : List String) (hes : es ≠ [])
    (h : ∀ e ∈ es, Plain e.data) :
    Join (p :: es) = ⟨joinPrefix p.data ++ joinElements (es.map String.data)⟩ := by
  have hmap : es.map String.data ≠ [] := by simpa using hes
  have hpl : ∀ e ∈ es.map String.data, Plain e := by
    intro e he
    obtain ⟨s, hs, rfl⟩ := List.mem_map.1 he
    exact h s hs
  by_cases hp : p = ""
  · subst hp
    rw [Join_empty_cons]
    cases es with
    | nil => exact absurd rfl hes
    | cons e es =>
      rw [Join_of_ne_empty e es (ne_empty_of_plain e (h e (by simp)))]
      have := cleanChars_plain ((e :: es).map String.data) hmap hpl
      simp only [List.map_cons] at this
      rw [this]
      simp [joinPrefix]
  · rw [Join_of_ne_empty p es hp, joinElements_cons _ _ hmap,
      cleanChars_append_plain _ _ (data_ne_nil p hp) hmap hpl]

/-- Last path element of a path. -/
theorem elements_getLast_append (q f : List Char) (hf : '/' ∉ f)
    (hq : q = [] ∨ ∃ q0, q = q0 ++ ['/']) : (elements (q ++ f)).getLast? = some f := by
  rcases hq with hq | ⟨q0, hq⟩
  · subst hq
    simp [elements_of_noSep f hf]
  · subst hq
    have : q0 ++ ['/'] ++ f = q0 ++ '/' :: f := by simp
    rw [this, elements_append_sep, elements_of_noSep f hf]
    simp

theorem cleanChars_getLast (p f : List Char) (hf : Plain f) (hp : p ≠ []) :
    (elements (cleanChars (p ++ '/' :: f))).getLast? = some f := by
  have := cleanChars_append_plain p [f] hp (by simp) (by simpa using hf)
  simp only [joinElements] at this
  rw [this]
  exact elements_getLast_append _ f hf.2.2.2 (joinPrefix_shape p)

theorem joinElements_append_singleton (as : List (List Char)) (f : List Char) (ha : as ≠ []) :
    joinElements (as ++ [f]) = joinElements as ++ '/' :: f := by
  rw [joinElements_append as [f] ha (by simp)]
  rfl

/-- The last element of a `Join` whose last argument is a plain element is that element. -/
theorem Join_getLast (xs : List String) (f : String) (hf : Plain f.data) :
    (elements (Join (xs ++ [f])).data).getLast? = some f.data := by
  induction xs with
  | nil =>
    rw [List.nil_append, Join_of_ne_empty f [] (ne_empty_of_plain f hf)]
    have := cleanChars_plain [f.data] (by simp) (by simpa using hf)
    simp only [joinElements] at this
    simp only [List.map_nil, joinElements, this]
    simp [elements_of_noSep f.data hf.2.2.2]
  | cons x xs ih =>
    by_cases hx : x = ""
    · subst hx
      rw [List.cons_append, Join_empty_cons]
      exact ih
    · rw [List.cons_append, Join_of_ne_empty x _ hx]
      have h1 : x.data :: (xs ++ [f]).map String.data
          = (x.data :: xs.map String.data) ++ [f.data] := by simp
      rw [h1, joinElements_append_singleton _ _ (by simp)]
      exact cleanChars_getLast _ _ hf (joinElements_ne_nil _ _ (data_ne_nil x hx))

/-- Paths produced by `Join` with different plain last elements are different. -/
theorem Join_ne_of_last_ne (xs ys : List String) (f g : String) (hf : Plain f.data)
    (hg : Plain g.data) (hfg : f ≠ g) : Join (xs ++ [f]) ≠ Join (ys ++ [g]) := by
  intro h
  have h1 := Join_getLast xs f hf
  have h2 := Join_getLast ys g hg
  rw [h, h2] at h1
  apply hfg
  have : g.data = f.data := by simpa using h1
  exact String.ext this.symm

theorem Clean_ne_empty (x : String) : Clean x ≠ "" := by
  intro h
  have hd : (Clean x).data = [] := by rw [h]
  exact render_ne_nil _ _ (goodStack_stack x.data _) hd

theorem Clean_idem (x : String) : Clean (Clean x) = Clean x := by
  simp [Clean, cleanChars_idem]

/-- The directory of a file joined to a cleaned directory path is that directory. -/
theorem Dir_Join (x f : String) (hf : Plain f.data) : Dir (Join [Clean x, f]) = Clean x := by
  have hgood := goodStack_stack x.data (isRooted x.data)
  rw [Join_cons_plain (Clean x) [f] (by simp) (by simpa using hf)]
  simp only [List.map_cons, List.map_nil, joinElements, Dir, Clean]
  have hrend : cleanChars x.data
      = render (isRooted x.data) ((elements x.data).foldl (cleanStep (isRooted x.data)) []) := rfl
  generalize (elements x.data).foldl (cleanStep (isRooted x.data)) [] = S at hgood hrend
  generalize isRooted x.data = r at hgood hrend
  rw [hrend, joinPrefix_render r S hgood]
  congr 1
  cases S with
  | nil =>
    cases r with
    | true =>
      have : dirPart (['/'] ++ f.data) = [] ++ ['/'] := dirPart_append [] f.data hf.2.2.2
      simp only [prefixOfStack, if_true]
      rw [this]
      rfl
    | false =>
      simp only [prefixOfStack, Bool.false_eq_true, if_false, List.nil_append]
      rw [dirPart_of_noSep _ hf.2.2.2]
      rfl
  | cons e out =>
    simp only [prefixOfStack]
    have : render r (e :: out) ++ ['/'] ++ f.data = render r (e :: out) ++ '/' :: f.data := by
      simp
    rw [this, dirPart_append _ _ hf.2.2.2]
    have h2 : render r (e :: out) ++ ['/'] = render r (e :: out) ++ '/' :: [] := rfl
    rw [h2, cleanChars_append_sep _ _ (render_ne_nil r _ hgood), isRooted_render r _ hgood,
      stack_render r _ hgood]
    simp [elements, cleanStep]


/-- Cleaning before appending a plain element changes nothing. -/
theorem cleanChars_cleanChars_append (x f : List Char) (hx : x ≠ []) :
    cleanChars (cleanChars x ++ '/' :: f) = cleanChars (x ++ '/' :: f) := by
  have hgood := goodStack_stack x (isRooted x)
  have hrend : cleanChars x
      = render (isRooted x) ((elements x).foldl (cleanStep (isRooted x)) []) := rfl
  rw [cleanChars_append_sep x f hx, hrend,
    cleanChars_append_sep _ f (render_ne_nil _ _ hgood), isRooted_render _ _ hgood,
    stack_render _ _ hgood]

theorem Join_eq_Clean (xs : List String) (h : ∃ x ∈ xs, x ≠ "") :
    ∃ e es, xs.dropWhile (fun e => decide (e = "")) = e :: es ∧ e ≠ "" ∧
      Join xs = ⟨cleanChars (joinElements ((e :: es).map String.data))⟩ := by
  induction xs with
  | nil => obtain ⟨x, hx, _⟩ := h; simp at hx
  | cons a as ih =>
    by_cases ha : a = ""
    · subst ha
      have h1 : ∃ x ∈ as, x ≠ "" := by
        obtain ⟨x, hx, hne⟩ := h
        rcases List.mem_cons.1 hx with hx | hx
        · exact absurd hx hne
        · exact ⟨x, hx, hne⟩
      obtain ⟨e, es, hd, hne, hj⟩ := ih h1
      refine ⟨e, es, ?_, hne, ?_⟩
      · simpa [List.dropWhile] using hd
      · rw [Join_empty_cons]; exact hj
    · refine ⟨a, as, by simp [List.dropWhile, ha], ha, Join_of_ne_empty a as ha⟩

theorem dropWhile_append_singleton (xs : List String) (f e : String) (es : List String)
    (hd : xs.dropWhile (fun e => decide (e = "")) = e :: es) :
    (xs ++ [f]).dropWhile (fun e => decide (e = "")) = e :: (es ++ [f]) := by
  induction xs with
  | nil => simp at hd
  | cons a as ih =>
    by_cases ha : a = ""
    · subst ha
      simp only [List.dropWhile, decide_True] at hd
      simp only [List.cons_append, List.dropWhile, decide_True]
      exact ih hd
    · simp only [List.dropWhile, ha, decide_False] at hd
      simp only [List.cons_append, List.dropWhile, ha, decide_False]
      obtain ⟨rfl, rfl⟩ := List.cons.inj hd
      rfl

/-- Joining a plain element to a joined path is joining all the elements at once. -/
theorem Join_Join_last (xs : List String) (f : String) (h : ∃ x ∈ xs, x ≠ "") :
    Join [Join xs, f] = Join (xs ++ [f]) := by
  obtain ⟨e, es, hd, hne, hj⟩ := Join_eq_Clean xs h
  have hJne : Join xs ≠ "" := by
    rw [hj]
    intro hc
    have hd0 : cleanChars (joinElements ((e :: es).map String.data)) = [] :=
      congrArg String.data hc
    exact render_ne_nil _ _ (goodStack_stack _ _) hd0
  rw [Join_of_ne_empty (Join xs) [f] hJne]
  have h2 : Join (xs ++ [f]) = ⟨cleanChars (joinElements ((e :: (es ++ [f])).map String.data))⟩ := by
    unfold Join
    rw [dropWhile_append_singleton xs f e es hd]
    rfl
  rw [h2, hj]
  have h3 : (e :: (es ++ [f])).map String.data = (e :: es).map String.data ++ [f.data] := by
    simp
  rw [h3, joinElements_append_singleton _ _ (by simp)]
  show (⟨cleanChars (cleanChars (joinElements ((e :: es).map String.data)) ++ '/' :: f.data)⟩
    : String) = _
  rw [cleanChars_cleanChars_append (joinElements ((e :: es).map String.data)) f.data
    (joinElements_ne_nil _ _ (data_ne_nil e hne))]

/-- Plain elements can be read back from their joined text. -/
theorem joinElements_injective (es fs : List (List Char)) (he : es ≠ []) (hf : fs ≠ [])
    (hes : ∀ e ∈ es, '/' ∉ e) (hfs : ∀ e ∈ fs, '/' ∉ e)
    (h : joinElements es = joinElements fs) : es = fs := by
  rw [← elements_joinElements es he hes, ← elements_joinElements fs hf hfs, h]

/-- Under the same leading path, `Join` with plain elements is injective. -/
theorem Join_plain_injective (p : String) (es fs : List String) (he : es ≠ []) (hf : fs ≠ [])
    (hes : ∀ e ∈ es, Plain e.data) (hfs : ∀ e ∈ fs, Plain e.data)
    (h : Join (p :: es) = Join (p :: fs)) : es = fs := by
  rw [Join_cons_plain p es he hes, Join_cons_plain p fs hf hfs] at h
  have hd := congrArg String.data h
  simp only at hd
  have h1 := List.append_cancel_left hd
  have h2 := joinElements_injective _ _ (by simpa using he) (by simpa using hf)
    (by
      intro e hm
      obtain ⟨x, hx, rfl⟩ := List.mem_map.1 hm
      exact (hes x hx).2.2.2)
    (by
      intro e hm
      obtain ⟨x, hx, rfl⟩ := List.mem_map.1 hm
      exact (hfs x hx).2.2.2) h1
  exact List.map_injective_iff.2 (fun a b hab => String.ext hab) h2

end filepath


/-! ## Facts about the operations of `processMap` -/

theorem GoMap.get_set_self (m : GoMap) (k : String) (v : Value) :
    GoMap.get (GoMap.set m k v) k = some v := by
  simp [GoMap.set, GoMap.get]

theorem GoMap.get_filter_ne (m : GoMap) (k k1 : String) (h : k1 ≠ k) :
    GoMap.get (m.filter (fun kv => decide (kv.1 ≠ k))) k1 = GoMap.get m k1 := by
  induction m with
  | nil => rfl
  | cons kv rest ih =>
    obtain ⟨k0, v0⟩ := kv
    by_cases h0 : k0 = k
    · subst h0
      have hne : k0 ≠ k1 := fun h1 => h h1.symm
      have h1 : GoMap.get ((k0, v0) :: rest) k1 = GoMap.get rest k1 := by
        simp [GoMap.get, hne]
      rw [h1, ← ih]
      simp [List.filter]
    · have h1 : List.filter (fun kv => decide (kv.1 ≠ k)) ((k0, v0) :: rest)
          = (k0, v0) :: List.filter (fun kv => decide (kv.1 ≠ k)) rest := by
        simp [List.filter, h0]
      rw [h1]
      simp only [GoMap.get]
      rw [ih]

theorem GoMap.get_set_other (m : GoMap) (k k1 : String) (v : Value) (h : k1 ≠ k) :
    GoMap.get (GoMap.set m k v) k1 = GoMap.get m k1 := by
  have hne : k ≠ k1 := fun h1 => h h1.symm
  simp only [GoMap.set, GoMap.get, hne, if_false]
  exact GoMap.get_filter_ne m k k1 h

/-- The merged manifest binds `"map"` and `"mini_map"` to the two records and agrees with the
parsed manifest on every other key. -/
theorem get_mergeManifest (m : GoMap) (r : MapResult) (k : String) :
    GoMap.get (mergeManifest m r) k =
      if k = "mini_map" then some (miniMapRecord r)
      else if k = "map" then some (mapRecord r)
      else GoMap.get m k := by
  unfold mergeManifest
  by_cases h1 : k = "mini_map"
  · subst h1
    simp [GoMap.get_set_self]
  · rw [GoMap.get_set_other _ _ _ _ h1, if_neg h1]
    by_cases h2 : k = "map"
    · subst h2
      simp [GoMap.get_set_self]
    · rw [GoMap.get_set_other _ _ _ _ h2, if_neg h2]

theorem plain_image : filepath.Plain "image.png".data := by decide
theorem plain_info : filepath.Plain "info.json".data := by decide
theorem plain_mapBin : filepath.Plain "map.bin".data := by decide
theorem plain_miniMapBin : filepath.Plain "mini_map.bin".data := by decide
theorem plain_thumbnail : filepath.Plain "thumbnail.webp".data := by decide
theorem plain_manifest : filepath.Plain "manifest.json".data := by decide

theorem outputPath_eq_Clean (cwd : String) (isTest : Bool) (name : String) :
    ∃ x, outputPath cwd isTest name = filepath.Clean x := by
  unfold outputPath
  by_cases hc : cwd = ""
  · subst hc
    rw [filepath.Join_empty_cons]
    have hg : ("generated" : String) ≠ "" := by decide
    exact ⟨_, by simp only [filepath.Join, List.dropWhile, hg, decide_False]; rfl⟩
  · exact ⟨_, by simp only [filepath.Join, List.dropWhile, hc, decide_False]; rfl⟩

/-- The directory of an output file is the output directory. -/
theorem Dir_outputFile (cwd : String) (isTest : Bool) (name f : String)
    (hf : filepath.Plain f.data) :
    filepath.Dir (filepath.Join [outputPath cwd isTest name, f]) = outputPath cwd isTest name := by
  obtain ⟨x, hx⟩ := outputPath_eq_Clean cwd isTest name
  rw [hx]
  exact filepath.Dir_Join x f hf

theorem isSelfOrAncestor_self (p : String) : isSelfOrAncestor p p = true := by
  simp [isSelfOrAncestor]

/-! ### Results of the operations -/

theorem ReadFile_frame (n : String) (w w1 : World) (hf : w1.files = w.files)
    (hr : w1.readFault = w.readFault) :
    os.ReadFile n w1 = ((os.ReadFile n w).1, w1.log (.readFile n)) := by
  unfold os.ReadFile
  rw [hf, hr]
  cases w.readFault n with
  | some p => rfl
  | none =>
    cases w.files n with
    | none => rfl
    | some d => rfl

theorem ReadFile_trace (n : String) (w : World) :
    (os.ReadFile n w).2.trace = w.trace ++ [.readFile n] := by
  rw [ReadFile_frame n w w rfl rfl]
  rfl

theorem Unmarshal_frame (env : Env) (d : Bytes) (v : Option GoMap) (w w1 : World) :
    json.Unmarshal env d v w1 = ((json.Unmarshal env d v w).1, w1.log (.unmarshal d)) := by
  unfold json.Unmarshal
  cases env.jsonDecode d with
  | error e => rfl
  | ok x => cases x <;> rfl

theorem MkdirAll_ok (p : String) (w : World) (h : w.mkdirFault p = none) :
    os.MkdirAll p w =
      (none, { w.log (.mkdirAll p) with dirs := fun q => w.dirs q || isSelfOrAncestor q p }) := by
  simp [os.MkdirAll, h]

theorem MkdirAll_err (p errno : String) (w : World) (h : w.mkdirFault p = some errno) :
    os.MkdirAll p w = (some (.pathError .opMkdir p errno), w.log (.mkdirAll p)) := by
  simp [os.MkdirAll, h]

theorem MkdirAll_trace (p : String) (w : World) :
    (os.MkdirAll p w).2.trace = w.trace ++ [.mkdirAll p] := by
  unfold os.MkdirAll
  cases w.mkdirFault p <;> rfl

theorem WriteFile_ok (n : String) (d : Bytes) (w : World) (h : w.writeFault n = none)
    (hd : w.dirs (filepath.Dir n) = true) :
    os.WriteFile n d w =
      (none, { w.log (.writeFile n d) with
               files := fun q => if q = n then some d else w.files q }) := by
  simp [os.WriteFile, h, hd]

theorem WriteFile_fault (n : String) (d : Bytes) (w : World) (ft : WriteFault)
    (h : w.writeFault n = some ft) :
    (os.WriteFile n d w).1 = some (.pathError ft.op n ft.errno) := by
  simp [os.WriteFile, h]

theorem WriteFile_trace (n : String) (d : Bytes) (w : World) :
    (os.WriteFile n d w).2.trace = w.trace ++ [.writeFile n d] := by
  unfold os.WriteFile
  cases w.writeFault n with
  | some ft =>
    simp only
    split <;> rfl
  | none =>
    simp only
    split <;> rfl

/-- The calls the persisting part makes: directory creation, file writes, and the
serialisation of the manifest it was given. -/
theorem persist_trace (env : Env) (name cwd : String) (isTest : Bool) (r : MapResult)
    (man : GoMap) (w : World) :
    ∃ evs, (persist env name cwd isTest r man w).2.trace = w.trace ++ evs ∧
      ∀ e ∈ evs, (∃ p, e = .mkdirAll p) ∨ (∃ p d, e = .writeFile p d) ∨ e = .marshalIndent man := by
  unfold persist
  simp only
  cases h1 : os.MkdirAll (outputPath cwd isTest name) w with
  | mk res1 w1 =>
  have t1 : w1.trace = w.trace ++ [.mkdirAll (outputPath cwd isTest name)] := by
    have := MkdirAll_trace (outputPath cwd isTest name) w
    rw [h1] at this; exact this
  cases res1 with
  | some err => exact ⟨_, t1, by simp⟩
  | none =>
  simp only
  cases h2 : os.WriteFile (filepath.Join [outputPath cwd isTest name, "map.bin"]) r.Map w1 with
  | mk res2 w2 =>
  have t2 : w2.trace = w1.trace
      ++ [.writeFile (filepath.Join [outputPath cwd isTest name, "map.bin"]) r.Map] := by
    have := WriteFile_trace (filepath.Join [outputPath cwd isTest name, "map.bin"]) r.Map w1
    rw [h2] at this; exact this
  cases res2 with
  | some err => exact ⟨_, by rw [t2, t1, List.append_assoc], by simp⟩
  | none =>
  simp only
  cases h3 : os.WriteFile (filepath.Join [outputPath cwd isTest name, "mini_map.bin"])
      r.MiniMap w2 with
  | mk res3 w3 =>
  have t3 : w3.trace = w2.trace
      ++ [.writeFile (filepath.Join [outputPath cwd isTest name, "mini_map.bin"]) r.MiniMap] := by
    have := WriteFile_trace (filepath.Join [outputPath cwd isTest name, "mini_map.bin"])
      r.MiniMap w2
    rw [h3] at this; exact this
  cases res3 with
  | some err => exact ⟨_, by rw [t3, t2, t1, List.append_assoc, List.append_assoc], by simp⟩
  | none =>
  simp only
  cases h4 : os.WriteFile (filepath.Join [outputPath cwd isTest name, "thumbnail.webp"])
      r.Thumbnail w3 with
  | mk res4 w4 =>
  have t4 : w4.trace = w3.trace
      ++ [.writeFile (filepath.Join [outputPath cwd isTest name, "thumbnail.webp"])
        r.Thumbnail] := by
    have := WriteFile_trace (filepath.Join [outputPath cwd isTest name, "thumbnail.webp"])
      r.Thumbnail w3
    rw [h4] at this; exact this
  cases res4 with
  | some err =>
    exact ⟨_, by rw [t4, t3, t2, t1, List.append_assoc, List.append_assoc, List.append_assoc],
      by simp⟩
  | none =>
  simp only [json.MarshalIndent]
  cases h5 : env.MarshalIndent man "" "  " with
  | error err =>
    exact ⟨_, by
      show (w4.trace ++ [Event.marshalIndent man]) = _
      rw [t4, t3, t2, t1]
      simp only [List.append_assoc]
      rfl, by simp⟩
  | ok bytes =>
  simp only
  cases h6 : os.WriteFile (filepath.Join [outputPath cwd isTest name, "manifest.json"])
      bytes (w4.log (.marshalIndent man)) with
  | mk res6 w6 =>
  have t6 : w6.trace = (w4.trace ++ [.marshalIndent man])
      ++ [.writeFile (filepath.Join [outputPath cwd isTest name, "manifest.json"]) bytes] := by
    have := WriteFile_trace (filepath.Join [outputPath cwd isTest name, "manifest.json"])
      bytes (w4.log (.marshalIndent man))
    rw [h6] at this; exact this
  cases res6 with
  | some err =>
    exact ⟨_, by rw [t6, t4, t3, t2, t1]; simp only [List.append_assoc]; rfl, by simp⟩
  | none =>
    exact ⟨_, by rw [t6, t4, t3, t2, t1]; simp only [List.append_assoc]; rfl, by simp⟩

/-! ### The stages of `processMap` -/

theorem processMap_getwd_err (env : Env) (name : String) (isTest : Bool) (w : World)
    (err : GoError) (hcwd : w.cwd = .error err) :
    processMap env name isTest w =
      (.returned (some (fmt.Errorf ("failed to get working directory: " ++ err.Error) err)),
        w.log .getwd) := by
  unfold processMap
  simp only [os.Getwd, hcwd]

theorem processMap_image_err (env : Env) (name : String) (isTest : Bool) (w : World)
    (cwd : String) (err : GoError) (hcwd : w.cwd = .ok cwd)
    (himg : (os.ReadFile (mapPath cwd isTest name) w).1 = .error err) :
    processMap env name isTest w =
      (.returned (some (fmt.Errorf
          ("failed to read map file " ++ mapPath cwd isTest name ++ ": " ++ err.Error) err)),
        (w.log .getwd).log (.readFile (mapPath cwd isTest name))) := by
  unfold processMap
  simp only [os.Getwd, hcwd]
  rw [ReadFile_frame _ w (w.log .getwd) rfl rfl, himg]

theorem processMap_info_err (env : Env) (name : String) (isTest : Bool) (w : World)
    (cwd : String) (img : Bytes) (err : GoError) (hcwd : w.cwd = .ok cwd)
    (himg : (os.ReadFile (mapPath cwd isTest name) w).1 = .ok img)
    (hinfo : (os.ReadFile (manifestPath cwd isTest name) w).1 = .error err) :
    processMap env name isTest w =
      (.returned (some (fmt.Errorf
          ("failed to read info file " ++ manifestPath cwd isTest name ++ ": " ++ err.Error)
          err)),
        ((w.log .getwd).log (.readFile (mapPath cwd isTest name))).log
          (.readFile (manifestPath cwd isTest name))) := by
  unfold processMap
  simp only [os.Getwd, hcwd]
  rw [ReadFile_frame _ w (w.log .getwd) rfl rfl, himg]
  simp only
  rw [ReadFile_frame _ w ((w.log .getwd).log _) rfl rfl, hinfo]

/-- The world when `processMap` has read both files and decoded the manifest. -/
theorem processMap_parse_err (env : Env) (name : String) (isTest : Bool) (w : World)
    (cwd : String) (img info : Bytes) (err : GoError) (hcwd : w.cwd = .ok cwd)
    (himg : (os.ReadFile (mapPath cwd isTest name) w).1 = .ok img)
    (hinfo : (os.ReadFile (manifestPath cwd isTest name) w).1 = .ok info)
    (hum : (json.Unmarshal env info none w).1 = .error err) :
    processMap env name isTest w =
      (.returned (some (fmt.Errorf
          ("failed to parse info.json for " ++ name ++ ": " ++ err.Error) err)),
        (((w.log .getwd).log (.readFile (mapPath cwd isTest name))).log
          (.readFile (manifestPath cwd isTest name))).log (.unmarshal info)) := by
  unfold processMap
  simp only [os.Getwd, hcwd]
  rw [ReadFile_frame _ w (w.log .getwd) rfl rfl, himg]
  simp only
  rw [ReadFile_frame _ w ((w.log .getwd).log _) rfl rfl, hinfo]
  simp only
  rw [Unmarshal_frame env info none w, hum]

theorem processMap_generate_err (env : Env) (name : String) (isTest : Bool) (w : World)
    (cwd : String) (img info : Bytes) (manifest : Option GoMap) (err : GoError)
    (hcwd : w.cwd = .ok cwd)
    (himg : (os.ReadFile (mapPath cwd isTest name) w).1 = .ok img)
    (hinfo : (os.ReadFile (manifestPath cwd isTest name) w).1 = .ok info)
    (hum : (json.Unmarshal env info none w).1 = .ok manifest)
    (hgen : env.GenerateMap { ImageBuffer := img, RemoveSmall := !isTest, Name := name }
      = .error err) :
    processMap env name isTest w =
      (.returned (some (fmt.Errorf
          ("failed to generate map for " ++ name ++ ": " ++ err.Error) err)),
        ((((w.log .getwd).log (.readFile (mapPath cwd isTest name))).log
          (.readFile (manifestPath cwd isTest name))).log (.unmarshal info)).log
          (.generateMap { ImageBuffer := img, RemoveSmall := !isTest, Name := name })) := by
  unfold processMap
  simp only [os.Getwd, hcwd]
  rw [ReadFile_frame _ w (w.log .getwd) rfl rfl, himg]
  simp only
  rw [ReadFile_frame _ w ((w.log .getwd).log _) rfl rfl, hinfo]
  simp only
  rw [Unmarshal_frame env info none w, hum]
  simp only [GenerateMap, hgen]

/-- With the inputs read, a nil manifest decoded and the maps generated, `processMap`
panics at the first assignment to the manifest. -/
theorem processMap_nil (env : Env) (name : String) (isTest : Bool) (w : World)
    (cwd : String) (img info : Bytes) (r : MapResult)
    (hcwd : w.cwd = .ok cwd)
    (himg : (os.ReadFile (mapPath cwd isTest name) w).1 = .ok img)
    (hinfo : (os.ReadFile (manifestPath cwd isTest name) w).1 = .ok info)
    (hum : (json.Unmarshal env info none w).1 = .ok none)
    (hgen : env.GenerateMap { ImageBuffer := img, RemoveSmall := !isTest, Name := name }
      = .ok r) :
    processMap env name isTest w =
      (.panicked "assignment to entry in nil map",
        ((((w.log .getwd).log (.readFile (mapPath cwd isTest name))).log
          (.readFile (manifestPath cwd isTest name))).log (.unmarshal info)).log
          (.generateMap { ImageBuffer := img, RemoveSmall := !isTest, Name := name })) := by
  unfold processMap
  simp only [os.Getwd, hcwd]
  rw [ReadFile_frame _ w (w.log .getwd) rfl rfl, himg]
  simp only
  rw [ReadFile_frame _ w ((w.log .getwd).log _) rfl rfl, hinfo]
  simp only
  rw [Unmarshal_frame env info none w, hum]
  simp only [GenerateMap, hgen]

/-- With the inputs read, a non-nil manifest decoded and the maps generated, `processMap`
goes on to persist the merged manifest. -/
theorem processMap_persist (env : Env) (name : String) (isTest : Bool) (w : World)
    (cwd : String) (img info : Bytes) (m : GoMap) (r : MapResult)
    (hcwd : w.cwd = .ok cwd)
    (himg : (os.ReadFile (mapPath cwd isTest name) w).1 = .ok img)
    (hinfo : (os.ReadFile (manifestPath cwd isTest name) w).1 = .ok info)
    (hum : (json.Unmarshal env info none w).1 = .ok (some m))
    (hgen : env.GenerateMap { ImageBuffer := img, RemoveSmall := !isTest, Name := name }
      = .ok r) :
    processMap env name isTest w =
      persist env name cwd isTest r (mergeManifest m r)
        (((((w.log .getwd).log (.readFile (mapPath cwd isTest name))).log
          (.readFile (manifestPath cwd isTest name))).log (.unmarshal info)).log
          (.generateMap { ImageBuffer := img, RemoveSmall := !isTest, Name := name })) := by
  unfold processMap
  simp only [os.Getwd, hcwd]
  rw [ReadFile_frame _ w (w.log .getwd) rfl rfl, himg]
  simp only
  rw [ReadFile_frame _ w ((w.log .getwd).log _) rfl rfl, hinfo]
  simp only
  rw [Unmarshal_frame env info none w, hum]
  simp only [GenerateMap, hgen]

/-! ### Persisting -/

theorem dirs_after_mkdir (cwd : String) (isTest : Bool) (name f : String) (dirs : String → Bool)
    (hf : filepath.Plain f.data) :
    (dirs (filepath.Dir (filepath.Join [outputPath cwd isTest name, f]))
      || isSelfOrAncestor (filepath.Dir (filepath.Join [outputPath cwd isTest name, f]))
          (outputPath cwd isTest name)) = true := by
  rw [Dir_outputFile cwd isTest name f hf, isSelfOrAncestor_self]
  simp

/-- With no failing operation the persisting part returns `nil`, having created the output
directory and written the four files. -/
theorem persist_ok (env : Env) (name cwd : String) (isTest : Bool) (r : MapResult)
    (man : GoMap) (w : World) (bytes : Bytes)
    (hmk : w.mkdirFault (outputPath cwd isTest name) = none)
    (h1 : w.writeFault (filepath.Join [outputPath cwd isTest name, "map.bin"]) = none)
    (h2 : w.writeFault (filepath.Join [outputPath cwd isTest name, "mini_map.bin"]) = none)
    (h3 : w.writeFault (filepath.Join [outputPath cwd isTest name, "thumbnail.webp"]) = none)
    (h4 : w.writeFault (filepath.Join [outputPath cwd isTest name, "manifest.json"]) = none)
    (hser : env.MarshalIndent man "" "  " = .ok bytes) :
    persist env name cwd isTest r man w =
      (.returned none,
        { cwd := w.cwd,
          files := fun q =>
            if q = filepath.Join [outputPath cwd isTest name, "manifest.json"] then some bytes
            else if q = filepath.Join [outputPath cwd isTest name, "thumbnail.webp"] then
              some r.Thumbnail
            else if q = filepath.Join [outputPath cwd isTest name, "mini_map.bin"] then
              some r.MiniMap
            else if q = filepath.Join [outputPath cwd isTest name, "map.bin"] then some r.Map
            else w.files q,
          dirs := fun q => w.dirs q || isSelfOrAncestor q (outputPath cwd isTest name),
          readFault := w.readFault,
          mkdirFault := w.mkdirFault,
          writeFault := w.writeFault,
          trace := w.trace ++
            [.mkdirAll (outputPath cwd isTest name),
             .writeFile (filepath.Join [outputPath cwd isTest name, "map.bin"]) r.Map,
             .writeFile (filepath.Join [outputPath cwd isTest name, "mini_map.bin"]) r.MiniMap,
             .writeFile (filepath.Join [outputPath cwd isTest name, "thumbnail.webp"])
               r.Thumbnail,
             .marshalIndent man,
             .writeFile (filepath.Join [outputPath cwd isTest name, "manifest.json"]) bytes] })
    := by
  simp only [persist, os.MkdirAll, os.WriteFile, json.MarshalIndent, World.log, hmk, h1, h2, h3,
    h4, hser, Dir_outputFile cwd isTest name "map.bin" plain_mapBin,
    Dir_outputFile cwd isTest name "mini_map.bin" plain_miniMapBin,
    Dir_outputFile cwd isTest name "thumbnail.webp" plain_thumbnail,
    Dir_outputFile cwd isTest name "manifest.json" plain_manifest,
    isSelfOrAncestor_self, Bool.or_true, if_true, List.append_assoc, List.cons_append,
    List.nil_append]

theorem persist_fail_mapBin (env : Env) (name cwd : String) (isTest : Bool) (r : MapResult)
    (man : GoMap) (w : World) (ft : WriteFault)
    (hmk : w.mkdirFault (outputPath cwd isTest name) = none)
    (h1 : w.writeFault (filepath.Join [outputPath cwd isTest name, "map.bin"]) = some ft) :
    (persist env name cwd isTest r man w).1 =
      .returned (some (fmt.Errorf ("failed to write combined binary for " ++ name ++ ": " ++
        (GoError.pathError ft.op (filepath.Join [outputPath cwd isTest name, "map.bin"])
          ft.errno).Error)
        (.pathError ft.op (filepath.Join [outputPath cwd isTest name, "map.bin"]) ft.errno))) := by
  simp only [persist, os.MkdirAll, os.WriteFile, World.log, hmk, h1]

theorem persist_fail_miniMapBin (env : Env) (name cwd : String) (isTest : Bool) (r : MapResult)
    (man : GoMap) (w : World) (ft : WriteFault)
    (hmk : w.mkdirFault (outputPath cwd isTest name) = none)
    (h1 : w.writeFault (filepath.Join [outputPath cwd isTest name, "map.bin"]) = none)
    (h2 : w.writeFault (filepath.Join [outputPath cwd isTest name, "mini_map.bin"]) = some ft) :
    (persist env name cwd isTest r man w).1 =
      .returned (some (fmt.Errorf ("failed to write combined binary for " ++ name ++ ": " ++
        (GoError.pathError ft.op (filepath.Join [outputPath cwd isTest name, "mini_map.bin"])
          ft.errno).Error)
        (.pathError ft.op (filepath.Join [outputPath cwd isTest name, "mini_map.bin"])
          ft.errno))) := by
  simp only [persist, os.MkdirAll, os.WriteFile, World.log, hmk, h1, h2,
    Dir_outputFile cwd isTest name "map.bin" plain_mapBin,
    isSelfOrAncestor_self, Bool.or_true, if_true]

theorem persist_fail_thumbnail (env : Env) (name cwd : String) (isTest : Bool) (r : MapResult)
    (man : GoMap) (w : World) (ft : WriteFault)
    (hmk : w.mkdirFault (outputPath cwd isTest name) = none)
    (h1 : w.writeFault (filepath.Join [outputPath cwd isTest name, "map.bin"]) = none)
    (h2 : w.writeFault (filepath.Join [outputPath cwd isTest name, "mini_map.bin"]) = none)
    (h3 : w.writeFault (filepath.Join [outputPath cwd isTest name, "thumbnail.webp"])
      = some ft) :
    (persist env name cwd isTest r man w).1 =
      .returned (some (fmt.Errorf ("failed to write thumbnail for " ++ name ++ ": " ++
        (GoError.pathError ft.op (filepath.Join [outputPath cwd isTest name, "thumbnail.webp"])
          ft.errno).Error)
        (.pathError ft.op (filepath.Join [outputPath cwd isTest name, "thumbnail.webp"])
          ft.errno))) := by
  simp only [persist, os.MkdirAll, os.WriteFile, World.log, hmk, h1, h2, h3,
    Dir_outputFile cwd isTest name "map.bin" plain_mapBin,
    Dir_outputFile cwd isTest name "mini_map.bin" plain_miniMapBin,
    isSelfOrAncestor_self, Bool.or_true, if_true]

theorem persist_fail_manifest (env : Env) (name cwd : String) (isTest : Bool) (r : MapResult)
    (man : GoMap) (w : World) (ft : WriteFault) (bytes : Bytes)
    (hmk : w.mkdirFault (outputPath cwd isTest name) = none)
    (h1 : w.writeFault (filepath.Join [outputPath cwd isTest name, "map.bin"]) = none)
    (h2 : w.writeFault (filepath.Join [outputPath cwd isTest name, "mini_map.bin"]) = none)
    (h3 : w.writeFault (filepath.Join [outputPath cwd isTest name, "thumbnail.webp"]) = none)
    (hser : env.MarshalIndent man "" "  " = .ok bytes)
    (h4 : w.writeFault (filepath.Join [outputPath cwd isTest name, "manifest.json"])
      = some ft) :
    (persist env name cwd isTest r man w).1 =
      .returned (some (fmt.Errorf ("failed to write manifest for " ++ name ++ ": " ++
        (GoError.pathError ft.op (filepath.Join [outputPath cwd isTest name, "manifest.json"])
          ft.errno).Error)
        (.pathError ft.op (filepath.Join [outputPath cwd isTest name, "manifest.json"])
          ft.errno))) := by
  simp only [persist, os.MkdirAll, os.WriteFile, json.MarshalIndent, World.log, hmk, h1, h2, h3,
    h4, hser, Dir_outputFile cwd isTest name "map.bin" plain_mapBin,
    Dir_outputFile cwd isTest name "mini_map.bin" plain_miniMapBin,
    Dir_outputFile cwd isTest name "thumbnail.webp" plain_thumbnail,
    isSelfOrAncestor_self, Bool.or_true, if_true]

/-! ### The calls of a run -/

theorem drop_trace (t l : List Event) : (t ++ l).drop t.length = l := by
  simp

theorem calls_getwd_err (env : Env) (name : String) (isTest : Bool) (w : World)
    (err : GoError) (hcwd : w.cwd = .error err) :
    processMap.calls env name isTest w = [.getwd] := by
  unfold processMap.calls
  rw [processMap_getwd_err env name isTest w err hcwd]
  exact drop_trace w.trace _

theorem calls_image_err (env : Env) (name : String) (isTest : Bool) (w : World)
    (cwd : String) (err : GoError) (hcwd : w.cwd = .ok cwd)
    (himg : (os.ReadFile (mapPath cwd isTest name) w).1 = .error err) :
    processMap.calls env name isTest w = [.getwd, .readFile (mapPath cwd isTest name)] := by
  unfold processMap.calls
  rw [processMap_image_err env name isTest w cwd err hcwd himg]
  simp only [World.log, List.append_assoc]
  exact drop_trace w.trace _

theorem calls_info_err (env : Env) (name : String) (isTest : Bool) (w : World)
    (cwd : String) (img : Bytes) (err : GoError) (hcwd : w.cwd = .ok cwd)
    (himg : (os.ReadFile (mapPath cwd isTest name) w).1 = .ok img)
    (hinfo : (os.ReadFile (manifestPath cwd isTest name) w).1 = .error err) :
    processMap.calls env name isTest w =
      [.getwd, .readFile (mapPath cwd isTest name), .readFile (manifestPath cwd isTest name)] := by
  unfold processMap.calls
  rw [processMap_info_err env name isTest w cwd img err hcwd himg hinfo]
  simp only [World.log, List.append_assoc]
  exact drop_trace w.trace _

theorem calls_parse_err (env : Env) (name : String) (isTest : Bool) (w : World)
    (cwd : String) (img info : Bytes) (err : GoError) (hcwd : w.cwd = .ok cwd)
    (himg : (os.ReadFile (mapPath cwd isTest name) w).1 = .ok img)
    (hinfo : (os.ReadFile (manifestPath cwd isTest name) w).1 = .ok info)
    (hum : (json.Unmarshal env info none w).1 = .error err) :
    processMap.calls env name isTest w =
      [.getwd, .readFile (mapPath cwd isTest name), .readFile (manifestPath cwd isTest name),
        .unmarshal info] := by
  unfold processMap.calls
  rw [processMap_parse_err env name isTest w cwd img info err hcwd himg hinfo hum]
  simp only [World.log, List.append_assoc]
  exact drop_trace w.trace _

/-- The calls of a run that reaches the generate step: the five calls up to the generator,
then directory creation, file writes and the serialisation of the merged manifest only. -/
theorem calls_reach (env : Env) (name : String) (isTest : Bool) (w : World)
    (cwd : String) (img info : Bytes) (manifest : Option GoMap) (hcwd : w.cwd = .ok cwd)
    (himg : (os.ReadFile (mapPath cwd isTest name) w).1 = .ok img)
    (hinfo : (os.ReadFile (manifestPath cwd isTest name) w).1 = .ok info)
    (hum : (json.Unmarshal env info none w).1 = .ok manifest) :
    ∃ evs, processMap.calls env name isTest w =
      [.getwd, .readFile (mapPath cwd isTest name), .readFile (manifestPath cwd isTest name),
        .unmarshal info,
        .generateMap { ImageBuffer := img, RemoveSmall := !isTest, Name := name }] ++ evs ∧
      ∀ e ∈ evs, (∃ p, e = .mkdirAll p) ∨ (∃ p d, e = .writeFile p d) ∨
        ∃ m r, manifest = some m ∧
          env.GenerateMap { ImageBuffer := img, RemoveSmall := !isTest, Name := name } = .ok r ∧
          e = .marshalIndent (mergeManifest m r) := by
  unfold processMap.calls
  cases hgen : env.GenerateMap { ImageBuffer := img, RemoveSmall := !isTest, Name := name } with
  | error err =>
    rw [processMap_generate_err env name isTest w cwd img info manifest err hcwd himg hinfo hum
      hgen]
    refine ⟨[], ?_, by simp⟩
    simp only [World.log, List.append_assoc]
    exact drop_trace w.trace _
  | ok r =>
    cases manifest with
    | none =>
      rw [processMap_nil env name isTest w cwd img info r hcwd himg hinfo hum hgen]
      refine ⟨[], ?_, by simp⟩
      simp only [World.log, List.append_assoc]
      exact drop_trace w.trace _
    | some m =>
      rw [processMap_persist env name isTest w cwd img info m r hcwd himg hinfo hum hgen]
      obtain ⟨evs, htr, hev⟩ := persist_trace env name cwd isTest r (mergeManifest m r)
        (((((w.log .getwd).log (.readFile (mapPath cwd isTest name))).log
          (.readFile (manifestPath cwd isTest name))).log (.unmarshal info)).log
          (.generateMap { ImageBuffer := img, RemoveSmall := !isTest, Name := name }))
      refine ⟨evs, ?_, ?_⟩
      · rw [htr]
        simp only [World.log, List.append_assoc]
        exact drop_trace w.trace _
      · intro e he
        rcases hev e he with h | h | h
        · exact Or.inl h
        · exact Or.inr (Or.inl h)
        · exact Or.inr (Or.inr ⟨m, r, rfl, rfl, h⟩)

/-- Once the output directory and the three generated files are written, the persisting part
serialises the manifest. -/
theorem persist_marshals (env : Env) (name cwd : String) (isTest : Bool) (r : MapResult)
    (man : GoMap) (w : World)
    (hmk : w.mkdirFault (outputPath cwd isTest name) = none)
    (h1 : w.writeFault (filepath.Join [outputPath cwd isTest name, "map.bin"]) = none)
    (h2 : w.writeFault (filepath.Join [outputPath cwd isTest name, "mini_map.bin"]) = none)
    (h3 : w.writeFault (filepath.Join [outputPath cwd isTest name, "thumbnail.webp"]) = none) :
    ∃ pre post, (persist env name cwd isTest r man w).2.trace
      = w.trace ++ (pre ++ Event.marshalIndent man :: post) := by
  have hsnd : ∀ (x : Option GoError × World) (f : GoError → Outcome) (g : Outcome),
      (match x with
        | (some err, w) => (f err, w)
        | (none, w) => (g, w)).2 = x.2 := by
    intro x f g
    obtain ⟨a, b⟩ := x
    cases a <;> rfl
  simp only [persist, MkdirAll_ok _ _ hmk, WriteFile_ok, json.MarshalIndent, World.log, h1, h2,
    h3, Dir_outputFile cwd isTest name "map.bin" plain_mapBin,
    Dir_outputFile cwd isTest name "mini_map.bin" plain_miniMapBin,
    Dir_outputFile cwd isTest name "thumbnail.webp" plain_thumbnail,
    isSelfOrAncestor_self, Bool.or_true]
  cases env.MarshalIndent man "" "  " with
  | error err =>
    simp only
    refine ⟨[.mkdirAll (outputPath cwd isTest name),
      .writeFile (filepath.Join [outputPath cwd isTest name, "map.bin"]) r.Map,
      .writeFile (filepath.Join [outputPath cwd isTest name, "mini_map.bin"]) r.MiniMap,
      .writeFile (filepath.Join [outputPath cwd isTest name, "thumbnail.webp"]) r.Thumbnail],
      [], ?_⟩
    simp only [List.append_assoc]
    rfl
  | ok bytes =>
    simp only
    rw [hsnd, WriteFile_trace]
    refine ⟨[.mkdirAll (outputPath cwd isTest name),
      .writeFile (filepath.Join [outputPath cwd isTest name, "map.bin"]) r.Map,
      .writeFile (filepath.Join [outputPath cwd isTest name, "mini_map.bin"]) r.MiniMap,
      .writeFile (filepath.Join [outputPath cwd isTest name, "thumbnail.webp"]) r.Thumbnail],
      [.writeFile (filepath.Join [outputPath cwd isTest name, "manifest.json"]) bytes], ?_⟩
    simp only [List.append_assoc]
    rfl

/-! ### Texts of the errors -/

theorem append_ne_of_getElem?_ne (a b x y : List Char) (n : Nat) (ha : n < a.length)
    (hb : n < b.length) (h : a[n]? ≠ b[n]?) : a ++ x ≠ b ++ y := by
  intro he
  apply h
  have h1 : (a ++ x)[n]? = a[n]? := List.getElem?_append_left ha
  have h2 : (b ++ y)[n]? = b[n]? := List.getElem?_append_left hb
  rw [← h1, ← h2, he]

theorem string_append_ne (a b x y : String) (n : Nat) (ha : n < a.data.length)
    (hb : n < b.data.length) (h : a.data[n]? ≠ b.data[n]?) : a ++ x ≠ b ++ y := by
  intro he
  have hd := congrArg String.data he
  simp only [String.data_append] at hd
  exact append_ne_of_getElem?_ne _ _ _ _ n ha hb h hd

theorem string_append_cancel (a x y : String) (h : a ++ x = a ++ y) : x = y := by
  have hd := congrArg String.data h
  simp only [String.data_append] at hd
  exact String.ext (List.append_cancel_left hd)

theorem FileOp.text_append_ne (op1 op2 : FileOp) (x y : String) (h : op1 ≠ op2) :
    op1.text ++ x ≠ op2.text ++ y := by
  cases op1 <;> cases op2 <;>
    first
    | exact absurd rfl h
    | exact string_append_ne _ _ _ _ 0 (by decide) (by decide) (by decide)

theorem pathError_text_ne (op1 op2 : FileOp) (q f g e1 e2 : String)
    (n : Nat) (hf : n < f.data.length) (hg : n < g.data.length) (hfg : f.data[n]? ≠ g.data[n]?) :
    (GoError.pathError op1 (q ++ f) e1).Error ≠ (GoError.pathError op2 (q ++ g) e2).Error := by
  simp only [GoError.Error, String.append_assoc]
  by_cases hop : op1 = op2
  · subst hop
    intro h
    have h1 := string_append_cancel _ _ _ h
    have h2 := string_append_cancel _ _ _ h1
    have h3 := string_append_cancel _ _ _ h2
    exact string_append_ne _ _ _ _ n hf hg hfg h3
  · exact FileOp.text_append_ne op1 op2 _ _ hop

theorem isInfix_of_eq (a n b m : String) (h : m = a ++ n ++ b) : n.data <:+: m.data := by
  subst h
  exact ⟨a.data, b.data, by simp [String.data_append]⟩

theorem plain_mapDir (isTest : Bool) : filepath.Plain (mapDir isTest).data := by
  cases isTest <;> decide

theorem mapDir_injective (a b : Bool) (h : mapDir a = mapDir b) : a = b := by
  cases a <;> cases b <;> first | rfl | exact absurd h (by decide)

/-- Text of an input file path when the asset name is a plain path element. -/
theorem inputPath_eq (cwd : String) (isTest : Bool) (name f : String)
    (hname : filepath.Plain name.data) (hf : filepath.Plain f.data) :
    filepath.Join [cwd, "assets", mapDir isTest, name, f] =
      (⟨filepath.joinPrefix cwd.data⟩ ++ "assets/" ++ mapDir isTest ++ "/") ++ name
        ++ ("/" ++ f) := by
  rw [filepath.Join_cons_plain cwd ["assets", mapDir isTest, name, f] (by simp) (by
    intro e he
    simp only [List.mem_cons, List.mem_singleton, List.not_mem_nil, or_false] at he
    rcases he with rfl | rfl | rfl | rfl
    · decide
    · exact plain_mapDir isTest
    · exact hname
    · exact hf)]
  apply String.ext
  simp only [List.map_cons, List.map_nil, filepath.joinElements, String.data_append]
  simp

/-- Text of an output file path: the file name after a text fixed by the output directory. -/
theorem outputFile_eq (out f : String) (hf : filepath.Plain f.data) :
    filepath.Join [out, f] = ⟨filepath.joinPrefix out.data⟩ ++ f := by
  rw [filepath.Join_cons_plain out [f] (by simp) (by simpa using hf)]
  apply String.ext
  simp [filepath.joinElements, String.data_append]

theorem writeError_combined (name path : String) (ft : WriteFault) :
    writeError "combined binary" name path ft =
      fmt.Errorf ("failed to write combined binary for " ++ name ++ ": " ++
        (GoError.pathError ft.op path ft.errno).Error) (.pathError ft.op path ft.errno) := by
  have e : "failed to write " ++ "combined binary" ++ " for "
      = "failed to write combined binary for " := by decide
  simp only [writeError, e]

theorem writeError_thumbnail (name path : String) (ft : WriteFault) :
    writeError "thumbnail" name path ft =
      fmt.Errorf ("failed to write thumbnail for " ++ name ++ ": " ++
        (GoError.pathError ft.op path ft.errno).Error) (.pathError ft.op path ft.errno) := by
  have e : "failed to write " ++ "thumbnail" ++ " for " = "failed to write thumbnail for " := by
    decide
  simp only [writeError, e]

theorem writeError_manifest (name path : String) (ft : WriteFault) :
    writeError "manifest" name path ft =
      fmt.Errorf ("failed to write manifest for " ++ name ++ ": " ++
        (GoError.pathError ft.op path ft.errno).Error) (.pathError ft.op path ft.errno) := by
  have e : "failed to write " ++ "manifest" ++ " for " = "failed to write manifest for " := by
    decide
  simp only [writeError, e]

theorem writeError_text (what name path : String) (ft : WriteFault) :
    (writeError what name path ft).Error =
      "failed to write " ++ (what ++ (" for " ++ (name ++ (": " ++
        (GoError.pathError ft.op path ft.errno).Error)))) := by
  simp only [writeError, fmt.Errorf, GoError.Error, String.append_assoc]

/-- The text of a write error contains the path of the file. -/
theorem writeError_names_path (what name path : String) (ft : WriteFault) :
    path.data <:+: (writeError what name path ft).Error.data := by
  apply isInfix_of_eq ("failed to write " ++ what ++ " for " ++ name ++ ": " ++ ft.op.text ++ " ")
    path (": " ++ ft.errno)
  simp only [writeError, fmt.Errorf, GoError.Error, String.append_assoc]

/-- Write errors with different words after `failed to write` have different texts. -/
theorem writeError_ne_of_what (what1 what2 name p1 p2 : String) (ft1 ft2 : WriteFault)
    (h1 : 0 < what1.data.length) (h2 : 0 < what2.data.length)
    (h : what1.data[0]? ≠ what2.data[0]?) :
    (writeError what1 name p1 ft1).Error ≠ (writeError what2 name p2 ft2).Error := by
  rw [writeError_text, writeError_text]
  intro he
  exact string_append_ne _ _ _ _ 0 h1 h2 h (string_append_cancel _ _ _ he)

/-- Write errors for two files of one directory whose names differ at some position have
different texts. -/
theorem writeError_ne_of_file (what name out f g : String) (ft1 ft2 : WriteFault)
    (hf : filepath.Plain f.data) (hg : filepath.Plain g.data) (n : Nat)
    (h1 : n < f.data.length) (h2 : n < g.data.length) (h : f.data[n]? ≠ g.data[n]?) :
    (writeError what name (filepath.Join [out, f]) ft1).Error
      ≠ (writeError what name (filepath.Join [out, g]) ft2).Error := by
  rw [writeError_text, writeError_text, outputFile_eq out f hf, outputFile_eq out g hg]
  intro he
  have e1 := string_append_cancel _ _ _ he
  have e2 := string_append_cancel _ _ _ e1
  have e3 := string_append_cancel _ _ _ e2
  have e4 := string_append_cancel _ _ _ e3
  have e5 := string_append_cancel _ _ _ e4
  exact pathError_text_ne ft1.op ft2.op _ f g ft1.errno ft2.errno n h1 h2 h e5

/-! ### A run without failure -/

theorem ReadFile_fst_congr (n : String) (w w1 : World) (hf : w1.files n = w.files n)
    (hr : w1.readFault n = w.readFault n) : (os.ReadFile n w1).1 = (os.ReadFile n w).1 := by
  unfold os.ReadFile
  rw [hf, hr]
  cases w.readFault n with
  | some p => rfl
  | none =>
    cases w.files n with
    | none => rfl
    | some d => rfl

/-- A run in which nothing fails returns `nil`; the world it leaves holds the four
output files with the generated contents and the serialised merged manifest. -/
theorem processMap_ok (env : Env) (name : String) (isTest : Bool) (w : World)
    (cwd : String) (img info : Bytes) (m : GoMap) (r : MapResult) (bytes : Bytes)
    (hcwd : w.cwd = .ok cwd)
    (himg : (os.ReadFile (mapPath cwd isTest name) w).1 = .ok img)
    (hinfo : (os.ReadFile (manifestPath cwd isTest name) w).1 = .ok info)
    (hum : (json.Unmarshal env info none w).1 = .ok (some m))
    (hgen : env.GenerateMap { ImageBuffer := img, RemoveSmall := !isTest, Name := name }
      = .ok r)
    (hser : env.MarshalIndent (mergeManifest m r) "" "  " = .ok bytes)
    (hmk : w.mkdirFault (outputPath cwd isTest name) = none)
    (h1 : w.writeFault (filepath.Join [outputPath cwd isTest name, "map.bin"]) = none)
    (h2 : w.writeFault (filepath.Join [outputPath cwd isTest name, "mini_map.bin"]) = none)
    (h3 : w.writeFault (filepath.Join [outputPath cwd isTest name, "thumbnail.webp"]) = none)
    (h4 : w.writeFault (filepath.Join [outputPath cwd isTest name, "manifest.json"]) = none) :
    (processMap env name isTest w).1 = .returned none ∧
    (processMap env name isTest w).2.cwd = w.cwd ∧
    (processMap env name isTest w).2.readFault = w.readFault ∧
    (processMap env name isTest w).2.mkdirFault = w.mkdirFault ∧
    (processMap env name isTest w).2.writeFault = w.writeFault ∧
    (processMap env name isTest w).2.files = fun q =>
      if q = filepath.Join [outputPath cwd isTest name, "manifest.json"] then some bytes
      else if q = filepath.Join [outputPath cwd isTest name, "thumbnail.webp"] then
        some r.Thumbnail
      else if q = filepath.Join [outputPath cwd isTest name, "mini_map.bin"] then
        some r.MiniMap
      else if q = filepath.Join [outputPath cwd isTest name, "map.bin"] then some r.Map
      else w.files q := by
  rw [processMap_persist env name isTest w cwd img info m r hcwd himg hinfo hum hgen,
    persist_ok env name cwd isTest r (mergeManifest m r)
      (((((w.log .getwd).log (.readFile (mapPath cwd isTest name))).log
        (.readFile (manifestPath cwd isTest name))).log (.unmarshal info)).log
        (.generateMap { ImageBuffer := img, RemoveSmall := !isTest, Name := name }))
      bytes hmk h1 h2 h3 h4 hser]
  exact ⟨rfl, rfl, rfl, rfl, rfl, rfl⟩

theorem outputFile_ne (cwd : String) (isTest : Bool) (name f g : String)
    (hf : filepath.Plain f.data) (hg : filepath.Plain g.data) (hfg : f ≠ g) :
    filepath.Join [outputPath cwd isTest name, f]
      ≠ filepath.Join [outputPath cwd isTest name, g] :=
  filepath.Join_ne_of_last_ne [outputPath cwd isTest name] [outputPath cwd isTest name] f g
    hf hg hfg

theorem input_ne_output (cwd : String) (isTest : Bool) (name f g : String)
    (hf : filepath.Plain f.data) (hg : filepath.Plain g.data) (hfg : f ≠ g) :
    filepath.Join [cwd, "assets", mapDir isTest, name, f]
      ≠ filepath.Join [outputPath cwd isTest name, g] :=
  filepath.Join_ne_of_last_ne [cwd, "assets", mapDir isTest, name]
    [outputPath cwd isTest name] f g hf hg hfg

/-! ### The catalog -/

theorem maps_nodup : (maps.map (fun it => (it.IsTest, it.Name))).Nodup := by
  decide

theorem maps_plain : ∀ it ∈ maps, filepath.Plain it.Name.data := by
  decide

theorem plain_assets : filepath.Plain "assets".data := by decide
theorem plain_generated : filepath.Plain "generated".data := by decide

/-- Two entries of `maps` at different positions differ in directory or name. -/
theorem maps_entries_ne (i j : Nat) (a b : MapItem) (ha : maps[i]? = some a)
    (hb : maps[j]? = some b) (hij : i ≠ j) : ¬ (mapDir a.IsTest = mapDir b.IsTest ∧ a.Name = b.Name)
    := by
  rintro ⟨hd, hn⟩
  apply hij
  have ht := mapDir_injective _ _ hd
  have h1 : (maps.map (fun it => (it.IsTest, it.Name)))[i]? = some (a.IsTest, a.Name) := by
    rw [List.getElem?_map, ha]; rfl
  have h2 : (maps.map (fun it => (it.IsTest, it.Name)))[j]? = some (a.IsTest, a.Name) := by
    rw [List.getElem?_map, hb, ht, hn]; rfl
  exact List.getElem?_inj (List.getElem?_eq_some.1 h1).1 maps_nodup (h1.trans h2.symm)

theorem dir_ne_of_entries_ne (cwd top : String) (htop : filepath.Plain top.data)
    (a b : MapItem) (ha : filepath.Plain a.Name.data) (hb : filepath.Plain b.Name.data)
    (tail1 tail2 : List String) (h1 : ∀ e ∈ tail1, filepath.Plain e.data)
    (h2 : ∀ e ∈ tail2, filepath.Plain e.data)
    (hne : ¬ (mapDir a.IsTest = mapDir b.IsTest ∧ a.Name = b.Name)) :
    filepath.Join (cwd :: top :: mapDir a.IsTest :: a.Name :: tail1)
      ≠ filepath.Join (cwd :: top :: mapDir b.IsTest :: b.Name :: tail2) := by
  intro h
  have := filepath.Join_plain_injective cwd _ _ (by simp) (by simp)
    (by
      intro e he
      simp only [List.mem_cons] at he
      rcases he with rfl | rfl | rfl | he
      · exact htop
      · exact plain_mapDir _
      · exact ha
      · exact h1 e he)
    (by
      intro e he
      simp only [List.mem_cons] at he
      rcases he with rfl | rfl | rfl | he
      · exact htop
      · exact plain_mapDir _
      · exact hb
      · exact h2 e he) h
  simp only [List.cons.injEq, true_and] at this
  exact hne ⟨this.1, this.2.1⟩

theorem outputFile_flat (cwd : String) (isTest : Bool) (name f : String) :
    filepath.Join [outputPath cwd isTest name, f]
      = filepath.Join [cwd, "generated", mapDir isTest, name, f] := by
  unfold outputPath
  rw [filepath.Join_Join_last [cwd, "generated", mapDir isTest, name] f
    ⟨"generated", by simp, by decide⟩]
  rfl


namespace loadTerrainMaps

/-! ### Lists under `set` -/

theorem getElem?_set_cases {α : Type} (l : List α) (i j : Nat) (a x : α)
    (h : (l.set i a)[j]? = some x) : (j = i ∧ x = a) ∨ (j ≠ i ∧ l[j]? = some x) := by
  rw [List.getElem?_set] at h
  by_cases hij : i = j
  · left
    rw [if_pos hij] at h
    by_cases hlt : i < l.length
    · rw [if_pos hlt] at h
      exact ⟨hij.symm, (Option.some.inj h).symm⟩
    · rw [if_neg hlt] at h
      exact absurd h (by simp)
  · right
    rw [if_neg hij] at h
    exact ⟨fun hji => hij hji.symm, h⟩

theorem getElem?_set_at {α : Type} (l : List α) (i : Nat) (a g : α) (h : l[i]? = some g) :
    (l.set i a)[i]? = some a := by
  have hlt : i < l.length := by
    by_contra hn
    rw [List.getElem?_eq_none (Nat.le_of_not_lt hn)] at h
    exact absurd h (by simp)
  rw [List.getElem?_set, if_pos rfl, if_pos hlt]

theorem getElem?_set_other {α : Type} (l : List α) (i j : Nat) (a : α) (h : j ≠ i) :
    (l.set i a)[j]? = l[j]? := by
  rw [List.getElem?_set, if_neg (fun hij => h hij.symm)]

theorem countP_set_same {α : Type} (p : α → Bool) (l : List α) (i : Nat) (a g : α)
    (h : l[i]? = some g) (hp : p a = p g) : (l.set i a).countP p = l.countP p := by
  induction l generalizing i with
  | nil => simp
  | cons x xs ih =>
    cases i with
    | zero =>
      simp at h
      subst h
      simp [List.countP_cons, hp]
    | succ n =>
      simp at h
      simp [List.countP_cons, ih n h]

theorem countP_set_drop {α : Type} (p : α → Bool) (l : List α) (i : Nat) (a g : α)
    (h : l[i]? = some g) (hg : p g = true) (ha : p a = false) :
    (l.set i a).countP p + 1 = l.countP p := by
  induction l generalizing i with
  | nil => simp at h
  | cons x xs ih =>
    cases i with
    | zero =>
      simp at h
      subst h
      simp [List.countP_cons, hg, ha]
    | succ n =>
      simp at h
      have := ih n h
      simp only [List.set_cons_succ, List.countP_cons]
      omega

theorem map_set_same {α β : Type} (f : α → β) (l : List α) (i : Nat) (a g : α)
    (h : l[i]? = some g) (hf : f a = f g) : (l.set i a).map f = l.map f := by
  induction l generalizing i with
  | nil => simp
  | cons x xs ih =>
    cases i with
    | zero =>
      simp at h
      subst h
      simp [hf]
    | succ n =>
      simp at h
      simp [ih n h]

theorem sum_map_set {α : Type} (f : α → Nat) (l : List α) (i : Nat) (a g : α)
    (h : l[i]? = some g) : ((l.set i a).map f).sum + f g = (l.map f).sum + f a := by
  induction l generalizing i with
  | nil => simp at h
  | cons x xs ih =>
    cases i with
    | zero =>
      simp at h
      subst h
      simp
      omega
    | succ n =>
      simp at h
      have := ih n h
      simp only [List.set_cons_succ, List.map_cons, List.sum_cons]
      omega

theorem mem_of_getElem?_eq {α : Type} (l : List α) (i : Nat) (g : α) (h : l[i]? = some g) :
    g ∈ l := by
  obtain ⟨hlt, hg⟩ := List.getElem?_eq_some.1 h
  rw [← hg]
  exact List.getElem_mem hlt

theorem getElem?_append_cases {α : Type} (l : List α) (a x : α) (j : Nat)
    (h : (l ++ [a])[j]? = some x) : l[j]? = some x ∨ (j = l.length ∧ x = a) := by
  by_cases hlt : j < l.length
  · left
    rwa [List.getElem?_append_left hlt] at h
  · right
    have hge : l.length ≤ j := Nat.le_of_not_lt hlt
    rw [List.getElem?_append_right hge] at h
    cases hk : j - l.length with
    | zero =>
      rw [hk] at h
      simp at h
      exact ⟨by omega, h.symm⟩
    | succ n =>
      rw [hk] at h
      simp at h

theorem getElem?_append_old {α : Type} (l : List α) (a x : α) (j : Nat) (h : l[j]? = some x) :
    (l ++ [a])[j]? = some x := by
  obtain ⟨hlt, _⟩ := List.getElem?_eq_some.1 h
  rw [List.getElem?_append_left hlt]
  exact h

/-! ### The invariant -/

theorem inv_init (catalog : List MapItem) (outcome : Nat → Option GoError) :
    Inv catalog outcome (init catalog) := by
  refine ⟨rfl, rfl, ?_, ?_, ?_, rfl, ?_, ?_, ?_, ?_, ?_, ?_, ?_, ?_, ?_⟩ <;>
    simp [init, pending, adding, pastWait]

theorem inv_stepMain (catalog : List MapItem) (outcome : Nat → Option GoError) (s s1 : State)
    (hinv : Inv catalog outcome s) (h : stepMain s = some s1) : Inv catalog outcome s1 := by
  obtain ⟨cap_eq, no_crash, items, wg_eq, late, closed_eq, chan, ret_val, sent_nodup,
    sent_sound, sent_complete, send_ok, calls_nodup, calls_sound, calls_complete⟩ := hinv
  unfold stepMain at h
  cases hm : s.main with
  | loop rest =>
    rw [hm] at h items wg_eq closed_eq
    cases rest with
    | nil =>
      simp only [Option.some.injEq] at h
      subst h
      exact ⟨cap_eq, no_crash, by simpa [pending] using items, by simpa [adding] using wg_eq,
        by simp [pastWait], by simpa [pastClose] using closed_eq,
        fun _ => chan (by simp [hm]), by simp, sent_nodup, sent_sound, sent_complete, send_ok,
        calls_nodup, calls_sound, calls_complete⟩
    | cons mapItem rest =>
      simp only [Option.some.injEq] at h
      subst h
      exact ⟨cap_eq, no_crash, by simpa [pending] using items,
        by simp [adding] at wg_eq ⊢; omega,
        by simp [pastWait], by simpa [pastClose] using closed_eq,
        fun _ => chan (by simp [hm]), by simp, sent_nodup, sent_sound, sent_complete, send_ok,
        calls_nodup, calls_sound, calls_complete⟩
  | spawn mapItem rest =>
    rw [hm] at h items wg_eq closed_eq
    simp only [Option.some.injEq] at h
    subst h
    refine ⟨cap_eq, no_crash, by simpa [pending] using items,
      by simp [adding, List.countP_append] at wg_eq ⊢; omega,
      by simp [pastWait], by simpa [pastClose] using closed_eq,
      fun _ => chan (by simp [hm]), by simp, sent_nodup, ?_, ?_, ?_, calls_nodup, ?_, ?_⟩
    · intro i e hie
      obtain ⟨ho, g, hg, hp⟩ := sent_sound i e hie
      exact ⟨ho, g, getElem?_append_old _ _ _ _ hg, hp⟩
    · intro i g e hg hp ho
      rcases getElem?_append_cases _ _ _ _ hg with hg | ⟨_, hg⟩
      · exact sent_complete i g e hg hp ho
      · subst hg
        simp [GoPc.pastSend] at hp
    · intro i g e hg hp
      rcases getElem?_append_cases _ _ _ _ hg with hg | ⟨_, hg⟩
      · exact send_ok i g e hg hp
      · subst hg
        simp at hp
    · intro i n t hc
      obtain ⟨g, hg, hp⟩ := calls_sound i n t hc
      exact ⟨g, getElem?_append_old _ _ _ _ hg, hp⟩
    · intro i g hg hp
      rcases getElem?_append_cases _ _ _ _ hg with hg | ⟨_, hg⟩
      · exact calls_complete i g hg hp
      · subst hg
        simp at hp
  | wait =>
    rw [hm] at h items wg_eq closed_eq
    by_cases hwg : s.wg = 0
    · rw [if_pos hwg] at h
      simp only [Option.some.injEq] at h
      subst h
      refine ⟨cap_eq, no_crash, by simpa [pending] using items, by simpa [adding] using wg_eq,
        ?_, by simpa [pastClose] using closed_eq,
        fun _ => chan (by simp [hm]), by simp, sent_nodup, sent_sound, sent_complete, send_ok,
        calls_nodup, calls_sound, calls_complete⟩
      intro _ g hg
      have hz : s.gos.countP (fun g => decide (g.pc ≠ .done)) = 0 := by
        rw [hwg] at wg_eq
        simp only [adding, Nat.add_zero] at wg_eq
        exact wg_eq.symm
      have := (List.countP_eq_zero.1 hz) g hg
      simpa using this
    · rw [if_neg hwg] at h
      exact absurd h (by simp)
  | close =>
    rw [hm] at h items wg_eq closed_eq late
    have hcl : s.closed = false := by simpa [pastClose] using closed_eq
    rw [hcl] at h
    simp only [Bool.false_eq_true, if_false, Option.some.injEq] at h
    subst h
    exact ⟨cap_eq, no_crash, by simpa [pending] using items, by simpa [adding] using wg_eq,
      fun _ => late (by simp [pastWait]), by simp [pastClose],
      fun _ => chan (by simp [hm]), by simp, sent_nodup, sent_sound, sent_complete, send_ok,
      calls_nodup, calls_sound, calls_complete⟩
  | drain =>
    rw [hm] at h items wg_eq closed_eq late
    have hch := chan (by simp [hm])
    have hcl : s.closed = true := by simpa [pastClose] using closed_eq
    cases hs : s.sent with
    | nil =>
      rw [hs] at hch
      simp only [List.map_nil] at hch
      rw [hch, hcl] at h
      simp only [if_true, Option.some.injEq] at h
      subst h
      exact ⟨cap_eq, no_crash, by simpa [pending] using items, by simpa [adding] using wg_eq,
        fun _ => late (by simp [pastWait]), by simp [pastClose, hcl],
        by simp, by simp [hs], sent_nodup, sent_sound, sent_complete, send_ok,
        calls_nodup, calls_sound, calls_complete⟩
    | cons p ps =>
      rw [hs] at hch
      simp only [List.map_cons] at hch
      rw [hch] at h
      simp only [Option.some.injEq] at h
      subst h
      exact ⟨cap_eq, no_crash, by simpa [pending] using items, by simpa [adding] using wg_eq,
        fun _ => late (by simp [pastWait]), by simp [pastClose, hcl],
        by simp, by simp [hs], sent_nodup, sent_sound, sent_complete, send_ok,
        calls_nodup, calls_sound, calls_complete⟩
  | ret r =>
    rw [hm] at h
    exact absurd h (by simp)


theorem not_pastWait_of_running (catalog : List MapItem) (outcome : Nat → Option GoError)
    (s : State) (hinv : Inv catalog outcome s) (i : Nat) (g : Goroutine)
    (hg : s.gos[i]? = some g) (hpc : g.pc ≠ .done) : pastWait s.main = false := by
  by_contra hn
  have hp : pastWait s.main = true := by simpa using hn
  exact hpc (hinv.late hp g (mem_of_getElem?_eq _ _ _ hg))

theorem not_ret_of_not_pastWait (m : MainPc) (h : pastWait m = false) :
    pastClose m = false ∧ ∀ r, m ≠ .ret r := by
  cases m <;> simp [pastWait, pastClose] at h ⊢

theorem inv_call (catalog : List MapItem) (outcome : Nat → Option GoError) (s : State)
    (hinv : Inv catalog outcome s) (i : Nat) (g : Goroutine) (pc1 : GoPc)
    (hg : s.gos[i]? = some g) (hpc : g.pc = .call) (h1 : pc1 ≠ .call) (h2 : pc1 ≠ .done)
    (h3 : GoPc.pastSend pc1 = true → outcome i = none)
    (h4 : ∀ e, pc1 = .send e → outcome i = some e) :
    Inv catalog outcome
      { s with calls := s.calls ++ [(i, g.mapItem.Name, g.mapItem.IsTest)],
               gos := s.gos.set i { g with pc := pc1 } } := by
  have hnw := not_pastWait_of_running catalog outcome s hinv i g hg (by simp [hpc])
  obtain ⟨cap_eq, no_crash, items, wg_eq, late, closed_eq, chan, ret_val, sent_nodup,
    sent_sound, sent_complete, send_ok, calls_nodup, calls_sound, calls_complete⟩ := hinv
  have hfresh : ∀ n t, (i, n, t) ∉ s.calls := by
    intro n t hc
    obtain ⟨g0, hg0, hp0, _⟩ := calls_sound i n t hc
    rw [hg] at hg0
    obtain rfl := Option.some.inj hg0
    exact hp0 hpc
  refine ⟨cap_eq, no_crash, ?_, ?_, ?_, closed_eq, chan, ret_val, sent_nodup, ?_, ?_, ?_,
    ?_, ?_, ?_⟩
  · show (s.gos.set i { g with pc := pc1 }).map (fun g => g.mapItem) ++ pending s.main = catalog
    rw [map_set_same (fun x : Goroutine => x.mapItem) s.gos i { g with pc := pc1 } g hg rfl]
    exact items
  · show s.wg = (s.gos.set i { g with pc := pc1 }).countP (fun g => decide (g.pc ≠ .done)) + _
    rw [countP_set_same (fun x : Goroutine => decide (x.pc ≠ .done)) s.gos i _ g hg (by simp [hpc, h2])]
    exact wg_eq
  · intro hp
    rw [hnw] at hp
    exact absurd hp (by simp)
  · intro j e hje
    obtain ⟨ho, gj, hgj, hp⟩ := sent_sound j e hje
    have hji : j ≠ i := by
      rintro rfl
      rw [hg] at hgj
      obtain rfl := Option.some.inj hgj
      simp [hpc, GoPc.pastSend] at hp
    exact ⟨ho, gj, by
      show (s.gos.set i { g with pc := pc1 })[j]? = some gj
      rw [getElem?_set_other _ _ _ _ hji]; exact hgj, hp⟩
  · intro j x e hx hp ho
    rcases getElem?_set_cases _ _ _ _ _ hx with ⟨rfl, rfl⟩ | ⟨_, hx⟩
    · rw [h3 hp] at ho
      exact absurd ho (by simp)
    · exact sent_complete j x e hx hp ho
  · intro j x e hx hp
    rcases getElem?_set_cases _ _ _ _ _ hx with ⟨rfl, rfl⟩ | ⟨_, hx⟩
    · exact h4 e hp
    · exact send_ok j x e hx hp
  · show ((s.calls ++ [(i, g.mapItem.Name, g.mapItem.IsTest)]).map Prod.fst).Nodup
    rw [List.map_append, List.nodup_append]
    refine ⟨calls_nodup, by simp, ?_⟩
    intro a ha hb
    simp only [List.map_cons, List.map_nil, List.mem_singleton] at hb
    subst hb
    obtain ⟨⟨a0, n, t⟩, hmem, rfl⟩ := List.mem_map.1 ha
    exact hfresh n t hmem
  · intro j n t hc
    rcases List.mem_append.1 hc with hc1 | hc1
    · obtain ⟨gj, hgj, hp, hm⟩ := calls_sound j n t hc1
      have hji : j ≠ i := by
        intro hji
        rw [hji] at hc1
        exact hfresh n t hc1
      exact ⟨gj, by
        show (s.gos.set i { g with pc := pc1 })[j]? = some gj
        rw [getElem?_set_other _ _ _ _ hji]; exact hgj, hp, hm⟩
    · simp only [List.mem_singleton, Prod.mk.injEq] at hc1
      obtain ⟨rfl, rfl, rfl⟩ := hc1
      exact ⟨{ g with pc := pc1 }, getElem?_set_at _ _ _ _ hg, h1, rfl⟩
  · intro j x hx hp
    rcases getElem?_set_cases _ _ _ _ _ hx with ⟨rfl, rfl⟩ | ⟨_, hx⟩
    · exact List.mem_append_right _ (by simp)
    · exact List.mem_append_left _ (calls_complete j x hx hp)

theorem inv_send (catalog : List MapItem) (outcome : Nat → Option GoError) (s : State)
    (hinv : Inv catalog outcome s) (i : Nat) (g : Goroutine) (err : GoError)
    (hg : s.gos[i]? = some g) (hpc : g.pc = .send err) :
    Inv catalog outcome
      { s with errChan := s.errChan ++ [some err], sent := s.sent ++ [(i, err)],
               gos := s.gos.set i { g with pc := .exit } } := by
  have hnw := not_pastWait_of_running catalog outcome s hinv i g hg (by simp [hpc])
  obtain ⟨hnc, hnr⟩ := not_ret_of_not_pastWait _ hnw
  obtain ⟨cap_eq, no_crash, items, wg_eq, late, closed_eq, chan, ret_val, sent_nodup,
    sent_sound, sent_complete, send_ok, calls_nodup, calls_sound, calls_complete⟩ := hinv
  have hfresh : ∀ e, (i, e) ∉ s.sent := by
    intro e hc
    obtain ⟨_, g0, hg0, hp0⟩ := sent_sound i e hc
    rw [hg] at hg0
    obtain rfl := Option.some.inj hg0
    simp [hpc, GoPc.pastSend] at hp0
  have hout : outcome i = some err := send_ok i g err hg hpc
  refine ⟨cap_eq, no_crash, ?_, ?_, ?_, closed_eq, ?_, ?_, ?_, ?_, ?_, ?_,
    calls_nodup, ?_, ?_⟩
  · show (s.gos.set i { g with pc := .exit }).map (fun g => g.mapItem) ++ pending s.main
      = catalog
    rw [map_set_same (fun x : Goroutine => x.mapItem) s.gos i { g with pc := .exit } g hg rfl]
    exact items
  · show s.wg = (s.gos.set i { g with pc := .exit }).countP (fun g => decide (g.pc ≠ .done)) + _
    rw [countP_set_same (fun x : Goroutine => decide (x.pc ≠ .done)) s.gos i _ g hg (by simp [hpc])]
    exact wg_eq
  · intro hp
    rw [hnw] at hp
    exact absurd hp (by simp)
  · intro _
    show s.errChan ++ [some err] = (s.sent ++ [(i, err)]).map (fun p => some p.2)
    rw [chan hnr]
    simp
  · intro r hr
    exact absurd hr (hnr r)
  · show ((s.sent ++ [(i, err)]).map Prod.fst).Nodup
    rw [List.map_append, List.nodup_append]
    refine ⟨sent_nodup, by simp, ?_⟩
    intro a ha hb
    simp only [List.map_cons, List.map_nil, List.mem_singleton] at hb
    subst hb
    obtain ⟨⟨a0, e⟩, hmem, rfl⟩ := List.mem_map.1 ha
    exact hfresh e hmem
  · intro j e hje
    rcases List.mem_append.1 hje with hje1 | hje1
    · obtain ⟨ho, gj, hgj, hp⟩ := sent_sound j e hje1
      have hji : j ≠ i := by
        intro hji
        rw [hji] at hje1
        exact hfresh e hje1
      exact ⟨ho, gj, by
        show (s.gos.set i { g with pc := .exit })[j]? = some gj
        rw [getElem?_set_other _ _ _ _ hji]; exact hgj, hp⟩
    · simp only [List.mem_singleton, Prod.mk.injEq] at hje1
      obtain ⟨rfl, rfl⟩ := hje1
      exact ⟨hout, { g with pc := .exit }, getElem?_set_at _ _ _ _ hg, rfl⟩
  · intro j x e hx hp ho
    rcases getElem?_set_cases _ _ _ _ _ hx with ⟨rfl, rfl⟩ | ⟨_, hx⟩
    · rw [hout] at ho
      obtain rfl := Option.some.inj ho
      exact List.mem_append_right _ (by simp)
    · exact List.mem_append_left _ (sent_complete j x e hx hp ho)
  · intro j x e hx hp
    rcases getElem?_set_cases _ _ _ _ _ hx with ⟨rfl, rfl⟩ | ⟨_, hx⟩
    · simp at hp
    · exact send_ok j x e hx hp
  · intro j n t hc
    obtain ⟨gj, hgj, hp, hm⟩ := calls_sound j n t hc
    by_cases hji : j = i
    · subst hji
      rw [hg] at hgj
      obtain rfl := Option.some.inj hgj
      exact ⟨{ g with pc := .exit }, getElem?_set_at _ _ _ _ hg, by simp, hm⟩
    · exact ⟨gj, by
        show (s.gos.set i { g with pc := .exit })[j]? = some gj
        rw [getElem?_set_other _ _ _ _ hji]; exact hgj, hp, hm⟩
  · intro j x hx hp
    rcases getElem?_set_cases _ _ _ _ _ hx with ⟨rfl, rfl⟩ | ⟨_, hx⟩
    · exact calls_complete j g hg (by simp [hpc])
    · exact calls_complete j x hx hp

theorem inv_exit (catalog : List MapItem) (outcome : Nat → Option GoError) (s : State)
    (hinv : Inv catalog outcome s) (i : Nat) (g : Goroutine)
    (hg : s.gos[i]? = some g) (hpc : g.pc = .exit) :
    s.wg ≠ 0 ∧
    Inv catalog outcome
      { s with wg := s.wg - 1, gos := s.gos.set i { g with pc := .done } } := by
  have hnw := not_pastWait_of_running catalog outcome s hinv i g hg (by simp [hpc])
  obtain ⟨cap_eq, no_crash, items, wg_eq, late, closed_eq, chan, ret_val, sent_nodup,
    sent_sound, sent_complete, send_ok, calls_nodup, calls_sound, calls_complete⟩ := hinv
  have hcount := countP_set_drop (fun g : Goroutine => decide (g.pc ≠ .done)) s.gos i
    { g with pc := .done } g hg (by simp [hpc]) (by simp)
  refine ⟨by omega, cap_eq, no_crash, ?_, ?_, ?_, closed_eq, chan, ret_val, sent_nodup, ?_, ?_,
    ?_, calls_nodup, ?_, ?_⟩
  · show (s.gos.set i { g with pc := .done }).map (fun g => g.mapItem) ++ pending s.main
      = catalog
    rw [map_set_same (fun x : Goroutine => x.mapItem) s.gos i { g with pc := .done } g hg rfl]
    exact items
  · show s.wg - 1
      = (s.gos.set i { g with pc := .done }).countP (fun g => decide (g.pc ≠ .done))
        + adding s.main
    omega
  · intro hp
    rw [hnw] at hp
    exact absurd hp (by simp)
  · intro j e hje
    obtain ⟨ho, gj, hgj, hp⟩ := sent_sound j e hje
    by_cases hji : j = i
    · subst hji
      exact ⟨ho, { g with pc := .done }, getElem?_set_at _ _ _ _ hg, rfl⟩
    · exact ⟨ho, gj, by
        show (s.gos.set i { g with pc := .done })[j]? = some gj
        rw [getElem?_set_other _ _ _ _ hji]; exact hgj, hp⟩
  · intro j x e hx hp ho
    rcases getElem?_set_cases _ _ _ _ _ hx with ⟨rfl, rfl⟩ | ⟨_, hx⟩
    · exact sent_complete j g e hg (by simp [hpc, GoPc.pastSend]) ho
    · exact sent_complete j x e hx hp ho
  · intro j x e hx hp
    rcases getElem?_set_cases _ _ _ _ _ hx with ⟨rfl, rfl⟩ | ⟨_, hx⟩
    · simp at hp
    · exact send_ok j x e hx hp
  · intro j n t hc
    obtain ⟨gj, hgj, hp, hm⟩ := calls_sound j n t hc
    by_cases hji : j = i
    · subst hji
      rw [hg] at hgj
      obtain rfl := Option.some.inj hgj
      exact ⟨{ g with pc := .done }, getElem?_set_at _ _ _ _ hg, by simp, hm⟩
    · exact ⟨gj, by
        show (s.gos.set i { g with pc := .done })[j]? = some gj
        rw [getElem?_set_other _ _ _ _ hji]; exact hgj, hp, hm⟩
  · intro j x hx hp
    rcases getElem?_set_cases _ _ _ _ _ hx with ⟨rfl, rfl⟩ | ⟨_, hx⟩
    · exact calls_complete j g hg (by simp [hpc])
    · exact calls_complete j x hx hp


theorem gos_length_le (catalog : List MapItem) (outcome : Nat → Option GoError) (s : State)
    (hinv : Inv catalog outcome s) : s.gos.length ≤ catalog.length := by
  have := congrArg List.length hinv.items
  simp only [List.length_append, List.length_map] at this
  omega

theorem gos_length_eq (catalog : List MapItem) (outcome : Nat → Option GoError) (s : State)
    (hinv : Inv catalog outcome s) (h : pastWait s.main = true) :
    s.gos.length = catalog.length := by
  have := congrArg List.length hinv.items
  have hp : pending s.main = [] := by
    cases hm : s.main <;> simp [hm, pastWait, pending] at h ⊢
  simp only [List.length_append, List.length_map, hp, List.length_nil] at this
  omega

theorem nodup_length_le (l : List Nat) (n : Nat) (hn : l.Nodup) (h : ∀ x ∈ l, x < n) :
    l.length ≤ n := by
  have hsub : l.toFinset ⊆ Finset.range n := by
    intro x hx
    exact Finset.mem_range.2 (h x (List.mem_toFinset.1 hx))
  have := Finset.card_le_card hsub
  rw [List.toFinset_card_of_nodup hn, Finset.card_range] at this
  exact this

theorem nodup_length_lt (l : List Nat) (n i : Nat) (hn : l.Nodup) (h : ∀ x ∈ l, x < n)
    (hi : i < n) (hni : i ∉ l) : l.length < n := by
  have hsub : l.toFinset ⊆ (Finset.range n).erase i := by
    intro x hx
    have hx1 := List.mem_toFinset.1 hx
    refine Finset.mem_erase.2 ⟨?_, Finset.mem_range.2 (h x hx1)⟩
    rintro rfl
    exact hni hx1
  have := Finset.card_le_card hsub
  rw [List.toFinset_card_of_nodup hn, Finset.card_erase_of_mem (Finset.mem_range.2 hi),
    Finset.card_range] at this
  omega

theorem lt_length_of_getElem? {α : Type} (l : List α) (i : Nat) (g : α) (h : l[i]? = some g) :
    i < l.length :=
  (List.getElem?_eq_some.1 h).1

/-- The completed sends never outnumber the started goroutines. -/
theorem sent_length_le (catalog : List MapItem) (outcome : Nat → Option GoError) (s : State)
    (hinv : Inv catalog outcome s) : s.sent.length ≤ s.gos.length := by
  have := nodup_length_le (s.sent.map Prod.fst) s.gos.length hinv.sent_nodup (by
    intro x hx
    obtain ⟨⟨j, e⟩, hmem, rfl⟩ := List.mem_map.1 hx
    obtain ⟨_, g, hg, _⟩ := hinv.sent_sound j e hmem
    exact lt_length_of_getElem? _ _ _ hg)
  simpa using this

/-- While a goroutine stands before its send, fewer values were sent than the channel
holds. -/
theorem sent_length_lt (catalog : List MapItem) (outcome : Nat → Option GoError) (s : State)
    (hinv : Inv catalog outcome s) (i : Nat) (g : Goroutine) (e : GoError)
    (hg : s.gos[i]? = some g) (hpc : g.pc = .send e) : s.sent.length < s.cap := by
  have h1 := nodup_length_lt (s.sent.map Prod.fst) s.gos.length i hinv.sent_nodup (by
    intro x hx
    obtain ⟨⟨j, e⟩, hmem, rfl⟩ := List.mem_map.1 hx
    obtain ⟨_, g, hg, _⟩ := hinv.sent_sound j e hmem
    exact lt_length_of_getElem? _ _ _ hg) (lt_length_of_getElem? _ _ _ hg) (by
    intro hx
    obtain ⟨⟨j, e1⟩, hmem, hj⟩ := List.mem_map.1 hx
    simp only at hj
    subst hj
    obtain ⟨_, g1, hg1, hp⟩ := hinv.sent_sound j e1 hmem
    rw [hg] at hg1
    obtain rfl := Option.some.inj hg1
    simp [hpc, GoPc.pastSend] at hp)
  have h2 := gos_length_le catalog outcome s hinv
  rw [hinv.cap_eq]
  simp only [List.length_map] at h1
  omega

theorem errChan_length (catalog : List MapItem) (outcome : Nat → Option GoError) (s : State)
    (hinv : Inv catalog outcome s) (i : Nat) (g : Goroutine)
    (hg : s.gos[i]? = some g) (hpc : g.pc ≠ .done) : s.errChan.length = s.sent.length := by
  have hnw := not_pastWait_of_running catalog outcome s hinv i g hg hpc
  rw [hinv.chan (not_ret_of_not_pastWait _ hnw).2]
  simp

theorem not_closed_of_running (catalog : List MapItem) (outcome : Nat → Option GoError)
    (s : State) (hinv : Inv catalog outcome s) (i : Nat) (g : Goroutine)
    (hg : s.gos[i]? = some g) (hpc : g.pc ≠ .done) : s.closed = false := by
  have hnw := not_pastWait_of_running catalog outcome s hinv i g hg hpc
  rw [hinv.closed_eq]
  exact (not_ret_of_not_pastWait _ hnw).1

/-- The turn of a goroutine standing before its send: the send completes. -/
theorem stepGo_send (catalog : List MapItem) (outcome : Nat → Option GoError) (s : State)
    (hinv : Inv catalog outcome s) (i : Nat) (g : Goroutine) (e : GoError)
    (hg : s.gos[i]? = some g) (hpc : g.pc = .send e) :
    stepGo outcome s i =
      some { s with errChan := s.errChan ++ [some e], sent := s.sent ++ [(i, e)],
                    gos := s.gos.set i { g with pc := .exit } } := by
  have hcl := not_closed_of_running catalog outcome s hinv i g hg (by simp [hpc])
  have hlen : s.errChan.length < s.cap := by
    rw [errChan_length catalog outcome s hinv i g hg (by simp [hpc])]
    exact sent_length_lt catalog outcome s hinv i g e hg hpc
  unfold stepGo
  rw [hg]
  simp only [hpc, hcl, Bool.false_eq_true, if_false, hlen, if_true]

theorem inv_stepGo (catalog : List MapItem) (outcome : Nat → Option GoError) (s s1 : State)
    (i : Nat) (hinv : Inv catalog outcome s) (h : stepGo outcome s i = some s1) :
    Inv catalog outcome s1 := by
  cases hg : s.gos[i]? with
  | none =>
    unfold stepGo at h
    rw [hg] at h
    exact absurd h (by simp)
  | some g =>
    cases hpc : g.pc with
    | call =>
      unfold stepGo at h
      rw [hg] at h
      simp only [hpc] at h
      cases ho : outcome i with
      | none =>
        rw [ho] at h
        simp only [Option.some.injEq] at h
        subst h
        exact inv_call catalog outcome s hinv i g .exit hg hpc (by simp) (by simp)
          (fun _ => ho) (by simp)
      | some err =>
        rw [ho] at h
        simp only [Option.some.injEq] at h
        subst h
        exact inv_call catalog outcome s hinv i g (.send err) hg hpc (by simp) (by simp)
          (by simp [GoPc.pastSend]) (by
            intro e he
            simp only [GoPc.send.injEq] at he
            rw [← he]; exact ho)
    | send err =>
      rw [stepGo_send catalog outcome s hinv i g err hg hpc] at h
      simp only [Option.some.injEq] at h
      subst h
      exact inv_send catalog outcome s hinv i g err hg hpc
    | exit =>
      obtain ⟨hwg, hinv1⟩ := inv_exit catalog outcome s hinv i g hg hpc
      unfold stepGo at h
      rw [hg] at h
      simp only [hpc, hwg, if_false, Option.some.injEq] at h
      subst h
      exact hinv1
    | done =>
      unfold stepGo at h
      rw [hg] at h
      simp only [hpc] at h
      exact absurd h (by simp)

theorem inv_step (catalog : List MapItem) (outcome : Nat → Option GoError) (s s1 : State)
    (t : Thread) (hinv : Inv catalog outcome s) (h : step outcome s t = some s1) :
    Inv catalog outcome s1 := by
  unfold step at h
  rw [hinv.no_crash] at h
  simp only [Option.isSome_none, Bool.false_eq_true, if_false] at h
  cases t with
  | main => exact inv_stepMain catalog outcome s s1 hinv h
  | go i => exact inv_stepGo catalog outcome s s1 i hinv h

/-- The invariant holds in every reachable state. -/
theorem inv_of_reachable (catalog : List MapItem) (outcome : Nat → Option GoError) (s : State)
    (h : Reachable catalog outcome s) : Inv catalog outcome s := by
  induction h with
  | init => exact inv_init catalog outcome
  | step s s1 t _ hstep ih => exact inv_step catalog outcome s s1 t ih hstep

theorem reachable_run (catalog : List MapItem) (outcome : Nat → Option GoError)
    (sched : List Thread) (s s1 : State) (hs : Reachable catalog outcome s)
    (h : run outcome sched s = some s1) : Reachable catalog outcome s1 := by
  induction sched generalizing s with
  | nil =>
    simp only [run, Option.some.injEq] at h
    subst h
    exact hs
  | cons t ts ih =>
    unfold run at h
    cases hst : step outcome s t with
    | none => rw [hst] at h; exact absurd h (by simp)
    | some s2 =>
      rw [hst] at h
      exact ih s2 (Reachable.step s s2 t hs hst) h


/-! ### Progress and termination -/

theorem stepMain_isSome (catalog : List MapItem) (outcome : Nat → Option GoError) (s : State)
    (hinv : Inv catalog outcome s) (hret : ∀ r, s.main ≠ .ret r)
    (hwait : s.main = .wait → s.wg = 0) : ∃ s1, stepMain s = some s1 := by
  unfold stepMain
  cases hm : s.main with
  | loop rest =>
    cases rest with
    | nil => exact ⟨_, rfl⟩
    | cons mapItem rest => exact ⟨_, rfl⟩
  | spawn mapItem rest => exact ⟨_, rfl⟩
  | wait =>
    simp only [hwait hm, if_true]
    exact ⟨_, rfl⟩
  | close =>
    simp only
    split <;> exact ⟨_, rfl⟩
  | drain =>
    have hcl : s.closed = true := by
      rw [hinv.closed_eq, hm]; rfl
    simp only [hcl, if_true]
    split <;> exact ⟨_, rfl⟩
  | ret r => exact absurd hm (hret r)

theorem stepGo_isSome (catalog : List MapItem) (outcome : Nat → Option GoError) (s : State)
    (hinv : Inv catalog outcome s) (i : Nat) (g : Goroutine) (hg : s.gos[i]? = some g)
    (hpc : g.pc ≠ .done) : ∃ s1, stepGo outcome s i = some s1 := by
  cases hp : g.pc with
  | call =>
    unfold stepGo
    rw [hg]
    simp only [hp]
    split <;> exact ⟨_, rfl⟩
  | send err => exact ⟨_, stepGo_send catalog outcome s hinv i g err hg hp⟩
  | exit =>
    unfold stepGo
    rw [hg]
    simp only [hp]
    split <;> exact ⟨_, rfl⟩
  | done => exact absurd hp hpc

/-- A state that has not returned has a thread that can take a turn. -/
theorem progress (catalog : List MapItem) (outcome : Nat → Option GoError) (s : State)
    (hinv : Inv catalog outcome s) (hret : ∀ r, s.main ≠ .ret r) :
    ∃ t s1, step outcome s t = some s1 := by
  have hstep : ∀ t, step outcome s t =
      match t with
      | .main => stepMain s
      | .go i => stepGo outcome s i := by
    intro t
    unfold step
    rw [hinv.no_crash]
    simp
  by_cases hw : s.main = .wait ∧ s.wg ≠ 0
  · obtain ⟨hm, hwg⟩ := hw
    have hpos : 0 < s.gos.countP (fun g => decide (g.pc ≠ .done)) := by
      have := hinv.wg_eq
      rw [hm] at this
      simp only [adding, Nat.add_zero] at this
      omega
    obtain ⟨g, hmem, hg⟩ := List.countP_pos_iff.1 hpos
    obtain ⟨i, hi⟩ := List.mem_iff_getElem?.1 hmem
    obtain ⟨s1, hs1⟩ := stepGo_isSome catalog outcome s hinv i g hi (by simpa using hg)
    exact ⟨.go i, s1, by rw [hstep]; exact hs1⟩
  · obtain ⟨s1, hs1⟩ := stepMain_isSome catalog outcome s hinv hret (by
      intro hm
      by_contra hwg
      exact hw ⟨hm, hwg⟩)
    exact ⟨.main, s1, by rw [hstep]; exact hs1⟩

theorem turnsLeft_eq (s : State) (hc : s.crash = none) :
    turnsLeft s = 1 + MainPc.weight s.main
      + (s.gos.map (fun g => GoPc.weight g.pc)).sum + s.errChan.length := by
  simp [turnsLeft, hc]

theorem turnsLeft_mk (main : MainPc) (gos : List Goroutine) (wg : Nat)
    (errChan : List (Option GoError)) (cap : Nat) (closed : Bool)
    (calls : List (Nat × String × Bool)) (sent : List (Nat × GoError)) :
    turnsLeft ⟨main, gos, wg, errChan, cap, closed, calls, sent, none⟩
      = 1 + MainPc.weight main + (gos.map (fun g => GoPc.weight g.pc)).sum + errChan.length := by
  simp [turnsLeft]

theorem turnsLeft_crash (s : State) (m : String) (hc : s.crash = none) :
    turnsLeft { s with crash := some m } < turnsLeft s := by
  rw [turnsLeft_eq s hc]
  simp [turnsLeft]

theorem turnsLeft_stepMain (s s1 : State) (hc : s.crash = none) (h : stepMain s = some s1) :
    turnsLeft s1 < turnsLeft s := by
  unfold stepMain at h
  cases hm : s.main with
  | loop rest =>
    rw [hm] at h
    cases rest with
    | nil =>
      simp only [Option.some.injEq] at h
      subst h
      rw [turnsLeft_eq s hc, hc, turnsLeft_mk, hm]
      simp only [MainPc.weight]
      omega
    | cons mapItem rest =>
      simp only [Option.some.injEq] at h
      subst h
      rw [turnsLeft_eq s hc, hc, turnsLeft_mk, hm]
      simp only [MainPc.weight, List.length_cons]
      omega
  | spawn mapItem rest =>
    rw [hm] at h
    simp only [Option.some.injEq] at h
    subst h
    rw [turnsLeft_eq s hc, hc, turnsLeft_mk, hm]
    simp only [MainPc.weight, List.map_append, List.sum_append, List.map_cons, List.map_nil,
      List.sum_cons, List.sum_nil, GoPc.weight]
    omega
  | wait =>
    rw [hm] at h
    simp only at h
    split at h
    · simp only [Option.some.injEq] at h
      subst h
      rw [turnsLeft_eq s hc, hc, turnsLeft_mk, hm]
      simp only [MainPc.weight]
      omega
    · exact absurd h (by simp)
  | close =>
    rw [hm] at h
    simp only at h
    split at h
    · simp only [Option.some.injEq] at h
      subst h
      exact turnsLeft_crash s "close of closed channel" hc
    · simp only [Option.some.injEq] at h
      subst h
      rw [turnsLeft_eq s hc, hc, turnsLeft_mk, hm]
      simp only [MainPc.weight]
      omega
  | drain =>
    rw [hm] at h
    simp only at h
    split at h
    · split at h
      · simp only [Option.some.injEq] at h
        subst h
        rw [turnsLeft_eq s hc, hc, turnsLeft_mk, hm]
        simp only [MainPc.weight]
        omega
      · exact absurd h (by simp)
    · rename_i err rest hch
      simp only [Option.some.injEq] at h
      subst h
      rw [turnsLeft_eq s hc, hc, turnsLeft_mk, hm, hch]
      simp only [MainPc.weight, List.length_cons]
      omega
    · rename_i rest hch
      simp only [Option.some.injEq] at h
      subst h
      rw [turnsLeft_eq s hc, hc, turnsLeft_mk, hch]
      simp only [List.length_cons, hm]
      omega
  | ret r =>
    rw [hm] at h
    exact absurd h (by simp)

theorem turnsLeft_stepGo (outcome : Nat → Option GoError) (s s1 : State) (i : Nat)
    (hc : s.crash = none) (h : stepGo outcome s i = some s1) : turnsLeft s1 < turnsLeft s := by
  unfold stepGo at h
  cases hg : s.gos[i]? with
  | none => rw [hg] at h; exact absurd h (by simp)
  | some g =>
    rw [hg] at h
    simp only at h
    have hsum : ∀ pc1 : GoPc,
        ((s.gos.set i { g with pc := pc1 }).map (fun g => GoPc.weight g.pc)).sum
          + GoPc.weight g.pc
        = (s.gos.map (fun g => GoPc.weight g.pc)).sum + GoPc.weight pc1 := fun pc1 =>
      sum_map_set (fun x : Goroutine => GoPc.weight x.pc) s.gos i { g with pc := pc1 } g hg
    cases hpc : g.pc with
    | call =>
      simp only [hpc] at h
      split at h
      · rename_i err _
        simp only [Option.some.injEq] at h
        subst h
        have := hsum (.send err)
        rw [hpc] at this
        rw [turnsLeft_eq s hc, hc, turnsLeft_mk]
        have h4 : GoPc.weight .call = 4 := rfl
        have h3 : GoPc.weight (.send err) = 3 := rfl
        simp only [h4, h3] at this
        omega
      · simp only [Option.some.injEq] at h
        subst h
        have := hsum .exit
        rw [hpc] at this
        rw [turnsLeft_eq s hc, hc, turnsLeft_mk]
        have h4 : GoPc.weight .call = 4 := rfl
        have h1 : GoPc.weight .exit = 1 := rfl
        simp only [h4, h1] at this
        omega
    | send err =>
      simp only [hpc] at h
      split at h
      · simp only [Option.some.injEq] at h
        subst h
        exact turnsLeft_crash s _ hc
      · split at h
        · simp only [Option.some.injEq] at h
          subst h
          have := hsum .exit
          rw [hpc] at this
          rw [turnsLeft_eq s hc, hc, turnsLeft_mk]
          have h3 : GoPc.weight (.send err) = 3 := rfl
          have h1 : GoPc.weight .exit = 1 := rfl
          simp only [h3, h1] at this
          simp only [List.length_append, List.length_singleton]
          omega
        · exact absurd h (by simp)
    | exit =>
      simp only [hpc] at h
      split at h
      · simp only [Option.some.injEq] at h
        subst h
        exact turnsLeft_crash s _ hc
      · simp only [Option.some.injEq] at h
        subst h
        have := hsum .done
        rw [hpc] at this
        rw [turnsLeft_eq s hc, hc, turnsLeft_mk]
        have h0 : GoPc.weight .done = 0 := rfl
        have h1 : GoPc.weight .exit = 1 := rfl
        simp only [h0, h1] at this
        omega
    | done =>
      simp only [hpc] at h
      exact absurd h (by simp)

/-- Every turn lowers the bound on the turns left, so no run is infinite. -/
theorem turnsLeft_step (outcome : Nat → Option GoError) (s s1 : State) (t : Thread)
    (h : step outcome s t = some s1) : turnsLeft s1 < turnsLeft s := by
  unfold step at h
  cases hc : s.crash with
  | some m =>
    rw [hc] at h
    exact absurd h (by simp)
  | none =>
    rw [hc] at h
    simp only [Option.isSome_none, Bool.false_eq_true, if_false] at h
    cases t with
    | main => exact turnsLeft_stepMain s s1 hc h
    | go i => exact turnsLeft_stepGo outcome s s1 i hc h

/-- From every state satisfying the invariant some schedule runs the function to its
return. -/
theorem exists_return (catalog : List MapItem) (outcome : Nat → Option GoError) (n : Nat) :
    ∀ s, Inv catalog outcome s → turnsLeft s ≤ n →
      ∃ sched s1 r, run outcome sched s = some s1 ∧ s1.main = .ret r := by
  induction n with
  | zero =>
    intro s hinv hn
    have := turnsLeft_eq s hinv.no_crash
    omega
  | succ n ih =>
    intro s hinv hn
    by_cases hret : ∃ r, s.main = .ret r
    · obtain ⟨r, hr⟩ := hret
      exact ⟨[], s, r, rfl, hr⟩
    · push_neg at hret
      obtain ⟨t, s1, hstep⟩ := progress catalog outcome s hinv hret
      have hlt := turnsLeft_step outcome s s1 t hstep
      obtain ⟨sched, s2, r, hrun, hr⟩ :=
        ih s1 (inv_step catalog outcome s s1 t hinv hstep) (by omega)
      refine ⟨t :: sched, s2, r, ?_, hr⟩
      simp only [run, hstep]
      exact hrun

end loadTerrainMaps


namespace loadTerrainMaps

/-! ### What a finished run returned -/

theorem catalog_getElem?_of_gos (catalog : List MapItem) (outcome : Nat → Option GoError)
    (s : State) (hinv : Inv catalog outcome s) (i : Nat) (g : Goroutine)
    (hg : s.gos[i]? = some g) : catalog[i]? = some g.mapItem := by
  rw [← hinv.items]
  have hlt : i < (s.gos.map (fun g => g.mapItem)).length := by
    simpa using lt_length_of_getElem? _ _ _ hg
  rw [List.getElem?_append_left hlt, List.getElem?_map, hg]
  rfl

theorem gos_getElem?_of_lt (catalog : List MapItem) (outcome : Nat → Option GoError)
    (s : State) (hinv : Inv catalog outcome s) (hp : pastWait s.main = true) (i : Nat)
    (hi : i < catalog.length) : ∃ g, s.gos[i]? = some g ∧ g.pc = .done := by
  have hlen := gos_length_eq catalog outcome s hinv hp
  have hlt : i < s.gos.length := by omega
  refine ⟨s.gos[i], List.getElem?_eq_getElem hlt, ?_⟩
  exact hinv.late hp _ (List.getElem_mem hlt)

/-- A returned error is the error of a failing job. -/
theorem ret_some (catalog : List MapItem) (outcome : Nat → Option GoError) (s : State)
    (hinv : Inv catalog outcome s) (e : GoError) (h : s.main = .ret (some e)) :
    ∃ i, i < catalog.length ∧ outcome i = some e ∧ s.sent.head? = some (i, e) := by
  have hr := hinv.ret_val (some e) h
  cases hs : s.sent with
  | nil => rw [hs] at hr; simp at hr
  | cons p ps =>
    obtain ⟨i, e1⟩ := p
    rw [hs] at hr
    simp only [List.head?_cons, Option.map_some', Option.some.injEq] at hr
    subst hr
    obtain ⟨ho, g, hg, _⟩ := hinv.sent_sound i e (by rw [hs]; simp)
    have := lt_length_of_getElem? _ _ _ hg
    have := gos_length_le catalog outcome s hinv
    exact ⟨i, by omega, ho, rfl⟩

/-- A run returns `nil` only when no job failed. -/
theorem ret_none (catalog : List MapItem) (outcome : Nat → Option GoError) (s : State)
    (hinv : Inv catalog outcome s) (h : s.main = .ret none) :
    s.sent = [] ∧ ∀ i, i < catalog.length → outcome i = none := by
  have hr := hinv.ret_val none h
  have hs : s.sent = [] := by
    cases hs : s.sent with
    | nil => rfl
    | cons p ps => rw [hs] at hr; simp at hr
  refine ⟨hs, ?_⟩
  intro i hi
  obtain ⟨g, hg, hd⟩ := gos_getElem?_of_lt catalog outcome s hinv (by rw [h]; rfl) i hi
  cases ho : outcome i with
  | none => rfl
  | some e =>
    have := hinv.sent_complete i g e hg (by rw [hd]; rfl) ho
    rw [hs] at this
    simp at this

end loadTerrainMaps

theorem loadTerrainMaps_eq_some (catalog : List MapItem) (outcome : Nat → Option GoError)
    (sched : List Thread) (r : Option GoError) :
    loadTerrainMaps catalog outcome sched = some r ↔
      ∃ s, loadTerrainMaps.run outcome sched (loadTerrainMaps.init catalog) = some s ∧
        s.main = .ret r := by
  unfold loadTerrainMaps
  cases hrun : loadTerrainMaps.run outcome sched (loadTerrainMaps.init catalog) with
  | none => simp
  | some s =>
    cases hm : s.main <;> simp [hm]

/-- A run that returned satisfies the invariant. -/
theorem inv_of_returned (catalog : List MapItem) (outcome : Nat → Option GoError)
    (sched : List Thread) (r : Option GoError)
    (h : loadTerrainMaps catalog outcome sched = some r) :
    ∃ s, loadTerrainMaps.run outcome sched (loadTerrainMaps.init catalog) = some s ∧
      s.main = .ret r ∧ loadTerrainMaps.Inv catalog outcome s := by
  obtain ⟨s, hrun, hm⟩ := (loadTerrainMaps_eq_some catalog outcome sched r).1 h
  exact ⟨s, hrun, hm, loadTerrainMaps.inv_of_reachable catalog outcome s
    (loadTerrainMaps.reachable_run catalog outcome sched _ s loadTerrainMaps.Reachable.init hrun)⟩

/-- Some schedule runs `loadTerrainMaps` to its return. -/
theorem exists_schedule (catalog : List MapItem) (outcome : Nat → Option GoError) :
    ∃ sched r, loadTerrainMaps catalog outcome sched = some r := by
  obtain ⟨sched, s, r, hrun, hr⟩ := loadTerrainMaps.exists_return catalog outcome _
    (loadTerrainMaps.init catalog) (loadTerrainMaps.inv_init catalog outcome) (Nat.le_refl _)
  exact ⟨sched, r, (loadTerrainMaps_eq_some catalog outcome sched r).2 ⟨s, hrun, hr⟩⟩

/-- With exactly one failing job, every run that returns returns the error of that job. -/
theorem returns_the_only_failure (catalog : List MapItem) (outcome : Nat → Option GoError)
    (i : Nat) (e : GoError) (hi : i < catalog.length) (ho : outcome i = some e)
    (hothers : ∀ j, j ≠ i → outcome j = none) (sched : List Thread) (r : Option GoError)
    (h : loadTerrainMaps catalog outcome sched = some r) : r = some e := by
  obtain ⟨s, _, hm, hinv⟩ := inv_of_returned catalog outcome sched r h
  cases r with
  | none =>
    have := (loadTerrainMaps.ret_none catalog outcome s hinv hm).2 i hi
    rw [ho] at this
    exact absurd this (by simp)
  | some e1 =>
    obtain ⟨j, _, hj, _⟩ := loadTerrainMaps.ret_some catalog outcome s hinv e1 hm
    by_cases hji : j = i
    · subst hji
      rw [ho] at hj
      exact hj.symm ▸ rfl
    · rw [hothers j hji] at hj
      exact absurd hj (by simp)


/-- The load errors of an asset whose name is a plain path element: the error for an
unreadable `image.png` or `info.json` wraps the cause, its text contains the name, the calls
stop at the failed read, and it is what `loadTerrainMaps` returns when it is the outcome of
the only failing job. -/
theorem load_errors_of_plain_name (env : Env) (name : String) (isTest : Bool) (w : World)
    (cwd : String) (hcwd : w.cwd = .ok cwd) (hname : filepath.Plain name.data) :
    (∀ cause, (os.ReadFile (mapPath cwd isTest name) w).1 = .error cause →
      (processMap env name isTest w).1 = .returned (some (fmt.Errorf
        ("failed to read map file " ++ mapPath cwd isTest name ++ ": " ++ cause.Error) cause)) ∧
      name.data <:+: (fmt.Errorf
        ("failed to read map file " ++ mapPath cwd isTest name ++ ": " ++ cause.Error)
          cause).Error.data ∧
      processMap.calls env name isTest w = [.getwd, .readFile (mapPath cwd isTest name)]) ∧
    (∀ img cause, (os.ReadFile (mapPath cwd isTest name) w).1 = .ok img →
      (os.ReadFile (manifestPath cwd isTest name) w).1 = .error cause →
      (processMap env name isTest w).1 = .returned (some (fmt.Errorf
        ("failed to read info file " ++ manifestPath cwd isTest name ++ ": " ++ cause.Error)
          cause)) ∧
      name.data <:+: (fmt.Errorf
        ("failed to read info file " ++ manifestPath cwd isTest name ++ ": " ++ cause.Error)
          cause).Error.data ∧
      processMap.calls env name isTest w =
        [.getwd, .readFile (mapPath cwd isTest name),
          .readFile (manifestPath cwd isTest name)] ∧
      ∀ (catalog : List MapItem) (outcome : Nat → Option GoError) (i : Nat),
        i < catalog.length →
        outcome i = some (fmt.Errorf
          ("failed to read info file " ++ manifestPath cwd isTest name ++ ": " ++ cause.Error)
            cause) →
        (∀ j, j ≠ i → outcome j = none) →
        (∃ sched, loadTerrainMaps catalog outcome sched = some (some (fmt.Errorf
          ("failed to read info file " ++ manifestPath cwd isTest name ++ ": " ++ cause.Error)
            cause))) ∧
        ∀ sched r, loadTerrainMaps catalog outcome sched = some r →
          r = some (fmt.Errorf
            ("failed to read info file " ++ manifestPath cwd isTest name ++ ": " ++ cause.Error)
              cause)) := by
  constructor
  · intro cause himg
    refine ⟨?_, ?_, calls_image_err env name isTest w cwd cause hcwd himg⟩
    · rw [processMap_image_err env name isTest w cwd cause hcwd himg]
    · apply isInfix_of_eq
        ("failed to read map file " ++ (⟨filepath.joinPrefix cwd.data⟩ ++ "assets/"
          ++ mapDir isTest ++ "/")) name (("/" ++ "image.png") ++ ": " ++ cause.Error)
      simp only [fmt.Errorf, GoError.Error, mapPath,
        inputPath_eq cwd isTest name "image.png" hname plain_image, String.append_assoc]
  · intro img cause himg hinfo
    refine ⟨?_, ?_, calls_info_err env name isTest w cwd img cause hcwd himg hinfo, ?_⟩
    · rw [processMap_info_err env name isTest w cwd img cause hcwd himg hinfo]
    · apply isInfix_of_eq
        ("failed to read info file " ++ (⟨filepath.joinPrefix cwd.data⟩ ++ "assets/"
          ++ mapDir isTest ++ "/")) name (("/" ++ "info.json") ++ ": " ++ cause.Error)
      simp only [fmt.Errorf, GoError.Error, manifestPath,
        inputPath_eq cwd isTest name "info.json" hname plain_info, String.append_assoc]
    · intro catalog outcome i hlt ho hothers
      have hall := returns_the_only_failure catalog outcome i _ hlt ho hothers
      obtain ⟨sched, r, hr⟩ := exists_schedule catalog outcome
      refine ⟨⟨sched, ?_⟩, hall⟩
      rw [hr, hall sched r hr]


/-! ## The claims -/

/-- C1: when `processMap` has parsed the non-nil manifest `m` and the generator returned `r`,
every manifest it serialises is `m` with `"map"` and `"mini_map"` bound to the width, height
and land-tile records of `r`, every other key being bound as in `m` (present exactly when it
was, with the same value); and it does serialise that manifest once the output directory and
the three generated files are written. -/
theorem processMap_serialises_merged_manifest (env : Env) (name : String) (isTest : Bool)
    (w : World) (cwd : String) (img info : Bytes) (m : GoMap) (r : MapResult)
    (hcwd : w.cwd = .ok cwd)
    (himg : (os.ReadFile (mapPath cwd isTest name) w).1 = .ok img)
    (hinfo : (os.ReadFile (manifestPath cwd isTest name) w).1 = .ok info)
    (hum : (json.Unmarshal env info none w).1 = .ok (some m))
    (hgen : env.GenerateMap { ImageBuffer := img, RemoveSmall := !isTest, Name := name }
      = .ok r) :
    (∀ v, Event.marshalIndent v ∈ processMap.calls env name isTest w →
      GoMap.get v "map" = some (.map [("width", .int r.MapWidth), ("height", .int r.MapHeight),
          ("num_land_tiles", .int r.MapNumLandTiles)]) ∧
      GoMap.get v "mini_map" = some (.map [("width", .int r.MiniMapWidth),
          ("height", .int r.MiniMapHeight), ("num_land_tiles", .int r.MiniMapNumLandTiles)]) ∧
      ∀ k, k ≠ "map" → k ≠ "mini_map" → GoMap.get v k = GoMap.get m k) ∧
    (w.mkdirFault (outputPath cwd isTest name) = none →
      w.writeFault (filepath.Join [outputPath cwd isTest name, "map.bin"]) = none →
      w.writeFault (filepath.Join [outputPath cwd isTest name, "mini_map.bin"]) = none →
      w.writeFault (filepath.Join [outputPath cwd isTest name, "thumbnail.webp"]) = none →
      ∃ v, Event.marshalIndent v ∈ processMap.calls env name isTest w) := by
  constructor
  · intro v hv
    obtain ⟨evs, hcalls, hevs⟩ := calls_reach env name isTest w cwd img info (some m) hcwd himg
      hinfo hum
    rw [hcalls] at hv
    have hv1 : Event.marshalIndent v ∈ evs := by
      simpa using hv
    rcases hevs _ hv1 with ⟨p, hp⟩ | ⟨p, d, hp⟩ | ⟨m1, r1, hm1, hr1, he⟩
    · exact absurd hp (by simp)
    · exact absurd hp (by simp)
    · obtain rfl := Option.some.inj hm1
      rw [hgen] at hr1
      obtain rfl := Except.ok.inj hr1
      obtain rfl := Event.marshalIndent.inj he
      refine ⟨?_, ?_, ?_⟩
      · rw [get_mergeManifest]; simp [mapRecord]
      · rw [get_mergeManifest]; simp [miniMapRecord]
      · intro k h1 h2
        rw [get_mergeManifest, if_neg h2, if_neg h1]
  · intro hmk h1 h2 h3
    refine ⟨mergeManifest m r, ?_⟩
    unfold processMap.calls
    rw [processMap_persist env name isTest w cwd img info m r hcwd himg hinfo hum hgen]
    obtain ⟨pre, post, htr⟩ := persist_marshals env name cwd isTest r (mergeManifest m r)
      (((((w.log .getwd).log (.readFile (mapPath cwd isTest name))).log
          (.readFile (manifestPath cwd isTest name))).log (.unmarshal info)).log
          (.generateMap { ImageBuffer := img, RemoveSmall := !isTest, Name := name }))
      hmk h1 h2 h3
    rw [htr]
    simp only [World.log, List.append_assoc]
    rw [drop_trace]
    simp

/-- Witness of C1: the asset `plains` with a manifest that has a name and a stale `map`
entry: the serialised manifest has the new `map` record and keeps the name. -/
theorem processMap_serialises_merged_manifest_witness :
    Example.plainsNamed.cwd = .ok "/w" ∧
    (os.ReadFile (mapPath "/w" true "plains") Example.plainsNamed).1 = .ok [137, 80] ∧
    (os.ReadFile (manifestPath "/w" true "plains") Example.plainsNamed).1
      = .ok Example.namedObject ∧
    (json.Unmarshal Example.env Example.namedObject none Example.plainsNamed).1
      = .ok (some Example.namedManifest) ∧
    Example.env.GenerateMap { ImageBuffer := [137, 80], RemoveSmall := !true, Name := "plains" }
      = .ok Example.generated ∧
    (∃ v, Event.marshalIndent v
      ∈ processMap.calls Example.env "plains" true Example.plainsNamed) ∧
    ∀ v, Event.marshalIndent v ∈ processMap.calls Example.env "plains" true Example.plainsNamed →
      GoMap.get v "map"
        = some (.map [("width", .int 10), ("height", .int 10), ("num_land_tiles", .int 100)]) ∧
      GoMap.get v "mini_map"
        = some (.map [("width", .int 5), ("height", .int 5), ("num_land_tiles", .int 25)]) ∧
      GoMap.get v "name" = some (.string "Plains") :=
  ⟨rfl, rfl, rfl, rfl, rfl,
    (processMap_serialises_merged_manifest Example.env "plains" true Example.plainsNamed "/w"
      [137, 80] Example.namedObject Example.namedManifest Example.generated rfl rfl rfl rfl
      rfl).2 rfl rfl rfl rfl,
    fun v hv =>
      ⟨((processMap_serialises_merged_manifest Example.env "plains" true Example.plainsNamed
          "/w" [137, 80] Example.namedObject Example.namedManifest Example.generated rfl rfl
          rfl rfl rfl).1 v hv).1,
        ((processMap_serialises_merged_manifest Example.env "plains" true Example.plainsNamed
          "/w" [137, 80] Example.namedObject Example.namedManifest Example.generated rfl rfl
          rfl rfl rfl).1 v hv).2.1,
        (((processMap_serialises_merged_manifest Example.env "plains" true Example.plainsNamed
          "/w" [137, 80] Example.namedObject Example.namedManifest Example.generated rfl rfl
          rfl rfl rfl).1 v hv).2.2 "name" (by decide) (by decide)).trans rfl⟩⟩

/-- C2: for every catalog and every assignment of outcomes, `loadTerrainMaps` returns under
some schedule; at every moment of a run no goroutine has called `processMap` twice and every
call made by the goroutine of the entry at index `i` carries the `Name` and `IsTest` of that
entry; and when a run has returned, the calls made are, up to order, exactly one call per
entry of the catalog, with the index, `Name` and `IsTest` of the entry. -/
theorem loadTerrainMaps_calls_each_entry_once (catalog : List MapItem)
    (outcome : Nat → Option GoError) :
    (∃ sched r, loadTerrainMaps catalog outcome sched = some r) ∧
    (∀ s, loadTerrainMaps.Reachable catalog outcome s →
      (s.calls.map Prod.fst).Nodup ∧
      ∀ i n t, (i, n, t) ∈ s.calls → catalog[i]? = some { Name := n, IsTest := t }) ∧
    (∀ sched s r, loadTerrainMaps.run outcome sched (loadTerrainMaps.init catalog) = some s →
      s.main = .ret r →
      s.calls.Perm (catalog.enum.map (fun p => (p.1, p.2.Name, p.2.IsTest)))) := by
  have sound : ∀ s, loadTerrainMaps.Inv catalog outcome s → ∀ i n t, (i, n, t) ∈ s.calls →
      catalog[i]? = some { Name := n, IsTest := t } := by
    intro s hinv i n t hc
    obtain ⟨g, hg, _, hm⟩ := hinv.calls_sound i n t hc
    rw [loadTerrainMaps.catalog_getElem?_of_gos catalog outcome s hinv i g hg, hm]
  refine ⟨exists_schedule catalog outcome, ?_, ?_⟩
  · intro s hs
    have hinv := loadTerrainMaps.inv_of_reachable catalog outcome s hs
    exact ⟨hinv.calls_nodup, sound s hinv⟩
  · intro sched s r hrun hm
    have hinv := loadTerrainMaps.inv_of_reachable catalog outcome s
      (loadTerrainMaps.reachable_run catalog outcome sched _ s loadTerrainMaps.Reachable.init
        hrun)
    have hpast : loadTerrainMaps.pastWait s.main = true := by rw [hm]; rfl
    have hnd2 : (catalog.enum.map (fun p => (p.1, p.2.Name, p.2.IsTest))).Nodup := by
      apply List.Nodup.of_map Prod.fst
      rw [List.map_map]
      exact List.nodup_enum_map_fst catalog
    rw [List.perm_ext_iff_of_nodup (List.Nodup.of_map Prod.fst hinv.calls_nodup) hnd2]
    rintro ⟨i, n, t⟩
    constructor
    · intro hc
      have := sound s hinv i n t hc
      exact List.mem_map.2 ⟨(i, { Name := n, IsTest := t }),
        List.mk_mem_enum_iff_getElem?.2 this, rfl⟩
    · intro hc
      obtain ⟨⟨i1, item⟩, hmem, heq⟩ := List.mem_map.1 hc
      simp only [Prod.mk.injEq] at heq
      obtain ⟨rfl, rfl, rfl⟩ := heq
      have hi := List.mk_mem_enum_iff_getElem?.1 hmem
      obtain ⟨g, hg, hd⟩ := loadTerrainMaps.gos_getElem?_of_lt catalog outcome s hinv hpast i1
        (List.getElem?_eq_some.1 hi).1
      have hcat := loadTerrainMaps.catalog_getElem?_of_gos catalog outcome s hinv i1 g hg
      rw [hi] at hcat
      obtain rfl := Option.some.inj hcat
      exact hinv.calls_complete i1 g hg (by rw [hd]; simp)

/-- Witness of C2: the run of the catalog of two entries under the example schedule. -/
theorem loadTerrainMaps_calls_each_entry_once_witness :
    loadTerrainMaps.run Example.outcome Example.schedule
      (loadTerrainMaps.init Example.catalog) = some Example.returned ∧
    Example.returned.calls.Perm [(0, "africa", false), (1, "plains", true)] :=
  ⟨by decide,
    (loadTerrainMaps_calls_each_entry_once Example.catalog Example.outcome).2.2 Example.schedule
      Example.returned (some (.errorString "boom")) (by decide) rfl⟩

/-- C3: for every catalog and every assignment of outcomes, `loadTerrainMaps` returns: some
schedule runs it to its return, every reachable state can be run on to the return, and every
turn lowers a bound on the turns left. A run that returns returns an error exactly when
some job failed; a returned error is the error some job returned, unchanged, namely the
first value sent on the failure channel; and when no job fails the result is `nil`. -/
theorem loadTerrainMaps_returns_a_job_error (catalog : List MapItem)
    (outcome : Nat → Option GoError) :
    (∃ sched r, loadTerrainMaps catalog outcome sched = some r) ∧
    (∀ s, loadTerrainMaps.Reachable catalog outcome s →
      ∃ sched s1 r, loadTerrainMaps.run outcome sched s = some s1 ∧ s1.main = .ret r) ∧
    (∀ s s1 t, loadTerrainMaps.step outcome s t = some s1 →
      loadTerrainMaps.turnsLeft s1 < loadTerrainMaps.turnsLeft s) ∧
    (∀ sched r, loadTerrainMaps catalog outcome sched = some r →
      ((∃ e, r = some e) ↔ ∃ i, i < catalog.length ∧ ∃ e, outcome i = some e) ∧
      (∀ e, r = some e → ∃ i, i < catalog.length ∧ outcome i = some e) ∧
      ((∀ i, i < catalog.length → outcome i = none) → r = none)) ∧
    (∀ sched s r, loadTerrainMaps.run outcome sched (loadTerrainMaps.init catalog) = some s →
      s.main = .ret r → r = s.sent.head?.map Prod.snd) := by
  refine ⟨exists_schedule catalog outcome, ?_, ?_, ?_, ?_⟩
  · intro s hs
    exact loadTerrainMaps.exists_return catalog outcome _ s
      (loadTerrainMaps.inv_of_reachable catalog outcome s hs) (Nat.le_refl _)
  · intro s s1 t h
    exact loadTerrainMaps.turnsLeft_step outcome s s1 t h
  · intro sched r h
    obtain ⟨s, _, hm, hinv⟩ := inv_of_returned catalog outcome sched r h
    have hsome : ∀ e, r = some e → ∃ i, i < catalog.length ∧ outcome i = some e := by
      intro e he
      subst he
      obtain ⟨i, hi, ho, _⟩ := loadTerrainMaps.ret_some catalog outcome s hinv e hm
      exact ⟨i, hi, ho⟩
    have hnone : (∀ i, i < catalog.length → outcome i = none) → r = none := by
      intro hall
      cases r with
      | none => rfl
      | some e =>
        obtain ⟨i, hi, ho⟩ := hsome e rfl
        rw [hall i hi] at ho
        exact absurd ho (by simp)
    refine ⟨⟨?_, ?_⟩, hsome, hnone⟩
    · rintro ⟨e, he⟩
      obtain ⟨i, hi, ho⟩ := hsome e he
      exact ⟨i, hi, e, ho⟩
    · rintro ⟨i, hi, e, ho⟩
      cases r with
      | some e1 => exact ⟨e1, rfl⟩
      | none =>
        have := (loadTerrainMaps.ret_none catalog outcome s hinv hm).2 i hi
        rw [ho] at this
        exact absurd this (by simp)
  · intro sched s r hrun hm
    exact (loadTerrainMaps.inv_of_reachable catalog outcome s
      (loadTerrainMaps.reachable_run catalog outcome sched _ s loadTerrainMaps.Reachable.init
        hrun)).ret_val r hm

/-- Witness of C3: the run of the catalog of two entries whose second job fails. -/
theorem loadTerrainMaps_returns_a_job_error_witness :
    loadTerrainMaps Example.catalog Example.outcome Example.schedule
      = some (some (.errorString "boom")) ∧
    ∃ i, i < Example.catalog.length ∧ Example.outcome i = some (.errorString "boom") :=
  ⟨by decide,
    ((loadTerrainMaps_returns_a_job_error Example.catalog Example.outcome).2.2.2.1
      Example.schedule (some (.errorString "boom")) (by decide)).2.1 _ rfl⟩

/-- C4: every call of the generator made by `processMap(name, isTest)` has
`RemoveSmall = !isTest`, `Name = name` and, as `ImageBuffer`, the bytes read from `image.png`;
the call is made whenever the working directory is known, both input files are read and the
manifest is decoded; so over the catalog `maps` the entries that are not test entries are
generated with `RemoveSmall = true` and the test entries with `RemoveSmall = false`. -/
theorem processMap_generator_args (env : Env) (name : String) (isTest : Bool) (w : World) :
    (∀ args, Event.generateMap args ∈ processMap.calls env name isTest w →
      args.RemoveSmall = (!isTest) ∧ args.Name = name ∧
        ∃ cwd, w.cwd = .ok cwd ∧
          (os.ReadFile (mapPath cwd isTest name) w).1 = .ok args.ImageBuffer) ∧
    (∀ cwd img info manifest, w.cwd = .ok cwd →
      (os.ReadFile (mapPath cwd isTest name) w).1 = .ok img →
      (os.ReadFile (manifestPath cwd isTest name) w).1 = .ok info →
      (json.Unmarshal env info none w).1 = .ok manifest →
      Event.generateMap { ImageBuffer := img, RemoveSmall := !isTest, Name := name }
        ∈ processMap.calls env name isTest w) ∧
    (∀ item ∈ maps, ∀ (env1 : Env) (w1 : World) (args : GeneratorArgs),
      Event.generateMap args ∈ processMap.calls env1 item.Name item.IsTest w1 →
        (item.IsTest = false → args.RemoveSmall = true) ∧
        (item.IsTest = true → args.RemoveSmall = false)) := by
  have key : ∀ (env : Env) (name : String) (isTest : Bool) (w : World) (args : GeneratorArgs),
      Event.generateMap args ∈ processMap.calls env name isTest w →
      args.RemoveSmall = (!isTest) ∧ args.Name = name ∧
        ∃ cwd, w.cwd = .ok cwd ∧
          (os.ReadFile (mapPath cwd isTest name) w).1 = .ok args.ImageBuffer := by
    intro env name isTest w args hmem
    cases hcwd : w.cwd with
    | error err =>
      rw [calls_getwd_err env name isTest w err hcwd] at hmem
      simp at hmem
    | ok cwd =>
      cases himg : (os.ReadFile (mapPath cwd isTest name) w).1 with
      | error err =>
        rw [calls_image_err env name isTest w cwd err hcwd himg] at hmem
        simp at hmem
      | ok img =>
        cases hinfo : (os.ReadFile (manifestPath cwd isTest name) w).1 with
        | error err =>
          rw [calls_info_err env name isTest w cwd img err hcwd himg hinfo] at hmem
          simp at hmem
        | ok info =>
          cases hum : (json.Unmarshal env info none w).1 with
          | error err =>
            rw [calls_parse_err env name isTest w cwd img info err hcwd himg hinfo hum] at hmem
            simp at hmem
          | ok manifest =>
            obtain ⟨evs, hcalls, hevs⟩ :=
              calls_reach env name isTest w cwd img info manifest hcwd himg hinfo hum
            rw [hcalls] at hmem
            simp only [List.cons_append, List.nil_append, List.mem_cons, Event.generateMap.injEq,
              reduceCtorEq, false_or] at hmem
            rcases hmem with rfl | hmem
            · exact ⟨rfl, rfl, cwd, rfl, himg⟩
            · rcases hevs _ hmem with ⟨p, hp⟩ | ⟨p, d, hp⟩ | ⟨m1, r1, _, _, he⟩
              · exact absurd hp (by simp)
              · exact absurd hp (by simp)
              · exact absurd he (by simp)
  refine ⟨key env name isTest w, ?_, ?_⟩
  · intro cwd img info manifest hcwd himg hinfo hum
    obtain ⟨evs, hcalls, _⟩ :=
      calls_reach env name isTest w cwd img info manifest hcwd himg hinfo hum
    rw [hcalls]
    simp
  · intro item _ env1 w1 args hmem
    obtain ⟨h1, _, _⟩ := key env1 item.Name item.IsTest w1 args hmem
    constructor
    · intro ht
      rw [h1, ht]
      rfl
    · intro ht
      rw [h1, ht]
      rfl

/-- Witness of C4: the generator call of the test asset `plains`. -/
theorem processMap_generator_args_witness :
    Event.generateMap { ImageBuffer := [137, 80], RemoveSmall := false, Name := "plains" }
      ∈ processMap.calls Example.env "plains" true Example.plains ∧
    ∀ args, Event.generateMap args ∈ processMap.calls Example.env "plains" true Example.plains →
      args.RemoveSmall = false ∧ args.Name = "plains" :=
  ⟨(processMap_generator_args Example.env "plains" true Example.plains).2.1 "/w" [137, 80]
      Example.emptyObject (some []) rfl rfl rfl rfl,
    fun args h =>
      ⟨((processMap_generator_args Example.env "plains" true Example.plains).1 args h).1,
        ((processMap_generator_args Example.env "plains" true Example.plains).1 args h).2.1⟩⟩

/-- C5: let `item` be an entry of the catalog `maps` and the working directory be known. If
its `info.json` cannot be read (its `image.png` being read), `processMap` returns the
read-info-file error wrapping the cause, the text of the error contains the name of the
asset, and the calls made are `os.Getwd` and the two reads, so the generator is not called;
and when that error is the outcome of the only failing job of a catalog holding the entry,
`loadTerrainMaps` returns under some schedule and every run that returns returns that same
error. Likewise, if its `image.png` cannot be read, `processMap` returns the read-map-file
error wrapping the cause, its text contains the name of the asset, and the only calls made are
`os.Getwd` and the read of `image.png`: `info.json` is not looked at. -/
theorem load_errors_name_the_asset (env : Env) (item : MapItem) (hitem : item ∈ maps)
    (w : World) (cwd : String) (hcwd : w.cwd = .ok cwd) :
    (∀ img cause, (os.ReadFile (mapPath cwd item.IsTest item.Name) w).1 = .ok img →
      (os.ReadFile (manifestPath cwd item.IsTest item.Name) w).1 = .error cause →
      (processMap env item.Name item.IsTest w).1 = .returned (some (fmt.Errorf
        ("failed to read info file " ++ manifestPath cwd item.IsTest item.Name ++ ": "
          ++ cause.Error) cause)) ∧
      item.Name.data <:+: (fmt.Errorf
        ("failed to read info file " ++ manifestPath cwd item.IsTest item.Name ++ ": "
          ++ cause.Error) cause).Error.data ∧
      processMap.calls env item.Name item.IsTest w =
        [.getwd, .readFile (mapPath cwd item.IsTest item.Name),
          .readFile (manifestPath cwd item.IsTest item.Name)] ∧
      (∀ args, Event.generateMap args ∉ processMap.calls env item.Name item.IsTest w) ∧
      ∀ (catalog : List MapItem) (outcome : Nat → Option GoError) (i : Nat),
        catalog[i]? = some item →
        outcome i = some (fmt.Errorf
          ("failed to read info file " ++ manifestPath cwd item.IsTest item.Name ++ ": "
            ++ cause.Error) cause) →
        (∀ j, j ≠ i → outcome j = none) →
        (∃ sched, loadTerrainMaps catalog outcome sched = some (some (fmt.Errorf
          ("failed to read info file " ++ manifestPath cwd item.IsTest item.Name ++ ": "
            ++ cause.Error) cause))) ∧
        ∀ sched r, loadTerrainMaps catalog outcome sched = some r →
          r = some (fmt.Errorf
            ("failed to read info file " ++ manifestPath cwd item.IsTest item.Name ++ ": "
              ++ cause.Error) cause)) ∧
    (∀ cause, (os.ReadFile (mapPath cwd item.IsTest item.Name) w).1 = .error cause →
      (processMap env item.Name item.IsTest w).1 = .returned (some (fmt.Errorf
        ("failed to read map file " ++ mapPath cwd item.IsTest item.Name ++ ": "
          ++ cause.Error) cause)) ∧
      item.Name.data <:+: (fmt.Errorf
        ("failed to read map file " ++ mapPath cwd item.IsTest item.Name ++ ": "
          ++ cause.Error) cause).Error.data ∧
      processMap.calls env item.Name item.IsTest w
        = [.getwd, .readFile (mapPath cwd item.IsTest item.Name)]) := by
  have hplain := maps_plain item hitem
  have h := load_errors_of_plain_name env item.Name item.IsTest w cwd hcwd hplain
  constructor
  · intro img cause himg hinfo
    obtain ⟨h1, h2, h3, h4⟩ := h.2 img cause himg hinfo
    refine ⟨h1, h2, h3, ?_, ?_⟩
    · intro args hmem
      rw [h3] at hmem
      simp at hmem
    · intro catalog outcome i hi ho hothers
      exact h4 catalog outcome i (List.getElem?_eq_some.1 hi).1 ho hothers
  · intro cause himg
    exact h.1 cause himg

set_option maxRecDepth 100000 in
/-- Witness of C5: the catalog entry `plains` without its `info.json`, as the last entry of
the catalog `maps`, the only one whose job fails. -/
theorem load_errors_name_the_asset_witness :
    ({ Name := "plains", IsTest := true } : MapItem) ∈ maps ∧
    Example.plainsNoInfo.cwd = .ok "/w" ∧
    (os.ReadFile (mapPath "/w" true "plains") Example.plainsNoInfo).1 = .ok [137, 80] ∧
    (os.ReadFile (manifestPath "/w" true "plains") Example.plainsNoInfo).1
      = .error (.pathError .opOpen "/w/assets/test_maps/plains/info.json"
          "no such file or directory") ∧
    maps[27]? = some { Name := "plains", IsTest := true } ∧
    (processMap Example.env "plains" true Example.plainsNoInfo).1
      = .returned (some (.wrapError
        ("failed to read info file /w/assets/test_maps/plains/info.json: " ++
          "open /w/assets/test_maps/plains/info.json: no such file or directory")
        (.pathError .opOpen "/w/assets/test_maps/plains/info.json"
          "no such file or directory"))) ∧
    "plains".data <:+:
      ("failed to read info file /w/assets/test_maps/plains/info.json: " ++
        "open /w/assets/test_maps/plains/info.json: no such file or directory").data ∧
    processMap.calls Example.env "plains" true Example.plainsNoInfo =
      [.getwd, .readFile "/w/assets/test_maps/plains/image.png",
        .readFile "/w/assets/test_maps/plains/info.json"] ∧
    ∀ sched r,
      loadTerrainMaps maps
        (fun i => if i = 27 then some (.wrapError
          ("failed to read info file /w/assets/test_maps/plains/info.json: " ++
            "open /w/assets/test_maps/plains/info.json: no such file or directory")
          (.pathError .opOpen "/w/assets/test_maps/plains/info.json"
            "no such file or directory")) else none) sched = some r →
      r = some (.wrapError
          ("failed to read info file /w/assets/test_maps/plains/info.json: " ++
            "open /w/assets/test_maps/plains/info.json: no such file or directory")
          (.pathError .opOpen "/w/assets/test_maps/plains/info.json"
            "no such file or directory")) :=
  ⟨by decide, rfl, rfl, rfl, rfl,
    ((load_errors_name_the_asset Example.env { Name := "plains", IsTest := true } (by decide)
      Example.plainsNoInfo "/w" rfl).1 [137, 80] _ rfl rfl).1,
    ((load_errors_name_the_asset Example.env { Name := "plains", IsTest := true } (by decide)
      Example.plainsNoInfo "/w" rfl).1 [137, 80] _ rfl rfl).2.1,
    ((load_errors_name_the_asset Example.env { Name := "plains", IsTest := true } (by decide)
      Example.plainsNoInfo "/w" rfl).1 [137, 80] _ rfl rfl).2.2.1,
    (((load_errors_name_the_asset Example.env { Name := "plains", IsTest := true } (by decide)
      Example.plainsNoInfo "/w" rfl).1 [137, 80] _ rfl rfl).2.2.2.2 maps _ 27 rfl
        rfl (by intro j hj; simp [hj])).2⟩

/-- C6: when `processMap` has read its inputs, decoded the manifest `m`, generated `r` and
created the output directory, a failure of `os.WriteFile` on `map.bin`, `mini_map.bin`,
`thumbnail.webp` or `manifest.json` (the earlier writes having succeeded) makes it return the
write error wrapping the `*PathError` of that file; the text of the error contains the path
of the file that failed, and the texts of the errors for two different files differ, for each
of the six pairs of files. -/
theorem write_errors_name_the_file (env : Env) (name : String) (isTest : Bool) (w : World)
    (cwd : String) (img info : Bytes) (m : GoMap) (r : MapResult)
    (hcwd : w.cwd = .ok cwd)
    (himg : (os.ReadFile (mapPath cwd isTest name) w).1 = .ok img)
    (hinfo : (os.ReadFile (manifestPath cwd isTest name) w).1 = .ok info)
    (hum : (json.Unmarshal env info none w).1 = .ok (some m))
    (hgen : env.GenerateMap { ImageBuffer := img, RemoveSmall := !isTest, Name := name }
      = .ok r)
    (hmk : w.mkdirFault (outputPath cwd isTest name) = none) :
    (∀ ft, w.writeFault (filepath.Join [outputPath cwd isTest name, "map.bin"]) = some ft →
      (processMap env name isTest w).1 = .returned (some (writeError "combined binary" name
        (filepath.Join [outputPath cwd isTest name, "map.bin"]) ft))) ∧
    (∀ ft, w.writeFault (filepath.Join [outputPath cwd isTest name, "map.bin"]) = none →
      w.writeFault (filepath.Join [outputPath cwd isTest name, "mini_map.bin"]) = some ft →
      (processMap env name isTest w).1 = .returned (some (writeError "combined binary" name
        (filepath.Join [outputPath cwd isTest name, "mini_map.bin"]) ft))) ∧
    (∀ ft, w.writeFault (filepath.Join [outputPath cwd isTest name, "map.bin"]) = none →
      w.writeFault (filepath.Join [outputPath cwd isTest name, "mini_map.bin"]) = none →
      w.writeFault (filepath.Join [outputPath cwd isTest name, "thumbnail.webp"]) = some ft →
      (processMap env name isTest w).1 = .returned (some (writeError "thumbnail" name
        (filepath.Join [outputPath cwd isTest name, "thumbnail.webp"]) ft))) ∧
    (∀ ft bytes, w.writeFault (filepath.Join [outputPath cwd isTest name, "map.bin"]) = none →
      w.writeFault (filepath.Join [outputPath cwd isTest name, "mini_map.bin"]) = none →
      w.writeFault (filepath.Join [outputPath cwd isTest name, "thumbnail.webp"]) = none →
      env.MarshalIndent (mergeManifest m r) "" "  " = .ok bytes →
      w.writeFault (filepath.Join [outputPath cwd isTest name, "manifest.json"]) = some ft →
      (processMap env name isTest w).1 = .returned (some (writeError "manifest" name
        (filepath.Join [outputPath cwd isTest name, "manifest.json"]) ft))) ∧
    (∀ what path ft, path.data <:+: (writeError what name path ft).Error.data) ∧
    (∀ ft1 ft2,
      (writeError "combined binary" name
          (filepath.Join [outputPath cwd isTest name, "map.bin"]) ft1).Error
        ≠ (writeError "combined binary" name
          (filepath.Join [outputPath cwd isTest name, "mini_map.bin"]) ft2).Error ∧
      (writeError "combined binary" name
          (filepath.Join [outputPath cwd isTest name, "map.bin"]) ft1).Error
        ≠ (writeError "thumbnail" name
          (filepath.Join [outputPath cwd isTest name, "thumbnail.webp"]) ft2).Error ∧
      (writeError "combined binary" name
          (filepath.Join [outputPath cwd isTest name, "map.bin"]) ft1).Error
        ≠ (writeError "manifest" name
          (filepath.Join [outputPath cwd isTest name, "manifest.json"]) ft2).Error ∧
      (writeError "combined binary" name
          (filepath.Join [outputPath cwd isTest name, "mini_map.bin"]) ft1).Error
        ≠ (writeError "thumbnail" name
          (filepath.Join [outputPath cwd isTest name, "thumbnail.webp"]) ft2).Error ∧
      (writeError "combined binary" name
          (filepath.Join [outputPath cwd isTest name, "mini_map.bin"]) ft1).Error
        ≠ (writeError "manifest" name
          (filepath.Join [outputPath cwd isTest name, "manifest.json"]) ft2).Error ∧
      (writeError "thumbnail" name
          (filepath.Join [outputPath cwd isTest name, "thumbnail.webp"]) ft1).Error
        ≠ (writeError "manifest" name
          (filepath.Join [outputPath cwd isTest name, "manifest.json"]) ft2).Error) := by
  have hp := processMap_persist env name isTest w cwd img info m r hcwd himg hinfo hum hgen
  refine ⟨?_, ?_, ?_, ?_, ?_, ?_⟩
  · intro ft h1
    rw [hp, writeError_combined]
    exact persist_fail_mapBin env name cwd isTest r _ _ ft hmk h1
  · intro ft h1 h2
    rw [hp, writeError_combined]
    exact persist_fail_miniMapBin env name cwd isTest r _ _ ft hmk h1 h2
  · intro ft h1 h2 h3
    rw [hp, writeError_thumbnail]
    exact persist_fail_thumbnail env name cwd isTest r _ _ ft hmk h1 h2 h3
  · intro ft bytes h1 h2 h3 hser h4
    rw [hp, writeError_manifest]
    exact persist_fail_manifest env name cwd isTest r _ _ ft bytes hmk h1 h2 h3 hser h4
  · intro what path ft
    exact writeError_names_path what name path ft
  · intro ft1 ft2
    refine ⟨?_, ?_, ?_, ?_, ?_, ?_⟩
    · exact writeError_ne_of_file _ name _ "map.bin" "mini_map.bin" ft1 ft2 plain_mapBin
        plain_miniMapBin 1 (by decide) (by decide) (by decide)
    · exact writeError_ne_of_what _ _ name _ _ ft1 ft2 (by decide) (by decide) (by decide)
    · exact writeError_ne_of_what _ _ name _ _ ft1 ft2 (by decide) (by decide) (by decide)
    · exact writeError_ne_of_what _ _ name _ _ ft1 ft2 (by decide) (by decide) (by decide)
    · exact writeError_ne_of_what _ _ name _ _ ft1 ft2 (by decide) (by decide) (by decide)
    · exact writeError_ne_of_what _ _ name _ _ ft1 ft2 (by decide) (by decide) (by decide)

/-- Witness of C6: the asset `plains` when the write of `mini_map.bin` is refused. -/
theorem write_errors_name_the_file_witness :
    Example.plainsRefused.cwd = .ok "/w" ∧
    (os.ReadFile (mapPath "/w" true "plains") Example.plainsRefused).1 = .ok [137, 80] ∧
    (os.ReadFile (manifestPath "/w" true "plains") Example.plainsRefused).1
      = .ok Example.emptyObject ∧
    (json.Unmarshal Example.env Example.emptyObject none Example.plainsRefused).1
      = .ok (some []) ∧
    Example.env.GenerateMap { ImageBuffer := [137, 80], RemoveSmall := !true, Name := "plains" }
      = .ok Example.generated ∧
    Example.plainsRefused.mkdirFault (outputPath "/w" true "plains") = none ∧
    Example.plainsRefused.writeFault (filepath.Join [outputPath "/w" true "plains", "map.bin"])
      = none ∧
    Example.plainsRefused.writeFault
        (filepath.Join [outputPath "/w" true "plains", "mini_map.bin"])
      = some { op := .opOpen, errno := "permission denied", left := [] } ∧
    (processMap Example.env "plains" true Example.plainsRefused).1 =
      .returned (some (writeError "combined binary" "plains"
        (filepath.Join [outputPath "/w" true "plains", "mini_map.bin"])
        { op := .opOpen, errno := "permission denied", left := [] })) :=
  ⟨rfl, rfl, rfl, rfl, rfl, rfl, rfl, rfl,
    (write_errors_name_the_file Example.env "plains" true Example.plainsRefused "/w" [137, 80]
      Example.emptyObject [] Example.generated rfl rfl rfl rfl rfl rfl).2.1
      { op := .opOpen, errno := "permission denied", left := [] } rfl rfl⟩

/-- Counterexample of C7 as stated: for the asset `plains` with a readable `image.png`, a
readable but empty `info.json`, a generator that succeeds and every write permitted,
`processMap` does not succeed: it returns the parse error. -/
theorem readable_manifest_need_not_parse :
    Example.plainsEmpty.cwd = .ok "/w" ∧
    (os.ReadFile (mapPath "/w" true "plains") Example.plainsEmpty).1 = .ok [137, 80] ∧
    (os.ReadFile (manifestPath "/w" true "plains") Example.plainsEmpty).1 = .ok [] ∧
    Example.env.GenerateMap { ImageBuffer := [137, 80], RemoveSmall := !true, Name := "plains" }
      = .ok Example.generated ∧
    Example.plainsEmpty.mkdirFault (outputPath "/w" true "plains") = none ∧
    Example.plainsEmpty.writeFault (filepath.Join [outputPath "/w" true "plains", "map.bin"])
      = none ∧
    Example.plainsEmpty.writeFault
      (filepath.Join [outputPath "/w" true "plains", "mini_map.bin"]) = none ∧
    Example.plainsEmpty.writeFault
      (filepath.Join [outputPath "/w" true "plains", "thumbnail.webp"]) = none ∧
    Example.plainsEmpty.writeFault
      (filepath.Join [outputPath "/w" true "plains", "manifest.json"]) = none ∧
    (processMap Example.env "plains" true Example.plainsEmpty).1
      = .returned (some (.wrapError
          "failed to parse info.json for plains: unexpected end of JSON input"
          (.errorString "unexpected end of JSON input"))) ∧
    (processMap Example.env "plains" true Example.plainsEmpty).1 ≠ .returned none :=
  ⟨rfl, rfl, rfl, rfl, rfl, rfl, rfl, rfl, rfl, rfl, by decide⟩

/-- C7 as amended: let the working directory be known, `image.png` and `info.json` be read,
`info.json` decode to the non-nil manifest `m`, the generator return `r`, the merged manifest
serialise to `bytes`, and the creation of the output directory and the four writes be
permitted. Then, whatever files and directories exist beforehand, `processMap` returns `nil`
and afterwards `map.bin`, `mini_map.bin`, `thumbnail.webp` and `manifest.json` of the output
directory hold `r.Map`, `r.MiniMap`, `r.Thumbnail` and `bytes`, every other file being
unchanged; and a second run in the world so reached returns `nil` again and leaves every
file as it is. -/
theorem processMap_rerun_keeps_files (env : Env) (name : String) (isTest : Bool) (w : World)
    (cwd : String) (img info : Bytes) (m : GoMap) (r : MapResult) (bytes : Bytes)
    (hcwd : w.cwd = .ok cwd)
    (himg : (os.ReadFile (mapPath cwd isTest name) w).1 = .ok img)
    (hinfo : (os.ReadFile (manifestPath cwd isTest name) w).1 = .ok info)
    (hum : (json.Unmarshal env info none w).1 = .ok (some m))
    (hgen : env.GenerateMap { ImageBuffer := img, RemoveSmall := !isTest, Name := name }
      = .ok r)
    (hser : env.MarshalIndent (mergeManifest m r) "" "  " = .ok bytes)
    (hmk : w.mkdirFault (outputPath cwd isTest name) = none)
    (h1 : w.writeFault (filepath.Join [outputPath cwd isTest name, "map.bin"]) = none)
    (h2 : w.writeFault (filepath.Join [outputPath cwd isTest name, "mini_map.bin"]) = none)
    (h3 : w.writeFault (filepath.Join [outputPath cwd isTest name, "thumbnail.webp"]) = none)
    (h4 : w.writeFault (filepath.Join [outputPath cwd isTest name, "manifest.json"]) = none) :
    (processMap env name isTest w).1 = .returned none ∧
    (processMap env name isTest w).2.files
        (filepath.Join [outputPath cwd isTest name, "map.bin"]) = some r.Map ∧
    (processMap env name isTest w).2.files
        (filepath.Join [outputPath cwd isTest name, "mini_map.bin"]) = some r.MiniMap ∧
    (processMap env name isTest w).2.files
        (filepath.Join [outputPath cwd isTest name, "thumbnail.webp"]) = some r.Thumbnail ∧
    (processMap env name isTest w).2.files
        (filepath.Join [outputPath cwd isTest name, "manifest.json"]) = some bytes ∧
    (∀ q, q ≠ filepath.Join [outputPath cwd isTest name, "map.bin"] →
      q ≠ filepath.Join [outputPath cwd isTest name, "mini_map.bin"] →
      q ≠ filepath.Join [outputPath cwd isTest name, "thumbnail.webp"] →
      q ≠ filepath.Join [outputPath cwd isTest name, "manifest.json"] →
      (processMap env name isTest w).2.files q = w.files q) ∧
    (processMap env name isTest (processMap env name isTest w).2).1 = .returned none ∧
    (processMap env name isTest (processMap env name isTest w).2).2.files
      = (processMap env name isTest w).2.files := by
  obtain ⟨r1, c1, rf1, mf1, wf1, f1⟩ := processMap_ok env name isTest w cwd img info m r bytes
    hcwd himg hinfo hum hgen hser hmk h1 h2 h3 h4
  have n12 := outputFile_ne cwd isTest name "map.bin" "mini_map.bin" plain_mapBin
    plain_miniMapBin (by decide)
  have n13 := outputFile_ne cwd isTest name "map.bin" "thumbnail.webp" plain_mapBin
    plain_thumbnail (by decide)
  have n14 := outputFile_ne cwd isTest name "map.bin" "manifest.json" plain_mapBin
    plain_manifest (by decide)
  have n23 := outputFile_ne cwd isTest name "mini_map.bin" "thumbnail.webp" plain_miniMapBin
    plain_thumbnail (by decide)
  have n24 := outputFile_ne cwd isTest name "mini_map.bin" "manifest.json" plain_miniMapBin
    plain_manifest (by decide)
  have n34 := outputFile_ne cwd isTest name "thumbnail.webp" "manifest.json" plain_thumbnail
    plain_manifest (by decide)
  have hkeep : ∀ f, filepath.Plain f.data → f ≠ "map.bin" → f ≠ "mini_map.bin" →
      f ≠ "thumbnail.webp" → f ≠ "manifest.json" →
      (processMap env name isTest w).2.files
          (filepath.Join [cwd, "assets", mapDir isTest, name, f])
        = w.files (filepath.Join [cwd, "assets", mapDir isTest, name, f]) := by
    intro f hf e1 e2 e3 e4
    rw [f1]
    simp only [input_ne_output cwd isTest name f "map.bin" hf plain_mapBin e1,
      input_ne_output cwd isTest name f "mini_map.bin" hf plain_miniMapBin e2,
      input_ne_output cwd isTest name f "thumbnail.webp" hf plain_thumbnail e3,
      input_ne_output cwd isTest name f "manifest.json" hf plain_manifest e4, if_false]
  have himg2 : (os.ReadFile (mapPath cwd isTest name) (processMap env name isTest w).2).1
      = .ok img := by
    exact (ReadFile_fst_congr (mapPath cwd isTest name) w (processMap env name isTest w).2
      (hkeep "image.png" plain_image (by decide) (by decide) (by decide) (by decide))
      (by rw [rf1])).trans himg
  have hinfo2 : (os.ReadFile (manifestPath cwd isTest name) (processMap env name isTest w).2).1
      = .ok info := by
    exact (ReadFile_fst_congr (manifestPath cwd isTest name) w (processMap env name isTest w).2
      (hkeep "info.json" plain_info (by decide) (by decide) (by decide) (by decide))
      (by rw [rf1])).trans hinfo
  have hum2 : (json.Unmarshal env info none (processMap env name isTest w).2).1
      = .ok (some m) := by
    rw [Unmarshal_frame env info none w]
    exact hum
  obtain ⟨r2, _, _, _, _, f2⟩ := processMap_ok env name isTest (processMap env name isTest w).2
    cwd img info m r bytes (by rw [c1]; exact hcwd) himg2 hinfo2 hum2 hgen hser
    (by rw [mf1]; exact hmk) (by rw [wf1]; exact h1) (by rw [wf1]; exact h2)
    (by rw [wf1]; exact h3) (by rw [wf1]; exact h4)
  refine ⟨r1, ?_, ?_, ?_, ?_, ?_, r2, ?_⟩
  · rw [f1]; simp only [n14, n13, n12, if_false, if_true]
  · rw [f1]; simp only [n24, n23, if_false, if_true]
  · rw [f1]; simp only [n34, if_false, if_true]
  · rw [f1]; simp only [if_true]
  · intro q q1 q2 q3 q4
    rw [f1]
    simp only [q1, q2, q3, q4, if_false]
  · rw [f2]
    funext q
    rw [f1]
    by_cases q4 : q = filepath.Join [outputPath cwd isTest name, "manifest.json"]
    · simp only [q4, if_true]
    · by_cases q3 : q = filepath.Join [outputPath cwd isTest name, "thumbnail.webp"]
      · simp only [q3, n34, if_false, if_true]
      · by_cases q2 : q = filepath.Join [outputPath cwd isTest name, "mini_map.bin"]
        · simp only [q2, n24, n23, if_false, if_true]
        · by_cases q1 : q = filepath.Join [outputPath cwd isTest name, "map.bin"]
          · simp only [q1, n14, n13, n12, if_false, if_true]
          · simp only [q1, q2, q3, q4, if_false]

/-- Witness of C7 as amended: the asset `plains` with the manifest `{}`. -/
theorem processMap_rerun_keeps_files_witness :
    Example.plains.cwd = .ok "/w" ∧
    (os.ReadFile (mapPath "/w" true "plains") Example.plains).1 = .ok [137, 80] ∧
    (os.ReadFile (manifestPath "/w" true "plains") Example.plains).1
      = .ok Example.emptyObject ∧
    (json.Unmarshal Example.env Example.emptyObject none Example.plains).1 = .ok (some []) ∧
    Example.env.GenerateMap { ImageBuffer := [137, 80], RemoveSmall := !true, Name := "plains" }
      = .ok Example.generated ∧
    Example.env.MarshalIndent (mergeManifest [] Example.generated) "" "  " = .ok [8, 3] ∧
    (processMap Example.env "plains" true Example.plains).1 = .returned none ∧
    (processMap Example.env "plains" true Example.plains).2.files
      "/w/generated/test_maps/plains/manifest.json" = some [8, 3] ∧
    (processMap Example.env "plains" true
      (processMap Example.env "plains" true Example.plains).2).2.files
      = (processMap Example.env "plains" true Example.plains).2.files :=
  ⟨rfl, rfl, rfl, rfl, rfl, rfl,
    (processMap_rerun_keeps_files Example.env "plains" true Example.plains "/w" [137, 80]
      Example.emptyObject [] Example.generated [8, 3] rfl rfl rfl rfl rfl rfl rfl rfl rfl rfl
      rfl).1,
    (processMap_rerun_keeps_files Example.env "plains" true Example.plains "/w" [137, 80]
      Example.emptyObject [] Example.generated [8, 3] rfl rfl rfl rfl rfl rfl rfl rfl rfl rfl
      rfl).2.2.2.2.1,
    (processMap_rerun_keeps_files Example.env "plains" true Example.plains "/w" [137, 80]
      Example.emptyObject [] Example.generated [8, 3] rfl rfl rfl rfl rfl rfl rfl rfl rfl rfl
      rfl).2.2.2.2.2.2.2⟩

/-- C8: in every reachable state of `loadTerrainMaps` the capacity of the failure channel is
the length of the catalog; no goroutine has completed two sends, and every completed send
carries the error its own call of `processMap` returned; so at most as many values were
sent as the catalog has entries. A goroutine standing before its send finds the channel
not full and its turn completes the send. The main goroutine is draining the channel, or has
returned, only when a goroutine was started for every entry and all of them have finished.
The program has not panicked. -/
theorem errChan_send_never_blocks (catalog : List MapItem) (outcome : Nat → Option GoError)
    (s : State) (hs : loadTerrainMaps.Reachable catalog outcome s) :
    s.cap = catalog.length ∧
    (s.sent.map Prod.fst).Nodup ∧
    (∀ i e, (i, e) ∈ s.sent → i < catalog.length ∧ outcome i = some e) ∧
    s.sent.length ≤ catalog.length ∧
    (∀ i g e, s.gos[i]? = some g → g.pc = .send e →
      s.errChan.length < s.cap ∧
      loadTerrainMaps.step outcome s (.go i) =
        some { s with errChan := s.errChan ++ [some e], sent := s.sent ++ [(i, e)],
                      gos := s.gos.set i { g with pc := .exit } }) ∧
    (s.main = .drain ∨ (∃ r, s.main = .ret r) →
      s.gos.length = catalog.length ∧ ∀ g ∈ s.gos, g.pc = .done) ∧
    s.crash = none := by
  have hinv := loadTerrainMaps.inv_of_reachable catalog outcome s hs
  have hle := loadTerrainMaps.gos_length_le catalog outcome s hinv
  refine ⟨hinv.cap_eq, hinv.sent_nodup, ?_, ?_, ?_, ?_, hinv.no_crash⟩
  · intro i e hie
    obtain ⟨ho, g, hg, _⟩ := hinv.sent_sound i e hie
    have := loadTerrainMaps.lt_length_of_getElem? _ _ _ hg
    exact ⟨by omega, ho⟩
  · have := loadTerrainMaps.sent_length_le catalog outcome s hinv
    omega
  · intro i g e hg hpc
    constructor
    · rw [loadTerrainMaps.errChan_length catalog outcome s hinv i g hg (by simp [hpc])]
      exact loadTerrainMaps.sent_length_lt catalog outcome s hinv i g e hg hpc
    · have hstep : loadTerrainMaps.step outcome s (.go i)
          = loadTerrainMaps.stepGo outcome s i := by
        unfold loadTerrainMaps.step
        rw [hinv.no_crash]
        rfl
      rw [hstep]
      exact loadTerrainMaps.stepGo_send catalog outcome s hinv i g e hg hpc
  · intro hm
    have hpast : loadTerrainMaps.pastWait s.main = true := by
      rcases hm with hm | ⟨r, hm⟩ <;> rw [hm] <;> rfl
    exact ⟨loadTerrainMaps.gos_length_eq catalog outcome s hinv hpast, hinv.late hpast⟩

/-- Witness of C8: the state of the example run in which the second goroutine stands before
its send. -/
theorem errChan_send_never_blocks_witness :
    loadTerrainMaps.run Example.outcome [.main, .main, .main, .main, .go 1]
      (loadTerrainMaps.init Example.catalog) = some Example.beforeSend ∧
    Example.beforeSend.errChan.length < Example.beforeSend.cap ∧
    Example.beforeSend.sent.length ≤ Example.catalog.length :=
  ⟨by decide,
    ((errChan_send_never_blocks Example.catalog Example.outcome Example.beforeSend
      (loadTerrainMaps.reachable_run Example.catalog Example.outcome
        [.main, .main, .main, .main, .go 1] _ _ loadTerrainMaps.Reachable.init
        (by decide))).2.2.2.2.1 1 _ (.errorString "boom") rfl rfl).1,
    (errChan_send_never_blocks Example.catalog Example.outcome Example.beforeSend
      (loadTerrainMaps.reachable_run Example.catalog Example.outcome
        [.main, .main, .main, .main, .go 1] _ _ loadTerrainMaps.Reachable.init
        (by decide))).2.2.2.1⟩

/-- C9: no two entries of the catalog `maps` have the same `IsTest` and `Name`; hence, for
every working directory, two entries at different positions have different input
directories, different `image.png` paths, different output directories, and no output file
of one is an output file of the other. -/
theorem maps_entries_have_distinct_paths :
    (maps.map (fun it => (it.IsTest, it.Name))).Nodup ∧
    ∀ (cwd : String) (i j : Nat) (a b : MapItem), maps[i]? = some a → maps[j]? = some b →
      i ≠ j →
      filepath.Join [cwd, "assets", mapDir a.IsTest, a.Name]
        ≠ filepath.Join [cwd, "assets", mapDir b.IsTest, b.Name] ∧
      mapPath cwd a.IsTest a.Name ≠ mapPath cwd b.IsTest b.Name ∧
      outputPath cwd a.IsTest a.Name ≠ outputPath cwd b.IsTest b.Name ∧
      ∀ f g, filepath.Plain f.data → filepath.Plain g.data →
        filepath.Join [outputPath cwd a.IsTest a.Name, f]
          ≠ filepath.Join [outputPath cwd b.IsTest b.Name, g] := by
  refine ⟨maps_nodup, ?_⟩
  intro cwd i j a b ha hb hij
  have hne := maps_entries_ne i j a b ha hb hij
  have pa := maps_plain a (loadTerrainMaps.mem_of_getElem?_eq maps i a ha)
  have pb := maps_plain b (loadTerrainMaps.mem_of_getElem?_eq maps j b hb)
  refine ⟨?_, ?_, ?_, ?_⟩
  · exact dir_ne_of_entries_ne cwd "assets" plain_assets a b pa pb [] [] (by simp) (by simp) hne
  · exact dir_ne_of_entries_ne cwd "assets" plain_assets a b pa pb ["image.png"] ["image.png"]
      (by simpa using plain_image) (by simpa using plain_image) hne
  · exact dir_ne_of_entries_ne cwd "generated" plain_generated a b pa pb [] [] (by simp)
      (by simp) hne
  · intro f g hf hg
    rw [outputFile_flat, outputFile_flat]
    exact dir_ne_of_entries_ne cwd "generated" plain_generated a b pa pb [f] [g]
      (by simpa using hf) (by simpa using hg) hne

/-- C10 (the code breaks it): with `image.png` and `info.json` read, the manifest decoding to
the nil value of the literal `null`, and the generator succeeding, `processMap` returns no
error: it panics at the assignment `manifest["map"] = ...`. -/
theorem processMap_panics_on_null_manifest (env : Env) (name : String) (isTest : Bool)
    (w : World) (cwd : String) (img info : Bytes) (r : MapResult)
    (hcwd : w.cwd = .ok cwd)
    (himg : (os.ReadFile (mapPath cwd isTest name) w).1 = .ok img)
    (hinfo : (os.ReadFile (manifestPath cwd isTest name) w).1 = .ok info)
    (hdec : env.jsonDecode info = .ok .null)
    (hgen : env.GenerateMap { ImageBuffer := img, RemoveSmall := !isTest, Name := name }
      = .ok r) :
    (json.Unmarshal env info none w).1 = .ok none ∧
    (processMap env name isTest w).1 = .panicked "assignment to entry in nil map" := by
  have hum : (json.Unmarshal env info none w).1 = .ok none := by
    simp [json.Unmarshal, hdec]
  refine ⟨hum, ?_⟩
  rw [processMap_nil env name isTest w cwd img info r hcwd himg hinfo hum hgen]

/-- Witness of C10: the asset `plains` with the manifest `null`. -/
theorem processMap_panics_on_null_manifest_witness :
    Example.plainsNull.cwd = .ok "/w" ∧
    (os.ReadFile (mapPath "/w" true "plains") Example.plainsNull).1 = .ok [137, 80] ∧
    (os.ReadFile (manifestPath "/w" true "plains") Example.plainsNull).1
      = .ok Example.nullLiteral ∧
    Example.env.jsonDecode Example.nullLiteral = .ok .null ∧
    (processMap Example.env "plains" true Example.plainsNull).1
      = .panicked "assignment to entry in nil map" :=
  ⟨rfl, rfl, rfl, rfl,
    (processMap_panics_on_null_manifest Example.env "plains" true Example.plainsNull "/w"
      [137, 80] Example.nullLiteral Example.generated rfl rfl rfl rfl rfl).2⟩

end MapGenerator
